import Mathlib

/-!
The authenticated request pipeline of go-binance (v2, broker client).

A shallow embedding of `v2/borker/client.go` (`Client.parseRequest`, `Client.callAPI`,
`Client.SubAccountTransfer`, `Client.CreateSubAccount`), `v2/common/errors.go`, the request
builders of `v2/bswap_liquidity_service.go` and `ListDepositsService` of `v2/deposit_service.go`,
together with the parts of the Go standard library they call or that the properties name
(`net/url`, `crypto/hmac`, `crypto/sha256`, `encoding/json`, `fmt`).

Conventions of the embedding:

* a Go `string` is a Lean `String`; wherever Go looks at the bytes of a string (percent-encoding,
  hashing, sorting) the embedding uses the UTF-8 bytes of the Lean string, so the strings covered
  are the valid UTF-8 ones;
* a Go `int64` is an `Int`, and arithmetic on it is wrapped into the 64-bit range explicitly;
* an `error` is a value of `GoError`, `nil` is `none`;
* the wall clock (`time.Now()`), the transport (`c.do` / `HTTPClient.Do`) and the request
  validation are arguments of the functions that use them.
-/

namespace Binance

/-! ## Bytes and text -/

/-- UTF-8 bytes of one character. -/
def utf8Char (c : Char) : List Nat :=
  let n := c.toNat
  if n < 0x80 then [n]
  else if n < 0x800 then [0xC0 + n / 64, 0x80 + n % 64]
  else if n < 0x10000 then [0xE0 + n / 4096, 0x80 + n / 64 % 64, 0x80 + n % 64]
  else [0xF0 + n / 262144, 0x80 + n / 4096 % 64, 0x80 + n / 64 % 64, 0x80 + n % 64]

/-- Go `[]byte(s)`: the UTF-8 bytes of a string. -/
def bytesOf (s : String) : List Nat :=
  s.data.flatMap utf8Char

/-- Lowercase hexadecimal digit of a value below 16 (`"0123456789abcdef"[d]`). -/
def lowerHexDigit (d : Nat) : Char :=
  if d < 10 then Char.ofNat (48 + d) else Char.ofNat (87 + d)

/-- Uppercase hexadecimal digit of a value below 16 (`"0123456789ABCDEF"[d]`). -/
def upperHexDigit (d : Nat) : Char :=
  if d < 10 then Char.ofNat (48 + d) else Char.ofNat (55 + d)

/-- Go `fmt.Sprintf("%x", b)` for a byte slice: two lowercase hexadecimal digits per byte. -/
def hexLowerChars : List Nat → List Char
  | [] => []
  | b :: bs => lowerHexDigit (b / 16 % 16) :: lowerHexDigit (b % 16) :: hexLowerChars bs

/-- Go `fmt.Sprintf("%x", b)` as a string. -/
def hexLower (bs : List Nat) : String :=
  String.mk (hexLowerChars bs)

/-! ## `crypto/sha256` and `crypto/hmac` -/

namespace SHA256

/-- Whether `n` has no divisor among `2, ..., d + 1`. -/
def noDivisorUpTo (n : Nat) : Nat → Bool
  | 0 => true
  | d + 1 => (d + 1 = 1 || n % (d + 1) != 0) && noDivisorUpTo n d

/-- The prime numbers below a bound, in ascending order. -/
def primesBelow (bound : Nat) : List Nat :=
  (List.range bound).filter (fun n => 2 ≤ n && noDivisorUpTo n (n - 1))

/-- Bit by bit search of the largest `r` with `r ^ k ≤ n`, from the bit `b - 1` down. -/
def rootBits (k n : Nat) : Nat → Nat → Nat
  | 0, r => r
  | b + 1, r => rootBits k n b (if (r + 2 ^ b) ^ k ≤ n then r + 2 ^ b else r)

/-- The first 32 bits of the fractional part of the `k`-th root of `p`. -/
def rootFraction (k p : Nat) : Nat :=
  rootBits k (p * 2 ^ (32 * k)) 40 0 % 2 ^ 32

/-- Round constants of SHA-256 (FIPS 180-4, section 4.2.2): the first 32 bits of the fractional
parts of the cube roots of the first 64 primes. -/
def K : List Nat :=
  (primesBelow 312).map (rootFraction 3)

/-- Initial hash value of SHA-256 (FIPS 180-4, section 5.3.3): the first 32 bits of the
fractional parts of the square roots of the first 8 primes. -/
def H0 : List Nat :=
  (primesBelow 20).map (rootFraction 2)

/-- Rotation to the right of a 32-bit word. -/
def rotr (x n : Nat) : Nat :=
  ((x >>> n) ||| (x <<< (32 - n))) % 2 ^ 32

/-- Addition of 32-bit words. -/
def add32 (x y : Nat) : Nat :=
  (x + y) % 2 ^ 32

/-- Bitwise complement of a 32-bit word. -/
def not32 (x : Nat) : Nat :=
  (2 ^ 32 - 1) ^^^ (x % 2 ^ 32)

/-- Big-endian rendering of a number on `n` bytes. -/
def beBytes : Nat → Nat → List Nat
  | 0, _ => []
  | n + 1, x => (x / 256 ^ n) % 256 :: beBytes n x

/-- Big-endian 32-bit words of a byte sequence (four bytes per word). -/
def wordsOf : List Nat → List Nat
  | a :: b :: c :: d :: rest => (((a * 256 + b) * 256 + c) * 256 + d) :: wordsOf rest
  | _ => []

/-- Message padding: the byte `0x80`, zero bytes up to 56 modulo 64, the bit length on 8 bytes. -/
def pad (msg : List Nat) : List Nat :=
  let l := msg.length
  msg ++ [0x80] ++ List.replicate ((119 - l % 64) % 64) 0 ++ beBytes 8 (8 * l)

/-- Message schedule: extends the words in `w` (most recent first) by `n` further words. -/
def schedule : Nat → List Nat → List Nat
  | 0, w => w
  | n + 1, w =>
    let w2 := w.getD 1 0
    let w7 := w.getD 6 0
    let w15 := w.getD 14 0
    let w16 := w.getD 15 0
    let s0 := rotr w15 7 ^^^ rotr w15 18 ^^^ (w15 >>> 3)
    let s1 := rotr w2 17 ^^^ rotr w2 19 ^^^ (w2 >>> 10)
    schedule n (add32 (add32 (add32 s1 w7) s0) w16 :: w)

/-- One round of the compression function on the working variables `a..h`. -/
def round (s : List Nat) (k w : Nat) : List Nat :=
  match s with
  | [a, b, c, d, e, f, g, h] =>
    let S1 := rotr e 6 ^^^ rotr e 11 ^^^ rotr e 25
    let ch := (e &&& f) ^^^ (not32 e &&& g)
    let t1 := add32 (add32 (add32 (add32 h S1) ch) k) w
    let S0 := rotr a 2 ^^^ rotr a 13 ^^^ rotr a 22
    let maj := (a &&& b) ^^^ (a &&& c) ^^^ (b &&& c)
    let t2 := add32 S0 maj
    [add32 t1 t2, a, b, c, add32 d t1, e, f, g]
  | _ => s

/-- All rounds of the compression function, over the constants paired with the schedule. -/
def rounds : List Nat → List (Nat × Nat) → List Nat
  | s, [] => s
  | s, (k, w) :: rest => rounds (round s k w) rest

/-- Compression of one 64-byte block into the running hash value. -/
def compress (h : List Nat) (block : List Nat) : List Nat :=
  let w := (schedule 48 (wordsOf block).reverse).reverse
  List.zipWith add32 h (rounds h (K.zip w))

/-- Processing of the padded message block by block; the fuel is the number of blocks. -/
def blocks : Nat → List Nat → List Nat → List Nat
  | 0, h, _ => h
  | n + 1, h, m => blocks n (compress h (m.take 64)) (m.drop 64)

/-- Go `sha256.Sum256`: the 32-byte digest of a byte sequence. -/
def sum (msg : List Nat) : List Nat :=
  let p := pad msg
  (blocks (p.length / 64) H0 p).flatMap (beBytes 4)

end SHA256

/-- Go `hmac.New(sha256.New, key)`, `Write(msg)`, `Sum(nil)`: HMAC-SHA256 (RFC 2104) with the
64-byte block size of SHA-256. -/
def hmacSHA256 (key msg : List Nat) : List Nat :=
  let k0 := if key.length > 64 then SHA256.sum key else key
  let k := k0 ++ List.replicate (64 - k0.length) 0
  let ipad := k.map (fun b => b ^^^ 0x36)
  let opad := k.map (fun b => b ^^^ 0x5c)
  SHA256.sum (opad ++ SHA256.sum (ipad ++ msg))

/-! ## `fmt` and 64-bit integers -/

/-- Wrapping of an integer into the range of a Go `int64`. -/
def wrapInt64 (x : Int) : Int :=
  (x + 2 ^ 63) % 2 ^ 64 - 2 ^ 63

/-- Go `fmt.Sprintf("%v", i)` for an integer: decimal digits, with a leading `-` when negative. -/
def formatInt (i : Int) : String :=
  match i with
  | Int.ofNat n => String.mk (Nat.toDigits 10 n)
  | Int.negSucc n => String.mk ('-' :: Nat.toDigits 10 (n + 1))

/-! ## `strconv`: the shortest decimal rendering of a `float64` -/

/-- The value of a finite `float64` other than zero, without its sign, as its encoding holds
it: `some (m, e)` stands for `m * 2^e` with `0 < m < 2^53` and `-1074 ≤ e`, a denormal having
`e = -1074`. `none` for a zero, an infinity and NaN. -/
def floatMantExp (f : Float) : Option (Nat × Int) :=
  match f.toRatParts with
  | none => none
  | some (v, e) =>
    if v = 0 then none
    else if e < -1074 then some (v.natAbs / 2 ^ (-1074 - e).toNat, -1074)
    else some (v.natAbs, e)

/-- The quotient `x * 2^e / 10^k` as a numerator and a denominator that are natural numbers. -/
def scaleQuotient (x : Nat) (e k : Int) : Nat × Nat :=
  (x * (if 0 ≤ e then 2 ^ e.toNat else 1) * (if k < 0 then 10 ^ (-k).toNat else 1),
    (if 0 ≤ e then 1 else 2 ^ (-e).toNat) * (if k < 0 then 1 else 10 ^ k.toNat))

/-- The decimal `c * 10^k` that `strconv` would print for `m * 2^e` if it stopped at the digit
of weight `10^k`: among the multiples of `10^k` that parse back to `m * 2^e`, the one nearest to
it (a tie goes to the even one); `none` when no multiple of `10^k` parses back. The decimals that
parse back lie between the midpoints to the two neighbouring values, the midpoints themselves
counting when `m` is even; the neighbour below a power of two is at half the distance. -/
def decimalAt (m : Nat) (e k : Int) : Option Nat :=
  let even := m % 2 == 0
  let below := if m == 2 ^ 52 && -1074 < e then 4 * m - 1 else 4 * m - 2
  let lo := scaleQuotient below (e - 2) k
  let mid := scaleQuotient (4 * m) (e - 2) k
  let hi := scaleQuotient (4 * m + 2) (e - 2) k
  let l := if lo.1 % lo.2 == 0 && even then lo.1 / lo.2 else lo.1 / lo.2 + 1
  let u := if hi.1 % hi.2 == 0 && !even then hi.1 / hi.2 - 1 else hi.1 / hi.2
  let q := mid.1 / mid.2
  let r := mid.1 % mid.2
  let c := if 2 * r > mid.2 || (2 * r == mid.2 && q % 2 == 1) then q + 1 else q
  if l ≤ u then some (max l (min c u)) else none

/-- The search for the greatest weight `10^k` at which a decimal parses back to `m * 2^e`,
from `k` downwards. -/
def shortestFrom (m : Nat) (e : Int) : Nat → Int → Nat × Int
  | 0, k => (0, k)
  | fuel + 1, k =>
    match decimalAt m e k with
    | some c => (c, k)
    | none => shortestFrom m e fuel (k - 1)

/-- The shortest decimal `c * 10^k` that parses back to the `float64` `m * 2^e`, which is what
`strconv.FormatFloat` with precision `-1` computes. The search starts at the number of digits of
the whole part of the upper midpoint, a weight above every decimal that parses back; a `float64`
is below `10^309` and one of two neighbouring multiples of `10^-324` always parses back, so 700
steps are enough. -/
def shortestDecimal (m : Nat) (e : Int) : Nat × Int :=
  let hi := scaleQuotient (4 * m + 2) (e - 2) 0
  shortestFrom m e 700 (Nat.toDigits 10 (hi.1 / hi.2)).length

/-- Go `%e` of `strconv` for the digits `digs` with the decimal point after `dp` of them, at the
precision of the digits: `d.ddde±xx`, the exponent with at least two digits. -/
def fmtE (digs : List Char) (dp : Int) : String :=
  let exp := dp - 1
  String.mk (digs.take 1) ++ (if 1 < digs.length then "." ++ String.mk (digs.drop 1) else "")
    ++ "e" ++ (if exp < 0 then "-" else "+")
    ++ (if exp.natAbs < 10 then "0" else "") ++ String.mk (Nat.toDigits 10 exp.natAbs)

/-- Go `%f` of `strconv` for the digits `digs` with the decimal point after `dp` of them, with
as many decimals as the digits need. -/
def fmtF (digs : List Char) (dp : Int) : String :=
  if dp ≤ 0 then "0." ++ String.mk (List.replicate (-dp).toNat '0' ++ digs)
  else if (digs.length : Int) ≤ dp then
    String.mk (digs ++ List.replicate (dp.toNat - digs.length) '0')
  else String.mk (digs.take dp.toNat) ++ "." ++ String.mk (digs.drop dp.toNat)

/-- Go `fmt.Sprintf("%v", f)` for a `float64`, which is `strconv.FormatFloat(f, 'g', -1, 64)`:
the shortest decimal that parses back to `f`, written as `%e` when its decimal exponent is
below -4 or at least 6 and as `%f` otherwise; a negative zero is `-0`. -/
def formatFloat64 (f : Float) : String :=
  if f.isNaN then "NaN"
  else if f.isInf then (if 0 < f then "+Inf" else "-Inf")
  else
    let sign := if f < 0 || (f == 0 && 1 / f < 0) then "-" else ""
    match floatMantExp f with
    | none => sign ++ "0"
    | some (m, e) =>
      let d := shortestDecimal m e
      let digs := Nat.toDigits 10 d.1
      let dp : Int := digs.length + d.2
      if dp - 1 < -4 || 6 ≤ dp - 1 then sign ++ fmtE digs dp else sign ++ fmtF digs dp

/-! ## `net/url`: query escaping and `url.Values` -/

/-- Go `shouldEscape(c, encodeQueryComponent)`: only the unreserved characters of RFC 3986
(letters, digits, `-`, `_`, `.`, `~`) are left alone. -/
def shouldEscape (b : Nat) : Bool :=
  !((97 ≤ b && b ≤ 122) || (65 ≤ b && b ≤ 90) || (48 ≤ b && b ≤ 57)
    || b == 45 || b == 95 || b == 46 || b == 126)

/-- Escaping of one byte by Go `escape(s, encodeQueryComponent)`: a space becomes `+`, a byte that
must be escaped becomes `%XX` with uppercase hexadecimal digits. -/
def escapeByte (b : Nat) : List Char :=
  if b = 32 then ['+']
  else if shouldEscape b then ['%', upperHexDigit (b / 16 % 16), upperHexDigit (b % 16)]
  else [Char.ofNat b]

/-- Go `url.QueryEscape`. -/
def QueryEscape (s : String) : String :=
  String.mk ((bytesOf s).flatMap escapeByte)

/-- Lexicographic comparison of two sequences of numbers. -/
def lexLe : List Nat → List Nat → Bool
  | [], _ => true
  | _ :: _, [] => false
  | a :: as, b :: bs => decide (a < b) || (a == b && lexLe as bs)

/-- Go `a <= b` on strings. Go compares the bytes; on UTF-8 text that is the order of the
sequences of code points, which is what is compared here. -/
def strLe (a b : String) : Bool :=
  lexLe (a.data.map Char.toNat) (b.data.map Char.toNat)

/-- Go `sort.Strings`. -/
def sortStrings (keys : List String) : List String :=
  keys.insertionSort (fun a b => strLe a b = true)

/-- Go `url.Values`, a `map[string][]string`: the entries of the map, each key with its values.
The keys of the entries are pairwise distinct in every map built by `Set` and `Add` from the
empty one. -/
structure Values where
  entries : List (String × List String)
  deriving DecidableEq, Repr

namespace Values

/-- Go `url.Values{}`: the empty map. -/
def empty : Values :=
  ⟨[]⟩

/-- Go `v[key]` on the entries: the values under a key, `nil` when the key is absent. -/
def lookupEntries (key : String) : List (String × List String) → List String
  | [] => []
  | (k, vs) :: rest => if k = key then vs else lookupEntries key rest

/-- Go `v[key] = vs` on the entries: assignment of a map entry. -/
def assignEntries (key : String) (vs : List String) :
    List (String × List String) → List (String × List String)
  | [] => [(key, vs)]
  | (k, old) :: rest =>
    if k = key then (k, vs) :: rest else (k, old) :: assignEntries key vs rest

/-- Go `v[key]`. -/
def lookup (v : Values) (key : String) : List String :=
  lookupEntries key v.entries

/-- Go `_, ok := v[key]`: whether the map has an entry for the key. -/
def has (v : Values) (key : String) : Bool :=
  v.entries.any (fun e => e.1 == key)

/-- The keys of the map (Go `for k := range v`), in the order of the entries. -/
def keys (v : Values) : List String :=
  v.entries.map Prod.fst

/-- Go `url.Values.Set`: `v[key] = []string{value}`. -/
def Set (v : Values) (key value : String) : Values :=
  ⟨assignEntries key [value] v.entries⟩

/-- Go `url.Values.Add`: `v[key] = append(v[key], value)`. -/
def Add (v : Values) (key value : String) : Values :=
  ⟨assignEntries key (v.lookup key ++ [value]) v.entries⟩

/-- Body of the inner loop of Go `url.Values.Encode`: one `key=value` pair is written to the
buffer, after a `&` when the buffer is not empty. -/
def encodePair (keyEscaped : String) (buf : String) (value : String) : String :=
  (if buf = "" then buf else buf ++ "&") ++ keyEscaped ++ "=" ++ QueryEscape value

/-- Go `url.Values.Encode`: the keys are sorted, and every value of every key is written as
`QueryEscape(key)=QueryEscape(value)`, the pairs separated by `&`. -/
def Encode (v : Values) : String :=
  (sortStrings v.keys).foldl
    (fun buf k => (v.lookup k).foldl (encodePair (QueryEscape k)) buf) ""

end Values

/-! ## `net/http`: headers -/

/-- Go `validHeaderFieldByte`: the token characters of RFC 7230, by character code. -/
def validHeaderFieldByte (c : Char) : Bool :=
  let n := c.toNat
  (97 ≤ n && n ≤ 122) || (65 ≤ n && n ≤ 90) || (48 ≤ n && n ≤ 57)
    || [33, 35, 36, 37, 38, 39, 42, 43, 45, 46, 94, 95, 96, 124, 126].contains n

/-- Loop of Go `canonicalMIMEHeaderKey`: the first letter and every letter after a `-` in upper
case, the other letters in lower case. -/
def canonicalChars : Bool → List Char → List Char
  | _, [] => []
  | upper, c :: cs =>
    let n := c.toNat
    let c1 :=
      if upper && 97 ≤ n && n ≤ 122 then Char.ofNat (n - 32)
      else if !upper && 65 ≤ n && n ≤ 90 then Char.ofNat (n + 32)
      else c
    c1 :: canonicalChars (c1 == '-') cs

/-- Go `textproto.CanonicalMIMEHeaderKey`: a key with a character that is not valid in a header
field name is returned unchanged. -/
def CanonicalMIMEHeaderKey (s : String) : String :=
  if s.data.all validHeaderFieldByte then String.mk (canonicalChars true s.data) else s

/-- Go `http.Header`, a `map[string][]string` whose keys are canonical header names. -/
abbrev Header := Values

/-- Go `http.Header.Set`: `h[CanonicalMIMEHeaderKey(key)] = []string{value}`. -/
def Header.Set (h : Header) (key value : String) : Header :=
  Values.Set h (CanonicalMIMEHeaderKey key) value

/-- Go `http.Header.Values`: the values of the header of that name, `nil` when it is absent. -/
def Header.Values (h : Header) (key : String) : List String :=
  Values.lookup h (CanonicalMIMEHeaderKey key)

/-- Whether a header of that name is present. -/
def Header.has (h : Header) (key : String) : Bool :=
  Values.has h (CanonicalMIMEHeaderKey key)

/-! ## `common/errors.go` -/

/-- Go `common.APIError`: the error sent by the API when the response status is 4xx or 5xx. -/
structure APIError where
  Code : Int
  Message : String
  deriving DecidableEq, Repr

/-- Go `error` values met in the client: a `*common.APIError`, an `errors.New` text, an error of
`encoding/json`, or an error of the transport or of the response body. -/
inductive GoError where
  | api (e : APIError)
  | text (msg : String)
  | json (msg : String)
  | io (msg : String)
  deriving DecidableEq, Repr

/-- Go `APIError.Error`. -/
def APIError.Error (e : APIError) : String :=
  "<APIError> code=" ++ formatInt e.Code ++ ", msg=" ++ e.Message

/-- Go `common.IsAPIError`: whether the error is a `*APIError`. -/
def IsAPIError (e : GoError) : Bool :=
  match e with
  | GoError.api _ => true
  | _ => false

/-- Go `common.CreateErrorMandatoryField`. -/
def CreateErrorMandatoryField (field : String) : GoError :=
  GoError.text (field ++ ": field is MANDATORY")

/-! ## The request descriptor -/

/-- Security level of a request (the constants `secTypeNone`, `secTypeAPIKey`,
`secTypeSigned`). -/
inductive secType where
  | secTypeNone
  | secTypeAPIKey
  | secTypeSigned
  deriving DecidableEq, Repr

/-- The `request` of the client, with the fields `client.go` reads and writes: the method, the
endpoint, the query and form parameter sets, the receive window, the security level, and the
header, body and full URL that `parseRequest` fills in. The body, an `io.Reader` over a buffer,
is the text of the buffer. -/
structure request where
  method : String := ""
  endpoint : String := ""
  query : Values := Values.empty
  form : Values := Values.empty
  recvWindow : Int := 0
  secType : secType := secType.secTypeNone
  header : Header := Values.empty
  body : String := ""
  fullURL : String := ""
  deriving DecidableEq, Repr

/-- Modelled from the spec: `request.setParam`, whose definition is not among the sources. It is
the `set(key, value)` of the parameter set (section 4.1) on the query set: any existing values of
the key are overwritten with the single value. The value arrives already rendered as text
(`fmt.Sprintf("%v", value)`). -/
def request.setParam (r : request) (key value : String) : request :=
  { r with query := r.query.Set key value }

/-- Modelled from the spec: `request.addParam`, whose definition is not among the sources. It is
the `add(key, value)` of the parameter set (section 4.1) on the query set: a further value is
appended under the key. -/
def request.addParam (r : request) (key value : String) : request :=
  { r with query := r.query.Add key value }

/-- Modelled from the spec: `request.setFormParam`, whose definition is not among the sources. It
is the `set(key, value)` of the parameter set (section 4.1) on the form set. -/
def request.setFormParam (r : request) (key value : String) : request :=
  { r with form := r.form.Set key value }

/-- Go `RequestOption`, a `func(*request)`. -/
abbrev RequestOption := request → request

/-- The loop `for _, opt := range opts { opt(r) }`. -/
def applyOptions (opts : List RequestOption) (r : request) : request :=
  opts.foldl (fun acc opt => opt acc) r

/-! ## The client -/

/-- Key of the timestamp in the query parameters. -/
def timestampKey : String := "timestamp"

/-- Key of the signature in the query string. -/
def signatureKey : String := "signature"

/-- Key of the receive window in the query parameters. -/
def recvWindowKey : String := "recvWindow"

/-- Go `http.Request`, as far as `callAPI` fills it: method, URL, header and body. -/
structure HttpRequest where
  method : String
  url : String
  header : Header
  body : String
  deriving DecidableEq, Repr

/-- Go `http.Response`, as far as `callAPI` reads it: the status code, what
`ioutil.ReadAll(res.Body)` returns (the bytes, or an error) and what `res.Body.Close()` returns
(`none` is `nil`). -/
structure HttpResponse where
  StatusCode : Int
  body : Except GoError String
  close : Option GoError := none

/-- Go `doFunc`: `func(req *http.Request) (*http.Response, error)`. -/
abbrev doFunc := HttpRequest → Except GoError HttpResponse

/-- The `Client` of `client.go`: the fields that decide what a call does. `HTTPClient` is the
`Do` method of the HTTP client, `doFn` is the field `do` (`none` is `nil`). The logger and the
debug flag only write log lines and are left out. -/
structure Client where
  HTTPClient : doFunc := fun _ => Except.error (GoError.io "no network")
  apiKey : String
  secretKey : String
  BaseURL : String
  TimeOffset : Int := 0
  doFn : Option doFunc := none

/-- What the client takes from outside the sources: the clock (`time.Now()`, as its
`UnixNano()`); `request.validate`, whose definition is not among the sources (`none` is a `nil`
error); the error of `http.NewRequest` for a method and a URL (`none` is `nil`); and the
rendering of a `float64` by `fmt.Sprintf("%v", f)`. -/
structure Env where
  unixNano : Int
  validate : request → Option GoError
  newRequestError : String → String → Option GoError
  formatFloat : Float → String

/-- Go `FormatTimestamp`: `t.UnixNano() / int64(time.Millisecond)`, the time `t` given by its
`UnixNano()`; the division of Go truncates towards zero. -/
def FormatTimestamp (unixNano : Int) : Int :=
  Int.tdiv unixNano 1000000

/-- Go `currentTimestamp`: `FormatTimestamp(time.Now())`. -/
def currentTimestamp (env : Env) : Int :=
  FormatTimestamp env.unixNano

/-- Lines 392-397 of `Client.parseRequest`: the receive window, when set, and for a signed
request the timestamp are set in the query parameters. -/
def addStandardParams (c : Client) (env : Env) (r : request) : request :=
  let r := if r.recvWindow > 0 then r.setParam recvWindowKey (formatInt r.recvWindow) else r
  if r.secType = secType.secTypeSigned then
    r.setParam timestampKey (formatInt (wrapInt64 (currentTimestamp env - c.TimeOffset)))
  else r

/-- The local variables of `Client.parseRequest` when it returns `nil`: the request it leaves
(`r`), the encoded query and form strings (`queryString` as first encoded, `bodyString`), and for
a signed request the signed message (`raw`) and the value set holding the signature (`v`);
`finalQuery` is `queryString` as it stands when the URL is assembled. -/
structure parseLocals where
  r : request
  queryString : String
  bodyString : String
  raw : Option String
  v : Option Values
  finalQuery : String
  deriving DecidableEq, Repr

/-- Go `Client.parseRequest`, with its local variables. `mac.Write` of a `hash.Hash` never
returns an error, so that return is absent. -/
def parseRequestLocals (c : Client) (env : Env) (r : request) (opts : List RequestOption) :
    Except GoError parseLocals :=
  let r := applyOptions opts r
  match env.validate r with
  | some err => Except.error err
  | none =>
    let fullURL := c.BaseURL ++ r.endpoint
    let r := addStandardParams c env r
    let queryString := r.query.Encode
    let bodyString := r.form.Encode
    let header : Header := Values.empty
    let header :=
      if bodyString ≠ "" then header.Set "Content-Type" "application/x-www-form-urlencoded"
      else header
    let body := if bodyString ≠ "" then bodyString else ""
    let header :=
      if r.secType = secType.secTypeAPIKey ∨ r.secType = secType.secTypeSigned then
        header.Set "X-MBX-APIKEY" c.apiKey
      else header
    let raw := queryString ++ bodyString
    let v := Values.empty.Set signatureKey
      (hexLower (hmacSHA256 (bytesOf c.secretKey) (bytesOf raw)))
    let finalQuery :=
      if r.secType = secType.secTypeSigned then
        if queryString = "" then v.Encode else queryString ++ "&" ++ v.Encode
      else queryString
    let fullURL := if finalQuery ≠ "" then fullURL ++ "?" ++ finalQuery else fullURL
    Except.ok
      { r := { r with fullURL := fullURL, header := header, body := body }
        queryString := queryString
        bodyString := bodyString
        raw := if r.secType = secType.secTypeSigned then some raw else none
        v := if r.secType = secType.secTypeSigned then some v else none
        finalQuery := finalQuery }

/-- Go `Client.parseRequest`: the error it returns, or the request as it leaves it. -/
def parseRequest (c : Client) (env : Env) (r : request) (opts : List RequestOption) :
    Except GoError request :=
  (parseRequestLocals c env r opts).map (fun l => l.r)

/-! ## `bswap_liquidity_service.go`: the liquidity information request -/

/-- Go `LiquidityInformationService`: the optional `poolId` (`nil` when `PoolID` was not
called). -/
structure LiquidityInformationService where
  poolId : Option Int := none
  deriving DecidableEq, Repr

/-- Go `LiquidityInformationService.PoolID`. -/
def LiquidityInformationService.PoolID (s : LiquidityInformationService) (id : Int) :
    LiquidityInformationService :=
  { s with poolId := some id }

/-- The request that `LiquidityInformationService.Do` builds and hands to `callAPI`. -/
def LiquidityInformationService.buildRequest (s : LiquidityInformationService) : request :=
  let r : request :=
    { method := "GET", endpoint := "/sapi/v1/bswap/liquidity", secType := secType.secTypeSigned }
  match s.poolId with
  | some id => r.setParam "poolId" (formatInt id)
  | none => r

/-! ## `encoding/json`: values, the parser, and the decoding of struct fields -/

/-- A JSON value. A number keeps the text of its literal, as the decoder of Go does until it
knows the type of the destination. -/
inductive Json where
  | null
  | bool (b : Bool)
  | num (lit : String)
  | str (s : String)
  | arr (items : List Json)
  | obj (members : List (String × Json))

namespace Json

/-- The double quote. -/
def quote : Char := Char.ofNat 34

/-- The backslash. -/
def backslash : Char := Char.ofNat 92

/-- The opening brace of an object. -/
def openBrace : Char := Char.ofNat 123

/-- The closing brace of an object. -/
def closeBrace : Char := Char.ofNat 125

/-- Go `isSpace` of the scanner: space, tab, carriage return, line feed. -/
def isSpace (c : Char) : Bool :=
  c.toNat = 32 || c.toNat = 9 || c.toNat = 13 || c.toNat = 10

/-- Skips the white space in front. -/
def skipSpace : List Char → List Char
  | [] => []
  | c :: cs => if isSpace c then skipSpace cs else c :: cs

/-- Whether the character is a decimal digit. -/
def isDigit (c : Char) : Bool :=
  48 ≤ c.toNat && c.toNat ≤ 57

/-- Value of a hexadecimal digit, in either case. -/
def hexValue (c : Char) : Option Nat :=
  let n := c.toNat
  if 48 ≤ n ∧ n ≤ 57 then some (n - 48)
  else if 97 ≤ n ∧ n ≤ 102 then some (n - 87)
  else if 65 ≤ n ∧ n ≤ 70 then some (n - 55)
  else none

/-- Go `getu4`: the code unit written by the four hexadecimal digits of a `\u` escape. -/
def getu4 (a b c d : Char) : Option Nat :=
  match hexValue a, hexValue b, hexValue c, hexValue d with
  | some w, some x, some y, some z => some (((w * 16 + x) * 16 + y) * 16 + z)
  | _, _, _, _ => none

/-- The character of a one-letter escape (`\"`, `\\`, `\/`, `\b`, `\f`, `\n`, `\r`, `\t`). -/
def simpleEscape (e : Char) : Option Char :=
  if e = quote then some quote
  else if e = backslash then some backslash
  else if e = '/' then some '/'
  else if e = 'b' then some (Char.ofNat 8)
  else if e = 'f' then some (Char.ofNat 12)
  else if e = 'n' then some (Char.ofNat 10)
  else if e = 'r' then some (Char.ofNat 13)
  else if e = 't' then some (Char.ofNat 9)
  else none

/-- The low surrogate written as `\uXXXX` in front of the input, with the input after it. -/
def lowSurrogate (cs : List Char) : Option (Nat × List Char) :=
  match cs with
  | b :: u :: w :: x :: y :: z :: rest =>
    if b = backslash ∧ u = 'u' then
      match getu4 w x y z with
      | some lo => if 0xDC00 ≤ lo ∧ lo < 0xE000 then some (lo, rest) else none
      | none => none
    else none
  | _ => none

/-- Go `unquote`, on the text after the opening quote: the string up to the closing quote, with
its escapes replaced, and the input after it. A control character, an unknown escape or a
missing closing quote is a syntax error. A surrogate that is not half of a valid pair becomes
U+FFFD. The fuel is the length of the input. -/
def parseStringBody : Nat → List Char → List Char → Option (String × List Char)
  | 0, _, _ => none
  | _ + 1, [], _ => none
  | fuel + 1, c :: cs, acc =>
    if c = quote then some (String.mk acc.reverse, cs)
    else if c = backslash then
      match cs with
      | [] => none
      | e :: rest =>
        if e = 'u' then
          match rest with
          | w :: x :: y :: z :: rest2 =>
            match getu4 w x y z with
            | none => none
            | some hi =>
              if 0xD800 ≤ hi ∧ hi < 0xE000 then
                match (if hi < 0xDC00 then lowSurrogate rest2 else none) with
                | some (lo, rest3) =>
                  parseStringBody fuel rest3
                    (Char.ofNat (0x10000 + (hi - 0xD800) * 0x400 + (lo - 0xDC00)) :: acc)
                | none => parseStringBody fuel rest2 (Char.ofNat 0xFFFD :: acc)
              else parseStringBody fuel rest2 (Char.ofNat hi :: acc)
          | _ => none
        else
          match simpleEscape e with
          | some ch => parseStringBody fuel rest (ch :: acc)
          | none => none
    else if c.toNat < 32 then none
    else parseStringBody fuel cs (c :: acc)

/-- The digits in front of the input, and the input after them. -/
def spanDigits : List Char → List Char × List Char
  | [] => ([], [])
  | c :: cs =>
    if isDigit c then ((spanDigits cs).1.cons c, (spanDigits cs).2) else ([], c :: cs)

/-- The integer part of a number: `0`, or a digit from 1 to 9 followed by digits. -/
def parseIntPart (cs : List Char) : Option (List Char × List Char) :=
  match cs with
  | [] => none
  | c :: rest =>
    if c = '0' then some (['0'], rest)
    else if isDigit c then some (c :: (spanDigits rest).1, (spanDigits rest).2)
    else none

/-- The optional fraction of a number: `.` followed by at least one digit. -/
def parseFraction (cs : List Char) : Option (List Char × List Char) :=
  match cs with
  | c :: rest =>
    if c = '.' then
      (if (spanDigits rest).1 = [] then none
       else some (c :: (spanDigits rest).1, (spanDigits rest).2))
    else some ([], cs)
  | [] => some ([], [])

/-- The optional exponent of a number: `e` or `E`, an optional sign, at least one digit. -/
def parseExponent (cs : List Char) : Option (List Char × List Char) :=
  match cs with
  | c :: rest =>
    if c = 'e' ∨ c = 'E' then
      match rest with
      | s :: rest2 =>
        if s = '+' ∨ s = '-' then
          (if (spanDigits rest2).1 = [] then none
           else some (c :: s :: (spanDigits rest2).1, (spanDigits rest2).2))
        else if (spanDigits rest).1 = [] then none
        else some (c :: (spanDigits rest).1, (spanDigits rest).2)
      | [] => none
    else some ([], cs)
  | [] => some ([], [])

/-- A number literal in front of the input: an optional `-`, the integer part, the optional
fraction and exponent. The result is the text of the literal and the input after it. -/
def parseNumber (cs : List Char) : Option (String × List Char) :=
  let sign : List Char := match cs with
    | c :: _ => if c = '-' then ['-'] else []
    | [] => []
  match parseIntPart (cs.drop sign.length) with
  | none => none
  | some (ip, r1) =>
    match parseFraction r1 with
    | none => none
    | some (fp, r2) =>
      match parseExponent r2 with
      | none => none
      | some (ep, r3) => some (String.mk (sign ++ ip ++ fp ++ ep), r3)

/-- Go `maxNestingDepth` of the scanner. -/
def maxNestingDepth : Nat := 10000

mutual

/-- A JSON value in front of the input (after white space), and the input after it. `depth` is
the number of arrays and objects the value is nested in; the fuel bounds the recursion and the
length of the input plus one is always enough. -/
def parseValue : Nat → Nat → List Char → Option (Json × List Char)
  | 0, _, _ => none
  | fuel + 1, depth, cs =>
    match skipSpace cs with
    | [] => none
    | c :: rest =>
      if c = openBrace then
        if depth + 1 > maxNestingDepth then none
        else
          match skipSpace rest with
          | c2 :: rest2 =>
            if c2 = closeBrace then some (Json.obj [], rest2)
            else parseMembers fuel (depth + 1) (c2 :: rest2) []
          | [] => none
      else if c = '[' then
        if depth + 1 > maxNestingDepth then none
        else
          match skipSpace rest with
          | c2 :: rest2 =>
            if c2 = ']' then some (Json.arr [], rest2)
            else parseElements fuel (depth + 1) (c2 :: rest2) []
          | [] => none
      else if c = quote then
        match parseStringBody rest.length rest [] with
        | some (s, r) => some (Json.str s, r)
        | none => none
      else if c = 't' then
        (if rest.take 3 = ['r', 'u', 'e'] then some (Json.bool true, rest.drop 3) else none)
      else if c = 'f' then
        (if rest.take 4 = ['a', 'l', 's', 'e'] then some (Json.bool false, rest.drop 4) else none)
      else if c = 'n' then
        (if rest.take 3 = ['u', 'l', 'l'] then some (Json.null, rest.drop 3) else none)
      else
        match parseNumber (c :: rest) with
        | some (lit, r) => some (Json.num lit, r)
        | none => none

/-- The elements of an array from the first element on, up to the closing bracket; `acc` holds
the elements read so far, last first. -/
def parseElements : Nat → Nat → List Char → List Json → Option (Json × List Char)
  | 0, _, _, _ => none
  | fuel + 1, depth, cs, acc =>
    match parseValue fuel depth cs with
    | none => none
    | some (v, r) =>
      match skipSpace r with
      | c :: rest =>
        if c = ',' then parseElements fuel depth rest (v :: acc)
        else if c = ']' then some (Json.arr (v :: acc).reverse, rest)
        else none
      | [] => none

/-- The members of an object from the first key on, up to the closing brace; `acc` holds the
members read so far, last first. -/
def parseMembers : Nat → Nat → List Char → List (String × Json) → Option (Json × List Char)
  | 0, _, _, _ => none
  | fuel + 1, depth, cs, acc =>
    match skipSpace cs with
    | c :: rest =>
      if c = quote then
        match parseStringBody rest.length rest [] with
        | none => none
        | some (key, r1) =>
          match skipSpace r1 with
          | c2 :: r2 =>
            if c2 = ':' then
              match parseValue fuel depth r2 with
              | none => none
              | some (v, r3) =>
                match skipSpace r3 with
                | c3 :: r4 =>
                  if c3 = ',' then parseMembers fuel depth r4 ((key, v) :: acc)
                  else if c3 = closeBrace then some (Json.obj ((key, v) :: acc).reverse, r4)
                  else none
                | [] => none
            else none
          | [] => none
      else none
    | [] => none

end

/-- The JSON value that a text is (Go `checkValid` and the decoding of the value): one value,
with white space around it and nothing else. -/
def parse (data : String) : Option Json :=
  match parseValue (data.length + 1) 0 data.data with
  | some (v, rest) => if skipSpace rest = [] then some v else none
  | none => none

end Json

/-- Simple case folding of a character, as far as it can meet an ASCII letter: the capital
letters, the Kelvin sign (which folds to `k`) and the long s (which folds to `s`). -/
def foldChar (c : Char) : Char :=
  let n := c.toNat
  if 65 ≤ n ∧ n ≤ 90 then Char.ofNat (n + 32)
  else if n = 0x212A then 'k'
  else if n = 0x017F then 's'
  else c

/-- The match of an object key with the name of a struct field by the decoder of Go: the same
text, or the same text but for the case (`bytes.EqualFold`). The field names of the sources are
ASCII, for which the folding of `foldChar` is the whole of the Unicode folding. -/
def equalFold (name key : String) : Bool :=
  name.data.map foldChar == key.data.map foldChar

/-- Value of a sequence of decimal digits. -/
def digitsValue (cs : List Char) : Nat :=
  cs.foldl (fun acc c => acc * 10 + (c.toNat - 48)) 0

/-- Go `strconv.ParseInt(lit, 10, 64)` on the literal of a JSON number: the value when the
literal is an optional `-` and digits, and the value fits in 64 bits. -/
def parseInt64 (lit : String) : Option Int :=
  let neg : Bool := match lit.data with
    | c :: _ => c = '-'
    | [] => false
  let ds := if neg then lit.data.drop 1 else lit.data
  if ds ≠ [] ∧ ds.all Json.isDigit = true then
    let n : Int := if neg then -(digitsValue ds : Int) else (digitsValue ds : Int)
    if -2 ^ 63 ≤ n ∧ n < 2 ^ 63 then some n else none
  else none

/-- Decoding of a JSON value into an `int64` field: the new value of the field, and whether an
`UnmarshalTypeError` is recorded. `null` leaves the field alone; a number that is not the
literal of a 64-bit integer, and any other value, leave the field alone and record the error. -/
def storeInt64 (old : Int) (v : Json) : Int × Bool :=
  match v with
  | Json.null => (old, false)
  | Json.num lit =>
    match parseInt64 lit with
    | some n => (n, false)
    | none => (old, true)
  | _ => (old, true)

/-- Decoding of a JSON value into a `string` field: the new value of the field, and whether an
`UnmarshalTypeError` is recorded. -/
def storeString (old : String) (v : Json) : String × Bool :=
  match v with
  | Json.null => (old, false)
  | Json.str s => (s, false)
  | _ => (old, true)

/-- The error of `json.Unmarshal` for a text that is not JSON (a `*json.SyntaxError`). -/
def jsonSyntaxError : GoError := GoError.json "syntax error"

/-- The error of `json.Unmarshal` for a value of the wrong type
(a `*json.UnmarshalTypeError`). -/
def jsonTypeError : GoError := GoError.json "cannot unmarshal"

/-- One member of a JSON object decoded into an `APIError` (fields `code` and `msg`); the flag
tells whether an error was recorded so far. A key that matches no field is skipped. -/
def APIError.storeMember (s : APIError × Bool) (m : String × Json) : APIError × Bool :=
  if equalFold "code" m.1 then
    ({ s.1 with Code := (storeInt64 s.1.Code m.2).1 }, s.2 || (storeInt64 s.1.Code m.2).2)
  else if equalFold "msg" m.1 then
    ({ s.1 with Message := (storeString s.1.Message m.2).1 },
      s.2 || (storeString s.1.Message m.2).2)
  else s

/-- Go `json.Unmarshal(data, apiErr)` for an `apiErr` of type `*APIError`: the struct after the
call and the error returned. A text that is not JSON leaves the struct untouched; the members of
an object are decoded in order; `null` does nothing; any other value is a type error. -/
def unmarshalAPIError (data : String) (e : APIError) : APIError × Option GoError :=
  match Json.parse data with
  | none => (e, some jsonSyntaxError)
  | some (Json.obj ms) =>
    let s := ms.foldl APIError.storeMember (e, false)
    (s.1, if s.2 then some jsonTypeError else none)
  | some Json.null => (e, none)
  | some _ => (e, some jsonTypeError)

/-! ## `sub_account.go`: entities of the broker API -/

/-- Go `SubAccount`. -/
structure SubAccount where
  SubAccountID : String := ""
  Email : String := ""
  Tag : String := ""
  deriving DecidableEq, Repr

/-- Go `SubAccountTransferRequest`. -/
structure SubAccountTransferRequest where
  FromID : String := ""
  ToID : String := ""
  ClientTransferID : String := ""
  Asset : String := ""
  Amount : Float := 0

/-- Go `SubAccountTransferResponse`. -/
structure SubAccountTransferResponse where
  TxnID : String := ""
  ClientTranID : String := ""
  deriving DecidableEq, Repr

/-- One member of a JSON object decoded into a `SubAccount` (fields `subaccountId`, `email`,
`tag`). -/
def SubAccount.storeMember (s : SubAccount × Bool) (m : String × Json) : SubAccount × Bool :=
  if equalFold "subaccountId" m.1 then
    ({ s.1 with SubAccountID := (storeString s.1.SubAccountID m.2).1 },
      s.2 || (storeString s.1.SubAccountID m.2).2)
  else if equalFold "email" m.1 then
    ({ s.1 with Email := (storeString s.1.Email m.2).1 }, s.2 || (storeString s.1.Email m.2).2)
  else if equalFold "tag" m.1 then
    ({ s.1 with Tag := (storeString s.1.Tag m.2).1 }, s.2 || (storeString s.1.Tag m.2).2)
  else s

/-- Go `json.Unmarshal(data, &res)` for a `res` of type `*SubAccount` that points to `init`: the
pointer after the call (`none` is `nil`) and the error returned. The JSON `null` sets the
pointer to `nil`. -/
def unmarshalSubAccount (data : String) (init : SubAccount) :
    Option SubAccount × Option GoError :=
  match Json.parse data with
  | none => (some init, some jsonSyntaxError)
  | some (Json.obj ms) =>
    let s := ms.foldl SubAccount.storeMember (init, false)
    (some s.1, if s.2 then some jsonTypeError else none)
  | some Json.null => (none, none)
  | some _ => (some init, some jsonTypeError)

/-- One member of a JSON object decoded into a `SubAccountTransferResponse` (fields `txnId`,
`clientTranId`). -/
def SubAccountTransferResponse.storeMember (s : SubAccountTransferResponse × Bool)
    (m : String × Json) : SubAccountTransferResponse × Bool :=
  if equalFold "txnId" m.1 then
    ({ s.1 with TxnID := (storeString s.1.TxnID m.2).1 }, s.2 || (storeString s.1.TxnID m.2).2)
  else if equalFold "clientTranId" m.1 then
    ({ s.1 with ClientTranID := (storeString s.1.ClientTranID m.2).1 },
      s.2 || (storeString s.1.ClientTranID m.2).2)
  else s

/-- Go `json.Unmarshal(data, &res)` for a `res` of type `*SubAccountTransferResponse`. -/
def unmarshalSubAccountTransferResponse (data : String) (init : SubAccountTransferResponse) :
    Option SubAccountTransferResponse × Option GoError :=
  match Json.parse data with
  | none => (some init, some jsonSyntaxError)
  | some (Json.obj ms) =>
    let s := ms.foldl SubAccountTransferResponse.storeMember (init, false)
    (some s.1, if s.2 then some jsonTypeError else none)
  | some Json.null => (none, none)
  | some _ => (some init, some jsonTypeError)

/-! ## `client.go`: the call of the API and the endpoints -/

/-- What a call returns, next to what it did: the result (`none` is `nil`), the error (`none` is
`nil`), and the requests that were handed to the transport function, in order. -/
structure Outcome (α : Type) where
  res : Option α
  err : Option GoError
  sent : List HttpRequest

/-- The transport function `f` of `callAPI`: `c.do`, or `c.HTTPClient.Do` when `c.do` is
`nil`. -/
def Client.transport (c : Client) : doFunc :=
  match c.doFn with
  | some f => f
  | none => c.HTTPClient

/-- Go `Client.callAPI`. The result is the `data` returned (`some ""` is the empty slice
`[]byte{}` of the early returns, `none` is `nil`). The body is closed by the deferred function,
which replaces a `nil` error by the error of `Close`. -/
def callAPI (c : Client) (env : Env) (r : request) (opts : List RequestOption) :
    Outcome String :=
  match parseRequest c env r opts with
  | Except.error err => { res := some "", err := some err, sent := [] }
  | Except.ok r =>
    match env.newRequestError r.method r.fullURL with
    | some err => { res := some "", err := some err, sent := [] }
    | none =>
      let req : HttpRequest :=
        { method := r.method, url := r.fullURL, header := r.header, body := r.body }
      match c.transport req with
      | Except.error err => { res := some "", err := some err, sent := [req] }
      | Except.ok res =>
        match res.body with
        | Except.error err => { res := some "", err := some err, sent := [req] }
        | Except.ok data =>
          if res.StatusCode ≥ 400 then
            let apiErr := (unmarshalAPIError data { Code := 0, Message := "" }).1
            { res := none, err := some (GoError.api apiErr), sent := [req] }
          else
            { res := some data, err := res.close, sent := [req] }

/-- Go `Client.CreateSubAccount`. -/
def CreateSubAccount (c : Client) (env : Env) (opts : List RequestOption) :
    Outcome SubAccount :=
  let r : request :=
    { method := "POST", endpoint := "/sapi/v1/broker/subAccount",
      secType := secType.secTypeSigned }
  let called := callAPI c env r opts
  match called.err with
  | some err => { res := none, err := some err, sent := called.sent }
  | none =>
    let decoded := unmarshalSubAccount (called.res.getD "") {}
    match decoded.2 with
    | some err => { res := none, err := some err, sent := called.sent }
    | none => { res := decoded.1, err := none, sent := called.sent }

/-- Go `Client.SubAccountTransfer`. -/
def SubAccountTransfer (c : Client) (env : Env) (req : SubAccountTransferRequest)
    (opts : List RequestOption) : Outcome SubAccountTransferResponse :=
  let r : request :=
    { method := "POST", endpoint := "/sapi/v1/broker/transfer",
      secType := secType.secTypeSigned }
  if req.FromID = "" ∧ req.ToID = "" then
    { res := none, err := some (CreateErrorMandatoryField "fromID or toID"), sent := [] }
  else
    let r :=
      if req.FromID ≠ "" ∧ req.ToID = "" then r.setParam "fromId" req.FromID
      else if req.ToID ≠ "" ∧ req.FromID = "" then r.setParam "toId" req.ToID
      else (r.setParam "fromId" req.FromID).setParam "toId" req.ToID
    if req.Asset = "" then
      { res := none, err := some (CreateErrorMandatoryField "asset"), sent := [] }
    else
      let r := r.setParam "asset" req.Asset
      let r :=
        if req.ClientTransferID ≠ "" then r.setParam "clientTranId" req.ClientTransferID else r
      if req.Amount > 0 then
        let r := r.setParam "amount" (env.formatFloat req.Amount)
        let called := callAPI c env r opts
        match called.err with
        | some err => { res := none, err := some err, sent := called.sent }
        | none =>
          let decoded := unmarshalSubAccountTransferResponse (called.res.getD "") {}
          match decoded.2 with
          | some err => { res := none, err := some err, sent := called.sent }
          | none => { res := decoded.1, err := none, sent := called.sent }
      else
        { res := none, err := some (CreateErrorMandatoryField "amount"), sent := [] }

/-- The transport answers the call of `callAPI` with the response `res`: `parseRequest` and
`http.NewRequest` succeed, and the transport function returns `res` for the request built. -/
def Responds (c : Client) (env : Env) (r : request) (opts : List RequestOption)
    (res : HttpResponse) : Prop :=
  ∃ r1, parseRequest c env r opts = Except.ok r1 ∧
    env.newRequestError r1.method r1.fullURL = none ∧
    c.transport { method := r1.method, url := r1.fullURL, header := r1.header, body := r1.body }
      = Except.ok res

/-- The value an object has for a field: the value of its last member whose key matches the
name of the field. -/
def Json.lastField (name : String) (ms : List (String × Json)) : Option Json :=
  ((ms.filter (fun m => equalFold name m.1)).getLast?).map Prod.snd

/-! ## Sample values for the examples -/

/-- A client with the endpoint of production and no clock offset. -/
def sampleClient : Client :=
  { apiKey := "api-key", secretKey := "secret-key", BaseURL := "https://api.binance.com" }

/-- An environment whose clock reads 1599621997000 ms, whose validation accepts every request
and whose `http.NewRequest` accepts every method and URL; a float is rendered as
`fmt.Sprintf("%v", f)` renders it, 1.5 as `1.5`. -/
def sampleEnv : Env :=
  { unixNano := 1599621997000000000
    validate := fun _ => none
    newRequestError := fun _ _ => none
    formatFloat := formatFloat64 }

/-- The request of `LiquidityInformationService.Do` after `PoolID(3)`. -/
def poolRequest : request :=
  (LiquidityInformationService.PoolID {} 3).buildRequest

/-- A signed POST request with a form body, in the manner of `AddLiquidityService.Do`. -/
def formRequest : request :=
  (({ method := "POST", endpoint := "/sapi/v1/bswap/liquidityAdd",
      secType := secType.secTypeSigned } : request).setFormParam "poolId" "3").setFormParam
    "asset" "BTC"

/-- The sample client on a transport that answers every request with the given status and
body. -/
def answeringClient (status : Int) (body : String) : Client :=
  { sampleClient with
    doFn := some (fun _ => Except.ok { StatusCode := status, body := Except.ok body }) }

/-- The body of an error response of the API:
`{"code":-1102,"msg":"Mandatory parameter missing"}`. -/
def errorBody : String :=
  "\x7b\"code\":-1102,\"msg\":\"Mandatory parameter missing\"\x7d"

/-- The body of an error response whose code is written with an exponent:
`{"code":1e2,"msg":"x"}`. -/
def exponentBody : String :=
  "\x7b\"code\":1e2,\"msg\":\"x\"\x7d"

/-- The body of the response to the creation of a sub-account:
`{"subaccountId":"123","email":"a@b.com","tag":"t"}`. -/
def subAccountBody : String :=
  "\x7b\"subaccountId\":\"123\",\"email\":\"a@b.com\",\"tag\":\"t\"\x7d"

/-- The request of `Client.CreateSubAccount`. -/
def subAccountRequest : request :=
  { method := "POST", endpoint := "/sapi/v1/broker/subAccount",
    secType := secType.secTypeSigned }

/-- A request that needs no authentication, as `ListSwapPoolsService.Do` builds it. -/
def publicRequest : request :=
  { method := "GET", endpoint := "/sapi/v1/bswap/pools", secType := secType.secTypeNone }

/-! ## `deposit_service.go`: the deposit history request -/

/-- Go `ListDepositsService`: the optional parameters (`none` is a `nil` pointer, the option
was not set). -/
structure ListDepositsService where
  coin : Option String := none
  status : Option Int := none
  startTime : Option Int := none
  endTime : Option Int := none
  offset : Option Int := none
  limit : Option Int := none
  deriving DecidableEq, Repr

/-- Go `ListDepositsService.Coin`. -/
def ListDepositsService.Coin (s : ListDepositsService) (coin : String) : ListDepositsService :=
  { s with coin := some coin }

/-- Go `ListDepositsService.Status`. -/
def ListDepositsService.Status (s : ListDepositsService) (status : Int) : ListDepositsService :=
  { s with status := some status }

/-- Go `ListDepositsService.StartTime`. -/
def ListDepositsService.StartTime (s : ListDepositsService) (startTime : Int) :
    ListDepositsService :=
  { s with startTime := some startTime }

/-- Go `ListDepositsService.EndTime`. -/
def ListDepositsService.EndTime (s : ListDepositsService) (endTime : Int) :
    ListDepositsService :=
  { s with endTime := some endTime }

/-- Go `ListDepositsService.Offset`. -/
def ListDepositsService.Offset (s : ListDepositsService) (offset : Int) : ListDepositsService :=
  { s with offset := some offset }

/-- Go `ListDepositsService.Limit`. -/
def ListDepositsService.Limit (s : ListDepositsService) (limit : Int) : ListDepositsService :=
  { s with limit := some limit }

/-- A parameter set in the query when the option is set (`if p != nil { r.setParam(key, *p) }`),
the value already rendered as text. -/
def request.setOptional (r : request) (key : String) (value : Option String) : request :=
  match value with
  | some x => r.setParam key x
  | none => r

/-- The request that `ListDepositsService.Do` builds and hands to `callAPI` (lines 62-84): the
options that are set, in the order coin, status, startTime, endTime, limit, offset. -/
def ListDepositsService.buildRequest (s : ListDepositsService) : request :=
  let r : request :=
    { method := "GET", endpoint := "/sapi/v1/capital/deposit/hisrec",
      secType := secType.secTypeSigned }
  let r := r.setOptional "coin" s.coin
  let r := r.setOptional "status" (s.status.map formatInt)
  let r := r.setOptional "startTime" (s.startTime.map formatInt)
  let r := r.setOptional "endTime" (s.endTime.map formatInt)
  let r := r.setOptional "limit" (s.limit.map formatInt)
  r.setOptional "offset" (s.offset.map formatInt)

/-- The service of `TestListDeposits`:
`Coin("BTC").Status(1).StartTime(1508198532000).EndTime(1508198532001)`. -/
def testListDeposits : ListDepositsService :=
  ((((({} : ListDepositsService).Coin "BTC").Status 1).StartTime 1508198532000).EndTime
    1508198532001)

/-! ## `client.go`: the two halves of `SubAccountTransfer` -/

/-- Lines 243-274 of `Client.SubAccountTransfer`: the checks of the mandatory fields and the
request built, up to the call of `callAPI`. An error is the one the function returns without
calling `callAPI`. -/
def buildTransferRequest (env : Env) (req : SubAccountTransferRequest) :
    Except GoError request :=
  let r : request :=
    { method := "POST", endpoint := "/sapi/v1/broker/transfer",
      secType := secType.secTypeSigned }
  if req.FromID = "" ∧ req.ToID = "" then
    Except.error (CreateErrorMandatoryField "fromID or toID")
  else
    let r :=
      if req.FromID ≠ "" ∧ req.ToID = "" then r.setParam "fromId" req.FromID
      else if req.ToID ≠ "" ∧ req.FromID = "" then r.setParam "toId" req.ToID
      else (r.setParam "fromId" req.FromID).setParam "toId" req.ToID
    if req.Asset = "" then
      Except.error (CreateErrorMandatoryField "asset")
    else
      let r := r.setParam "asset" req.Asset
      let r :=
        if req.ClientTransferID ≠ "" then r.setParam "clientTranId" req.ClientTransferID else r
      if req.Amount > 0 then
        Except.ok (r.setParam "amount" (env.formatFloat req.Amount))
      else
        Except.error (CreateErrorMandatoryField "amount")

/-- Lines 277-286 of `Client.SubAccountTransfer`: what the function returns after `callAPI`. -/
def decodeTransfer (called : Outcome String) : Outcome SubAccountTransferResponse :=
  match called.err with
  | some err => { res := none, err := some err, sent := called.sent }
  | none =>
    let decoded := unmarshalSubAccountTransferResponse (called.res.getD "") {}
    match decoded.2 with
    | some err => { res := none, err := some err, sent := called.sent }
    | none => { res := decoded.1, err := none, sent := called.sent }

/-- The query parameter of an identifier of the transfer: present when the identifier is not
empty. -/
def optionalText (value : String) : Option String :=
  if value = "" then none else some value

/-! ## `deposit_service.go`: the deposit history response -/

/-- Go `Deposit`. -/
structure Deposit where
  InsertTime : Int := 0
  Amount : Float := 0
  Asset : String := ""
  Address : String := ""
  AddressTag : String := ""
  TxID : String := ""
  Status : Int := 0

/-- Go `DepositHistoryResponse`; an entry of `Deposits`, a `*Deposit`, is `none` when it is
`nil`. -/
structure DepositHistoryResponse where
  Success : Bool := false
  Deposits : List (Option Deposit) := []

/-- Decoding of a JSON value into a `bool` field. -/
def storeBool (old : Bool) (v : Json) : Bool × Bool :=
  match v with
  | Json.null => (old, false)
  | Json.bool b => (b, false)
  | _ => (old, true)

/-- Decoding of a JSON value into a `float64` field; `parseFloat` is
`strconv.ParseFloat(lit, 64)` of the standard library, `none` when it returns an error. -/
def storeFloat64 (parseFloat : String → Option Float) (old : Float) (v : Json) : Float × Bool :=
  match v with
  | Json.null => (old, false)
  | Json.num lit =>
    match parseFloat lit with
    | some f => (f, false)
    | none => (old, true)
  | _ => (old, true)

/-- One member of a JSON object decoded into a `Deposit` (fields `insertTime`, `amount`,
`asset`, `address`, `addressTag`, `txId`, `status`). -/
def Deposit.storeMember (parseFloat : String → Option Float) (s : Deposit × Bool)
    (m : String × Json) : Deposit × Bool :=
  if equalFold "insertTime" m.1 then
    ({ s.1 with InsertTime := (storeInt64 s.1.InsertTime m.2).1 },
      s.2 || (storeInt64 s.1.InsertTime m.2).2)
  else if equalFold "amount" m.1 then
    ({ s.1 with Amount := (storeFloat64 parseFloat s.1.Amount m.2).1 },
      s.2 || (storeFloat64 parseFloat s.1.Amount m.2).2)
  else if equalFold "asset" m.1 then
    ({ s.1 with Asset := (storeString s.1.Asset m.2).1 }, s.2 || (storeString s.1.Asset m.2).2)
  else if equalFold "address" m.1 then
    ({ s.1 with Address := (storeString s.1.Address m.2).1 },
      s.2 || (storeString s.1.Address m.2).2)
  else if equalFold "addressTag" m.1 then
    ({ s.1 with AddressTag := (storeString s.1.AddressTag m.2).1 },
      s.2 || (storeString s.1.AddressTag m.2).2)
  else if equalFold "txId" m.1 then
    ({ s.1 with TxID := (storeString s.1.TxID m.2).1 }, s.2 || (storeString s.1.TxID m.2).2)
  else if equalFold "status" m.1 then
    ({ s.1 with Status := (storeInt64 s.1.Status m.2).1 }, s.2 || (storeInt64 s.1.Status m.2).2)
  else s

/-- Decoding of a JSON value into a new element of a `[]*Deposit`: `null` gives `nil`, an object
a pointer to the `Deposit` decoded, any other value a pointer to the zero `Deposit` and a type
error. -/
def decodeDeposit (parseFloat : String → Option Float) (v : Json) : Option Deposit × Bool :=
  match v with
  | Json.null => (none, false)
  | Json.obj ms =>
    (some (ms.foldl (Deposit.storeMember parseFloat) ({}, false)).1,
      (ms.foldl (Deposit.storeMember parseFloat) ({}, false)).2)
  | _ => (some {}, true)

/-- Decoding of a JSON value into the field `Deposits`: an array is decoded element by
element, `null` empties the slice, any other value is a type error. -/
def storeDeposits (parseFloat : String → Option Float) (old : List (Option Deposit))
    (v : Json) : List (Option Deposit) × Bool :=
  match v with
  | Json.null => ([], false)
  | Json.arr items =>
    (items.map (fun x => (decodeDeposit parseFloat x).1),
      items.any (fun x => (decodeDeposit parseFloat x).2))
  | _ => (old, true)

/-- One member of a JSON object decoded into a `DepositHistoryResponse` (fields `success` and
`depositList`). -/
def DepositHistoryResponse.storeMember (parseFloat : String → Option Float)
    (s : DepositHistoryResponse × Bool) (m : String × Json) : DepositHistoryResponse × Bool :=
  if equalFold "success" m.1 then
    ({ s.1 with Success := (storeBool s.1.Success m.2).1 }, s.2 || (storeBool s.1.Success m.2).2)
  else if equalFold "depositList" m.1 then
    ({ s.1 with Deposits := (storeDeposits parseFloat s.1.Deposits m.2).1 },
      s.2 || (storeDeposits parseFloat s.1.Deposits m.2).2)
  else s

/-- Go `json.Unmarshal(data, res)` for a `res` of type `*DepositHistoryResponse`: the struct
after the call and the error returned. The destination is a struct: an object is decoded member
by member, `null` does nothing, and any other value, an array among them, is a type error that
leaves the struct untouched. -/
def unmarshalDepositHistoryResponse (parseFloat : String → Option Float) (data : String)
    (init : DepositHistoryResponse) : DepositHistoryResponse × Option GoError :=
  match Json.parse data with
  | none => (init, some jsonSyntaxError)
  | some (Json.obj ms) =>
    let s := ms.foldl (DepositHistoryResponse.storeMember parseFloat) (init, false)
    (s.1, if s.2 then some jsonTypeError else none)
  | some Json.null => (init, none)
  | some _ => (init, some jsonTypeError)

/-- Go `ListDepositsService.Do`. The `callAPI` of the client of package `binance` is not among
the sources; the `callAPI` of the broker client, the pipeline that the specification describes,
stands for it. The result is the slice of deposits (`none` is the `nil` of the returns with an
error). -/
def ListDepositsService.Do (c : Client) (env : Env) (parseFloat : String → Option Float)
    (s : ListDepositsService) : Outcome (List (Option Deposit)) :=
  let called := callAPI c env s.buildRequest []
  match called.err with
  | some err => { res := none, err := some err, sent := called.sent }
  | none =>
    let decoded := unmarshalDepositHistoryResponse parseFloat (called.res.getD "") {}
    match decoded.2 with
    | some err => { res := none, err := some err, sent := called.sent }
    | none => { res := some decoded.1.Deposits, err := none, sent := called.sent }

/-- The response body of `TestListDeposits`: a JSON array of two deposit objects. -/
def depositsBody : String :=
  String.join
    ["\n",
     "\t[\n",
     "    \x7b\n",
     "        \"amount\":\"0.00999800\",\n",
     "        \"coin\":\"PAXG\",\n",
     "        \"network\":\"ETH\",\n",
     "        \"status\":1,\n",
     "        \"address\":\"0x788cabe9236ce061e5a892e1a59395a81fc8d62c\",\n",
     "        \"addressTag\":\"\",\n",
     "        \"txId\":\"0xaad4654a3234aa6118af9b4b335f5ae81c360b2394721c019b5d1e75328b09f3\",\n",
     "        \"insertTime\":1599621997000,\n",
     "        \"transferType\":0,\n",
     "        \"confirmTimes\":\"12/12\"\n",
     "    \x7d,\n",
     "    \x7b\n",
     "        \"amount\":\"0.50000000\",\n",
     "        \"coin\":\"IOTA\",\n",
     "        \"network\":\"IOTA\",\n",
     "        \"status\":1,\n",
     "        \"address\":\"SIZ9VLMHWATXKV99LH99CIGFJFUMLEHGWVZVNNZXRJJVWBPHYWPPBOSDORZ9EQSHCZAMPVAPGFYQAUUV9DROOXJLNW\",\n",
     "        \"addressTag\":\"342341222\",\n",
     "        \"txId\":\"ESBFVQUTPIWQNJSPXFNHNYHSQNTGKRVKPRABQWTAXCDWOAKDKYWPTVG9BGXNVNKTLEJGESAVXIKIZ9999\",\n",
     "        \"insertTime\":1599620082000,\n",
     "        \"transferType\":0,\n",
     "        \"confirmTimes\":\"1/1\"\n",
     "    \x7d\n",
     "]\n",
     "\t"]

/-- A `strconv.ParseFloat` for the examples: it reads the literals of the sample bodies and
returns an error for every other text. -/
def sampleParseFloat (lit : String) : Option Float :=
  if lit = "1" then some 1 else if lit = "0.5" then some 0.5 else none

/-! ## The canonical shape of an encoding, and the decoding of a query string -/

/-- One parameter as `url.Values.Encode` writes it: `QueryEscape(key)=QueryEscape(value)`. -/
def encodedPair (p : String × String) : String :=
  QueryEscape p.1 ++ "=" ++ QueryEscape p.2

/-- The parameters written one after the other, separated by `&`. -/
def joinPairs : List (String × String) → String
  | [] => ""
  | [p] => encodedPair p
  | p :: q :: rest => encodedPair p ++ "&" ++ joinPairs (q :: rest)

/-- The parameters of a map in the order of its encoding: the keys ascending, the values of a
key in their order in the map. -/
def Values.pairs (v : Values) : List (String × String) :=
  (sortStrings v.keys).flatMap (fun k => (v.lookup k).map (fun x => (k, x)))

/-- The parameters applied one after the other by `set` to a parameter set. -/
def Values.setAll (v : Values) (ps : List (String × String)) : Values :=
  ps.foldl (fun acc p => acc.Set p.1 p.2) v

/-- The calls `r.setParam(key, value)` for a list of parameters, in the order of the list. -/
def request.setParamsInOrder (r : request) (ps : List (String × String)) : request :=
  ps.foldl (fun acc p => acc.setParam p.1 p.2) r

/-- The calls `r.setFormParam(key, value)` for a list of parameters, in the order of the
list. -/
def request.setFormParamsInOrder (r : request) (ps : List (String × String)) : request :=
  ps.foldl (fun acc p => acc.setFormParam p.1 p.2) r

/-- Two representations of the same `map[string][]string`: no key is repeated in the entries of
either, the keys are the same, and every key has the same values. -/
def Values.SameMap (v1 v2 : Values) : Prop :=
  v1.keys.Nodup ∧ v2.keys.Nodup ∧ (∀ k, k ∈ v1.keys ↔ k ∈ v2.keys) ∧
    ∀ k, v1.lookup k = v2.lookup k

/-- A fresh signed request, its parameter sets empty. -/
def freshRequest : request :=
  { method := "GET", endpoint := "/sapi/v1/bswap/quote", secType := secType.secTypeSigned }

/-- Go `unhex` (with `ishex`): the value of a hexadecimal digit given by its byte, `none` for
any other byte. -/
def unhex (b : Nat) : Option Nat :=
  if 48 ≤ b ∧ b ≤ 57 then some (b - 48)
  else if 97 ≤ b ∧ b ≤ 102 then some (b - 87)
  else if 65 ≤ b ∧ b ≤ 70 then some (b - 55)
  else none

/-- Go `unescape(s, encodeQueryComponent)` on the bytes of the text: `%XX` is the byte `XX`, `+`
is a space, any other byte is itself; a `%` that is not followed by two hexadecimal digits is an
error (`none`). -/
def unescapeBytes : List Nat → Option (List Nat)
  | [] => some []
  | b :: rest =>
    if b = 37 then
      match rest with
      | h :: l :: rest2 =>
        match unhex h, unhex l with
        | some x, some y => (unescapeBytes rest2).map (List.cons (x * 16 + y))
        | _, _ => none
      | _ => none
    else (unescapeBytes rest).map (List.cons (if b = 43 then 32 else b))

/-- The number of bytes of the UTF-8 sequence that starts with the byte `b0`. -/
def utf8Width (b0 : Nat) : Nat :=
  if b0 < 0xC0 then 1 else if b0 < 0xE0 then 2 else if b0 < 0xF0 then 3 else 4

/-- The character of the UTF-8 sequence in front of the bytes. Bytes that are not UTF-8 are
outside the strings covered; a continuation byte in front is read as U+FFFD. -/
def utf8Rune (bs : List Nat) : Char :=
  let b0 := bs.getD 0 0
  let b1 := bs.getD 1 0
  let b2 := bs.getD 2 0
  let b3 := bs.getD 3 0
  if b0 < 0x80 then Char.ofNat b0
  else if b0 < 0xC0 then Char.ofNat 0xFFFD
  else if b0 < 0xE0 then Char.ofNat ((b0 - 0xC0) * 64 + (b1 - 0x80))
  else if b0 < 0xF0 then Char.ofNat ((b0 - 0xE0) * 4096 + (b1 - 0x80) * 64 + (b2 - 0x80))
  else Char.ofNat ((b0 - 0xF0) * 262144 + (b1 - 0x80) * 4096 + (b2 - 0x80) * 64 + (b3 - 0x80))

/-- The text that a sequence of bytes is in UTF-8, character by character; the fuel bounds the
number of characters. -/
def utf8DecodeFuel : Nat → List Nat → List Char
  | 0, _ => []
  | _ + 1, [] => []
  | fuel + 1, b0 :: rest =>
    utf8Rune (b0 :: rest) :: utf8DecodeFuel fuel (rest.drop (utf8Width b0 - 1))

/-- The text that a sequence of bytes is in UTF-8 (the Go conversion of bytes to a string, seen
as text). There are no more characters than bytes. -/
def utf8Decode (bs : List Nat) : List Char :=
  utf8DecodeFuel bs.length bs

/-- Go `url.QueryUnescape` on the characters of a text: the text unescaped, `none` for the
error of a malformed escape. -/
def queryUnescapeChars (cs : List Char) : Option String :=
  (unescapeBytes (cs.flatMap utf8Char)).map (fun bs => String.mk (utf8Decode bs))

/-- Go `url.QueryUnescape`. -/
def QueryUnescape (s : String) : Option String :=
  queryUnescapeChars s.data

/-- The pieces of a text between the occurrences of a separator (Go `strings.Split`). -/
def splitOn (sep : Char) : List Char → List (List Char)
  | [] => [[]]
  | c :: cs =>
    if c = sep then [] :: splitOn sep cs
    else
      match splitOn sep cs with
      | seg :: segs => (c :: seg) :: segs
      | [] => [[c]]

/-- Go `strings.Cut`: the text before the first occurrence of the separator and the text after
it; the whole text and the empty text when the separator does not occur. -/
def cutAt (sep : Char) : List Char → List Char × List Char
  | [] => ([], [])
  | c :: cs => if c = sep then ([], cs) else (c :: (cutAt sep cs).1, (cutAt sep cs).2)

/-- The error of `url.ParseQuery` for a `;` in the query. -/
def semicolonError : GoError := GoError.text "invalid semicolon separator in query"

/-- The error of `url.QueryUnescape` for a malformed escape (an `url.EscapeError`; its text
names the escape, which is left out here). -/
def escapeError : GoError := GoError.text "invalid URL escape"

/-- One round of the loop of Go `parseQuery`, on the piece of the query up to the next `&`: a
piece with a `;` sets the error, an empty piece is skipped, and otherwise the piece is cut at
the first `=`, key and value are unescaped (the first error of that kind is kept) and the value
is appended to the values of the key. -/
def parseQueryPiece (acc : Values × Option GoError) (piece : List Char) :
    Values × Option GoError :=
  if piece.contains ';' then (acc.1, some semicolonError)
  else if piece = [] then acc
  else
    match queryUnescapeChars (cutAt '=' piece).1 with
    | none => (acc.1, if acc.2 = none then some escapeError else acc.2)
    | some key =>
      match queryUnescapeChars (cutAt '=' piece).2 with
      | none => (acc.1, if acc.2 = none then some escapeError else acc.2)
      | some value => (acc.1.Add key value, acc.2)

/-- Go `url.ParseQuery` (Go 1.17 and later, where `;` is no separator): the map of the
parameters of a query string, and the error met, if any. The loop of `parseQuery` takes the
query apart at every `&`; the pieces are those of `splitOn`. -/
def ParseQuery (query : String) : Values × Option GoError :=
  (splitOn '&' query.data).foldl parseQueryPiece (Values.empty, none)

/-- A call on a parameter set: `set(key, value)` or `add(key, value)`. -/
inductive ParamCall where
  | set (key value : String)
  | add (key value : String)
  deriving DecidableEq, Repr

/-- The parameter set after a call. -/
def ParamCall.apply (v : Values) (call : ParamCall) : Values :=
  match call with
  | ParamCall.set key value => v.Set key value
  | ParamCall.add key value => v.Add key value

/-- The parameter set built from the empty one by a sequence of calls. -/
def buildValues (calls : List ParamCall) : Values :=
  calls.foldl ParamCall.apply Values.empty

/-- Calls in the manner of `RemoveLiquidityService.Do`, with a key set twice, a key with two
values, and reserved characters in keys and values. -/
def sampleCalls : List ParamCall :=
  [ParamCall.set "type" "SINGLE", ParamCall.add "asset" "B&T=C", ParamCall.add "asset" "E TH+%",
    ParamCall.set "type" "COMBINATION", ParamCall.add "a b" "x"]

/-- An option that sets the receive window of the request, one of the option functions that
`parseRequest` applies first. -/
def withRecvWindow (w : Int) : RequestOption :=
  fun r => { r with recvWindow := w }

/-- A client whose clock runs 1000 ms ahead of the server: `TimeOffset` is 1000. -/
def skewedClient : Client :=
  { sampleClient with TimeOffset := 1000 }

/-- An environment as `sampleEnv` whose clock reads 999999 ns after 1599621997000 ms. -/
def lateEnv : Env :=
  { sampleEnv with unixNano := 1599621997000999999 }

/-! # Theorems -/

/-! ## Encoding lemmas -/

theorem escape_lowerHexDigit (d : Nat) (hd : d < 16) :
    (utf8Char (lowerHexDigit d)).flatMap escapeByte = [lowerHexDigit d] := by
  interval_cases d <;> decide

theorem escape_hexLowerChars (bs : List Nat) :
    ((hexLowerChars bs).flatMap utf8Char).flatMap escapeByte = hexLowerChars bs := by
  induction bs with
  | nil => rfl
  | cons b bs ih =>
    simp only [hexLowerChars, List.flatMap_cons, List.flatMap_append, ih,
      escape_lowerHexDigit _ (Nat.mod_lt _ (by norm_num : 16 > 0))]
    rfl

theorem QueryEscape_hexLower (bs : List Nat) : QueryEscape (hexLower bs) = hexLower bs := by
  simp [QueryEscape, hexLower, bytesOf, escape_hexLowerChars]

theorem Encode_single (k x : String) :
    (Values.empty.Set k x).Encode = QueryEscape k ++ "=" ++ QueryEscape x := by
  simp [Values.Encode, Values.Set, Values.empty, Values.assignEntries, Values.keys, sortStrings,
    Values.lookup, Values.lookupEntries, Values.encodePair]

theorem Encode_signature (bs : List Nat) :
    (Values.empty.Set signatureKey (hexLower bs)).Encode = "signature=" ++ hexLower bs := by
  rw [Encode_single, QueryEscape_hexLower]
  have : QueryEscape signatureKey = "signature" := by decide
  rw [this]; rfl

theorem addStandardParams_secType (c : Client) (env : Env) (r : request) :
    (addStandardParams c env r).secType = r.secType := by
  unfold addStandardParams
  by_cases h1 : r.recvWindow > 0 <;> by_cases h2 : r.secType = secType.secTypeSigned <;>
    simp [h1, h2, request.setParam]

theorem addStandardParams_form (c : Client) (env : Env) (r : request) :
    (addStandardParams c env r).form = r.form := by
  unfold addStandardParams
  by_cases h1 : r.recvWindow > 0 <;> by_cases h2 : r.secType = secType.secTypeSigned <;>
    simp [h1, h2, request.setParam]

theorem addStandardParams_endpoint (c : Client) (env : Env) (r : request) :
    (addStandardParams c env r).endpoint = r.endpoint := by
  unfold addStandardParams
  by_cases h1 : r.recvWindow > 0 <;> by_cases h2 : r.secType = secType.secTypeSigned <;>
    simp [h1, h2, request.setParam]

theorem bytesOf_append (a b : String) : bytesOf (a ++ b) = bytesOf a ++ bytesOf b := by
  simp [bytesOf, String.data_append]

theorem append_ne_empty_left (a b : String) (h : a ≠ "") : a ++ b ≠ "" := by
  intro hab
  apply h
  have := congrArg String.data hab
  rw [String.data_append] at this
  apply String.ext
  simp at this
  simpa using this.1

theorem append_ne_empty_right (a b : String) (h : b ≠ "") : a ++ b ≠ "" := by
  intro hab
  apply h
  have := congrArg String.data hab
  rw [String.data_append] at this
  apply String.ext
  simp at this
  simpa using this.2

/-- The value `parseRequestLocals` returns when the validation passes. -/
theorem parseRequestLocals_signed (c : Client) (env : Env) (r : request)
    (opts : List RequestOption) (hv : env.validate (applyOptions opts r) = none)
    (hs : (applyOptions opts r).secType = secType.secTypeSigned) :
    ∃ l, parseRequestLocals c env r opts = Except.ok l ∧
      l.r.query = (addStandardParams c env (applyOptions opts r)).query ∧
      l.r.form = (applyOptions opts r).form ∧
      l.r.endpoint = (applyOptions opts r).endpoint ∧
      l.queryString = l.r.query.Encode ∧
      l.bodyString = l.r.form.Encode ∧
      l.raw = some (l.queryString ++ l.bodyString) ∧
      l.v = some (Values.empty.Set signatureKey
        (hexLower (hmacSHA256 (bytesOf c.secretKey) (bytesOf (l.queryString ++ l.bodyString))))) ∧
      l.finalQuery = (if l.queryString = "" then
          (Values.empty.Set signatureKey
            (hexLower (hmacSHA256 (bytesOf c.secretKey) (bytesOf (l.queryString ++ l.bodyString))))).Encode
        else l.queryString ++ "&" ++ (Values.empty.Set signatureKey
            (hexLower (hmacSHA256 (bytesOf c.secretKey) (bytesOf (l.queryString ++ l.bodyString))))).Encode) ∧
      l.r.fullURL = (if l.finalQuery ≠ "" then c.BaseURL ++ l.r.endpoint ++ "?" ++ l.finalQuery
        else c.BaseURL ++ l.r.endpoint) ∧
      l.r.body = l.bodyString := by
  have hs2 := addStandardParams_secType c env (applyOptions opts r)
  have hf := addStandardParams_form c env (applyOptions opts r)
  have he := addStandardParams_endpoint c env (applyOptions opts r)
  rw [hs] at hs2
  refine ⟨_, by simp only [parseRequestLocals, hv]; rfl, ?_⟩
  simp [hs2, hf, he]
  intro h
  exact h.symm

/-- The value `parseRequestLocals` returns when the validation passes, whatever the security
level: query, form, header and body of the request it leaves. -/
theorem parseRequestLocals_ok (c : Client) (env : Env) (r : request)
    (opts : List RequestOption) (hv : env.validate (applyOptions opts r) = none) :
    ∃ l, parseRequestLocals c env r opts = Except.ok l ∧
      l.r.query = (addStandardParams c env (applyOptions opts r)).query ∧
      l.r.form = (applyOptions opts r).form ∧
      l.r.secType = (applyOptions opts r).secType ∧
      l.queryString = l.r.query.Encode ∧
      l.bodyString = l.r.form.Encode ∧
      l.r.body = l.bodyString ∧
      l.r.header =
        (if l.r.secType = secType.secTypeAPIKey ∨ l.r.secType = secType.secTypeSigned then
          Header.Set (if l.bodyString ≠ "" then
            Header.Set Values.empty "Content-Type" "application/x-www-form-urlencoded"
            else Values.empty) "X-MBX-APIKEY" c.apiKey
        else (if l.bodyString ≠ "" then
            Header.Set Values.empty "Content-Type" "application/x-www-form-urlencoded"
            else Values.empty)) := by
  have hs2 := addStandardParams_secType c env (applyOptions opts r)
  have hf := addStandardParams_form c env (applyOptions opts r)
  refine ⟨_, by simp only [parseRequestLocals, hv]; rfl, ?_⟩
  simp [hs2, hf]
  intro h
  exact h.symm

theorem lookupEntries_assign_same (k : String) (vs : List String)
    (es : List (String × List String)) :
    Values.lookupEntries k (Values.assignEntries k vs es) = vs := by
  induction es with
  | nil => simp [Values.assignEntries, Values.lookupEntries]
  | cons e es ih =>
    obtain ⟨k1, v1⟩ := e
    by_cases h : k1 = k
    · simp [Values.assignEntries, Values.lookupEntries, h]
    · simp [Values.assignEntries, Values.lookupEntries, h, ih]

theorem lookupEntries_assign_other (k k2 : String) (vs : List String)
    (es : List (String × List String)) (hk : k ≠ k2) :
    Values.lookupEntries k2 (Values.assignEntries k vs es) = Values.lookupEntries k2 es := by
  induction es with
  | nil => simp [Values.assignEntries, Values.lookupEntries, hk]
  | cons e es ih =>
    obtain ⟨k1, v1⟩ := e
    by_cases h : k1 = k
    · subst h
      simp [Values.assignEntries, Values.lookupEntries, hk]
    · by_cases h2 : k1 = k2
      · subst h2
        simp [Values.assignEntries, Values.lookupEntries, h]
      · simp [Values.assignEntries, Values.lookupEntries, h, h2, ih]

theorem lookup_Set_same (v : Values) (k x : String) : (v.Set k x).lookup k = [x] := by
  simp [Values.Set, Values.lookup, lookupEntries_assign_same]

theorem lookup_Set_other (v : Values) (k k2 x : String) (hk : k ≠ k2) :
    (v.Set k x).lookup k2 = v.lookup k2 := by
  simp [Values.Set, Values.lookup, lookupEntries_assign_other _ _ _ _ hk]

theorem has_assign_same (k : String) (vs : List String) (es : List (String × List String)) :
    (Values.assignEntries k vs es).any (fun e => e.1 == k) = true := by
  induction es with
  | nil => simp [Values.assignEntries]
  | cons e es ih =>
    obtain ⟨k1, v1⟩ := e
    by_cases h : k1 = k
    · simp [Values.assignEntries, h]
    · simp only [Values.assignEntries, h, if_false, List.any_cons, ih, Bool.or_true]

theorem has_assign_other (k k2 : String) (vs : List String)
    (es : List (String × List String)) (hk : k ≠ k2) :
    (Values.assignEntries k vs es).any (fun e => e.1 == k2) = es.any (fun e => e.1 == k2) := by
  induction es with
  | nil => simp [Values.assignEntries, hk]
  | cons e es ih =>
    obtain ⟨k1, v1⟩ := e
    by_cases h : k1 = k
    · subst h
      simp [Values.assignEntries]
    · simp only [Values.assignEntries, h, if_false, List.any_cons, ih]

theorem has_Set_same (v : Values) (k x : String) : (v.Set k x).has k = true := by
  simp only [Values.Set, Values.has, has_assign_same]

theorem has_Set_other (v : Values) (k k2 x : String) (hk : k ≠ k2) :
    (v.Set k x).has k2 = v.has k2 := by
  simp only [Values.Set, Values.has, has_assign_other _ _ _ _ hk]

theorem escape_digitChar (d : Nat) (hd : d < 10) :
    (utf8Char (Nat.digitChar d)).flatMap escapeByte = [Nat.digitChar d] := by
  interval_cases d <;> decide

theorem escape_toDigitsCore (fuel : Nat) :
    ∀ (n : Nat) (ds : List Char),
      (∀ ch ∈ ds, (utf8Char ch).flatMap escapeByte = [ch]) →
      ∀ ch ∈ Nat.toDigitsCore 10 fuel n ds, (utf8Char ch).flatMap escapeByte = [ch] := by
  induction fuel with
  | zero => intro n ds h; simpa [Nat.toDigitsCore] using h
  | succ fuel ih =>
    intro n ds h
    have hd := escape_digitChar (n % 10) (Nat.mod_lt _ (by norm_num))
    have h2 : ∀ ch ∈ Nat.digitChar (n % 10) :: ds, (utf8Char ch).flatMap escapeByte = [ch] := by
      intro ch hch
      rcases List.mem_cons.1 hch with h1 | h1
      · rw [h1]; exact hd
      · exact h ch h1
    simp only [Nat.toDigitsCore]
    split
    · exact h2
    · exact ih _ _ h2

theorem escape_id_of_forall (cs : List Char)
    (h : ∀ ch ∈ cs, (utf8Char ch).flatMap escapeByte = [ch]) :
    (cs.flatMap utf8Char).flatMap escapeByte = cs := by
  induction cs with
  | nil => rfl
  | cons a cs ih =>
    simp only [List.flatMap_cons, List.flatMap_append]
    rw [h a (List.mem_cons_self _ _), ih (fun ch hch => h ch (List.mem_cons_of_mem _ hch))]
    rfl

theorem QueryEscape_formatInt (i : Int) : QueryEscape (formatInt i) = formatInt i := by
  cases i with
  | ofNat n =>
    simp only [QueryEscape, formatInt, bytesOf, Nat.toDigits]
    rw [escape_id_of_forall _ (escape_toDigitsCore _ _ _ (fun _ h => absurd h (List.not_mem_nil _)))]
  | negSucc n =>
    simp only [QueryEscape, formatInt, bytesOf]
    rw [escape_id_of_forall]
    intro ch hch
    rcases List.mem_cons.1 hch with h1 | h1
    · rw [h1]; decide
    · exact escape_toDigitsCore _ _ _ (fun _ h => absurd h (List.not_mem_nil _)) ch h1

theorem Encode_poolId_timestamp (t : String) :
    (Values.mk [("poolId", ["3"]), ("timestamp", [t])]).Encode
      = "poolId=3&timestamp=" ++ QueryEscape t := by
  have hk : sortStrings ["poolId", "timestamp"] = ["poolId", "timestamp"] := by decide
  have h1 : QueryEscape "poolId" = "poolId" := by decide
  have h2 : QueryEscape "timestamp" = "timestamp" := by decide
  have h3 : QueryEscape "3" = "3" := by decide
  simp only [Values.Encode, Values.keys, List.map, hk, List.foldl, Values.lookup,
    Values.lookupEntries, Values.encodePair, h1, h2, h3]
  simp

/-! ## The signature of a signed request -/

/-- C1: for a request whose security level is SIGNED (and that passes validation),
`Client.parseRequest` signs the message `Q ++ F`, where `Q` is the encoding of the query set after
`recvWindow` and `timestamp` were added and `F` is the encoding of the form set; the bytes signed
are the bytes of `Q` followed by the bytes of `F`; and the `signature` parameter is set to the
lowercase hexadecimal rendering of the HMAC-SHA256 of these bytes under the secret key, the value
set holding it being the one appended to the query string. -/
theorem parseRequest_signs_query_then_form (c : Client) (env : Env) (r : request)
    (opts : List RequestOption) (hv : env.validate (applyOptions opts r) = none)
    (hs : (applyOptions opts r).secType = secType.secTypeSigned) :
    ∃ l, parseRequestLocals c env r opts = Except.ok l ∧
      parseRequest c env r opts = Except.ok l.r ∧
      l.r.query = (addStandardParams c env (applyOptions opts r)).query ∧
      l.r.form = (applyOptions opts r).form ∧
      l.raw = some (l.r.query.Encode ++ l.r.form.Encode) ∧
      bytesOf (l.r.query.Encode ++ l.r.form.Encode)
        = bytesOf l.r.query.Encode ++ bytesOf l.r.form.Encode ∧
      ∃ v, l.v = some v ∧ v.keys = [signatureKey] ∧
        v.lookup signatureKey = [hexLower (hmacSHA256 (bytesOf c.secretKey)
          (bytesOf l.r.query.Encode ++ bytesOf l.r.form.Encode))] ∧
        l.finalQuery = (if l.r.query.Encode = "" then v.Encode
          else l.r.query.Encode ++ "&" ++ v.Encode) := by
  obtain ⟨l, hl, hq, hf, _, hQ, hF, hraw, hvv, hfin, _, _⟩ :=
    parseRequestLocals_signed c env r opts hv hs
  refine ⟨l, hl, ?_, hq, hf, ?_, bytesOf_append _ _, _, hvv, ?_, ?_, ?_⟩
  · simp [parseRequest, hl, Except.map]
  · rw [hraw, hQ, hF]
  · rfl
  · rw [lookup_Set_same, hQ, hF, bytesOf_append]
  · rw [hfin, hQ]

/-- Witness of C1: the signed request of the liquidity information service with `poolId` 3. -/
theorem parseRequest_signs_query_then_form_witness :
    sampleEnv.validate (applyOptions [] poolRequest) = none ∧
    (applyOptions [] poolRequest).secType = secType.secTypeSigned ∧
    ∃ l, parseRequestLocals sampleClient sampleEnv poolRequest [] = Except.ok l ∧
      parseRequest sampleClient sampleEnv poolRequest [] = Except.ok l.r ∧
      l.r.query = (addStandardParams sampleClient sampleEnv (applyOptions [] poolRequest)).query ∧
      l.r.form = (applyOptions [] poolRequest).form ∧
      l.raw = some (l.r.query.Encode ++ l.r.form.Encode) ∧
      bytesOf (l.r.query.Encode ++ l.r.form.Encode)
        = bytesOf l.r.query.Encode ++ bytesOf l.r.form.Encode ∧
      ∃ v, l.v = some v ∧ v.keys = [signatureKey] ∧
        v.lookup signatureKey = [hexLower (hmacSHA256 (bytesOf sampleClient.secretKey)
          (bytesOf l.r.query.Encode ++ bytesOf l.r.form.Encode))] ∧
        l.finalQuery = (if l.r.query.Encode = "" then v.Encode
          else l.r.query.Encode ++ "&" ++ v.Encode) :=
  ⟨rfl, rfl, parseRequest_signs_query_then_form sampleClient sampleEnv poolRequest [] rfl rfl⟩

/-- C2, as stated, fails: for the signed request with the query parameters `{poolId: 3}` and an
empty form, built by `LiquidityInformationService.Do` after `PoolID(3)`, the message that
`parseRequest` signs is `poolId=3&timestamp=1599621997000` when the clock reads 1599621997000 ms,
not `poolId=3`. -/
theorem poolId_message_counterexample :
    ∃ l, parseRequestLocals sampleClient sampleEnv poolRequest [] = Except.ok l ∧
      poolRequest.query = Values.empty.Set "poolId" "3" ∧
      poolRequest.form = Values.empty ∧
      l.raw = some "poolId=3&timestamp=1599621997000" ∧
      l.raw ≠ some "poolId=3" :=
  ⟨_, rfl, by decide, by decide, by decide, by decide⟩

/-- C2, amended: for the signed request with the query parameters `{poolId: 3}`, no receive
window and an empty form, the message that `parseRequest` signs is exactly
`poolId=3&timestamp=T`, where `T` is the decimal rendering of the current time in milliseconds
minus the clock offset of the client: nothing before `poolId`, nothing after the timestamp, no
trailing separator. -/
theorem poolId_message (c : Client) (env : Env) (hv : env.validate poolRequest = none) :
    ∃ l, parseRequestLocals c env poolRequest [] = Except.ok l ∧
      l.raw = some ("poolId=3&timestamp="
        ++ formatInt (wrapInt64 (currentTimestamp env - c.TimeOffset))) := by
  obtain ⟨l, hl, hq, hf, _, hQ, hF, hraw, _⟩ :=
    parseRequestLocals_signed c env poolRequest [] hv rfl
  refine ⟨l, hl, ?_⟩
  have hq2 : l.r.query = Values.mk [("poolId", ["3"]),
      ("timestamp", [formatInt (wrapInt64 (currentTimestamp env - c.TimeOffset))])] := by
    rw [hq]; rfl
  have hf2 : l.r.form.Encode = "" := by
    rw [hf]; rfl
  rw [hraw, hQ, hF, hf2, hq2, Encode_poolId_timestamp, QueryEscape_formatInt, String.append_empty]

/-- Witness of amended C2: the sample client and clock. -/
theorem poolId_message_witness :
    sampleEnv.validate poolRequest = none ∧
    ∃ l, parseRequestLocals sampleClient sampleEnv poolRequest [] = Except.ok l ∧
      l.raw = some ("poolId=3&timestamp="
        ++ formatInt (wrapInt64 (currentTimestamp sampleEnv - sampleClient.TimeOffset))) :=
  ⟨rfl, poolId_message sampleClient sampleEnv rfl⟩

/-- C3: for a request whose security level is SIGNED (and that passes validation), with or
without a form body, the signature is carried in the query string of the URL only. With `Q` the
encoded query and `sig` the hexadecimal signature, the final query string is
`Q ++ "&signature=" ++ sig`, or `"signature=" ++ sig` when `Q` is empty, so the signature is
its last parameter; the URL is the base URL, the endpoint, `?` and that string; and the body is
exactly the encoding of the form set as the caller built it, to which no parameter was added. -/
theorem parseRequest_signature_in_query (c : Client) (env : Env) (r : request)
    (opts : List RequestOption) (hv : env.validate (applyOptions opts r) = none)
    (hs : (applyOptions opts r).secType = secType.secTypeSigned) :
    ∃ l, parseRequestLocals c env r opts = Except.ok l ∧
      l.queryString = (addStandardParams c env (applyOptions opts r)).query.Encode ∧
      l.finalQuery =
        (if l.queryString = "" then
          "signature=" ++ hexLower (hmacSHA256 (bytesOf c.secretKey)
            (bytesOf (l.queryString ++ (applyOptions opts r).form.Encode)))
        else l.queryString ++ "&signature=" ++ hexLower (hmacSHA256 (bytesOf c.secretKey)
            (bytesOf (l.queryString ++ (applyOptions opts r).form.Encode)))) ∧
      l.r.fullURL = c.BaseURL ++ (applyOptions opts r).endpoint ++ "?" ++ l.finalQuery ∧
      l.r.form = (applyOptions opts r).form ∧
      l.r.body = (applyOptions opts r).form.Encode := by
  obtain ⟨l, hl, hq, hf, he, hQ, hF, _, _, hfin, hurl, hbody⟩ :=
    parseRequestLocals_signed c env r opts hv hs
  have hF2 : l.bodyString = (applyOptions opts r).form.Encode := by rw [hF, hf]
  have hfin2 : l.finalQuery =
      (if l.queryString = "" then
        "signature=" ++ hexLower (hmacSHA256 (bytesOf c.secretKey)
          (bytesOf (l.queryString ++ (applyOptions opts r).form.Encode)))
      else l.queryString ++ "&signature=" ++ hexLower (hmacSHA256 (bytesOf c.secretKey)
          (bytesOf (l.queryString ++ (applyOptions opts r).form.Encode)))) := by
    rw [hfin, Encode_signature, hF2]
    by_cases h : l.queryString = ""
    · simp [h]
    · simp only [h, if_false]
      rw [String.append_assoc, String.append_assoc]
      rfl
  have hne : l.finalQuery ≠ "" := by
    rw [hfin2]
    by_cases h : l.queryString = ""
    · simp only [h, if_true]
      exact append_ne_empty_left _ _ (by decide)
    · simp only [h, if_false]
      exact append_ne_empty_left _ _ (append_ne_empty_left _ _ h)
  refine ⟨l, hl, ?_, hfin2, ?_, hf, ?_⟩
  · rw [hQ, hq]
  · rw [hurl, he]
    simp [hne]
  · rw [hbody, hF2]

/-- Witness of C3: a signed request with a form body. -/
theorem parseRequest_signature_in_query_witness :
    sampleEnv.validate (applyOptions [] formRequest) = none ∧
    (applyOptions [] formRequest).secType = secType.secTypeSigned ∧
    ∃ l, parseRequestLocals sampleClient sampleEnv formRequest [] = Except.ok l ∧
      l.queryString
        = (addStandardParams sampleClient sampleEnv (applyOptions [] formRequest)).query.Encode ∧
      l.finalQuery =
        (if l.queryString = "" then
          "signature=" ++ hexLower (hmacSHA256 (bytesOf sampleClient.secretKey)
            (bytesOf (l.queryString ++ (applyOptions [] formRequest).form.Encode)))
        else l.queryString ++ "&signature=" ++ hexLower (hmacSHA256
            (bytesOf sampleClient.secretKey)
            (bytesOf (l.queryString ++ (applyOptions [] formRequest).form.Encode)))) ∧
      l.r.fullURL = sampleClient.BaseURL ++ (applyOptions [] formRequest).endpoint ++ "?"
        ++ l.finalQuery ∧
      l.r.form = (applyOptions [] formRequest).form ∧
      l.r.body = (applyOptions [] formRequest).form.Encode :=
  ⟨rfl, rfl, parseRequest_signature_in_query sampleClient sampleEnv formRequest [] rfl rfl⟩

theorem wrapInt64_of_range (x : Int) (h1 : -2 ^ 63 ≤ x) (h2 : x < 2 ^ 63) : wrapInt64 x = x := by
  unfold wrapInt64
  have : (x + 2 ^ 63) % 2 ^ 64 = x + 2 ^ 63 := by
    apply Int.emod_eq_of_lt <;> omega
  omega

theorem FormatTimestamp_range (n : Int) (h1 : -2 ^ 63 ≤ n) (h2 : n < 2 ^ 63) :
    -2 ^ 63 ≤ FormatTimestamp n ∧ FormatTimestamp n < 2 ^ 63 := by
  unfold FormatTimestamp
  by_cases hn : 0 ≤ n
  · rw [Int.tdiv_eq_ediv hn (by norm_num)]
    omega
  · have hm : (0 : Int) ≤ -n := by omega
    have h3 : n = -(-n) := by omega
    rw [h3, Int.neg_tdiv, Int.tdiv_eq_ediv hm (by norm_num)]
    omega

/-- The query set that `addStandardParams` leaves for a signed request. -/
theorem addStandardParams_query_signed (c : Client) (env : Env) (r : request)
    (hs : r.secType = secType.secTypeSigned) :
    (addStandardParams c env r).query
      = Values.Set (if r.recvWindow > 0 then r.query.Set recvWindowKey (formatInt r.recvWindow)
          else r.query) timestampKey
          (formatInt (wrapInt64 (currentTimestamp env - c.TimeOffset))) := by
  unfold addStandardParams
  by_cases h1 : r.recvWindow > 0 <;> simp [h1, hs, request.setParam]

/-- The query set that `addStandardParams` leaves for a request that is not signed. -/
theorem addStandardParams_query_unsigned (c : Client) (env : Env) (r : request)
    (hs : r.secType ≠ secType.secTypeSigned) :
    (addStandardParams c env r).query
      = (if r.recvWindow > 0 then r.query.Set recvWindowKey (formatInt r.recvWindow)
          else r.query) := by
  unfold addStandardParams
  by_cases h1 : r.recvWindow > 0 <;> simp [h1, hs, request.setParam]

/-- C8: for a request that passes validation, when the security level is SIGNED `parseRequest`
leaves under the key `timestamp` exactly one value, whatever was there before: the decimal
rendering of the 64-bit difference of the clock in milliseconds, which is the `UnixNano()` of the
clock divided by 1000000 towards zero, and `TimeOffset`. When the clock reads `now` whole
milliseconds since the epoch, the value is the rendering of the 64-bit `now - TimeOffset`, which is
the plain difference whenever that fits in 64 bits, and `now` itself when `TimeOffset` is 0. The
encoded query string is the encoding of the set holding it. When the security level is not SIGNED
the `timestamp` key is left as the caller had it: none is added. -/
theorem parseRequest_timestamp (c : Client) (env : Env) (r : request)
    (opts : List RequestOption) (hv : env.validate (applyOptions opts r) = none) :
    ∃ l, parseRequestLocals c env r opts = Except.ok l ∧
      l.queryString = l.r.query.Encode ∧
      ((applyOptions opts r).secType = secType.secTypeSigned →
        l.r.query.lookup timestampKey
          = [formatInt (wrapInt64 (Int.tdiv env.unixNano 1000000 - c.TimeOffset))] ∧
        (-2 ^ 63 ≤ Int.tdiv env.unixNano 1000000 - c.TimeOffset →
          Int.tdiv env.unixNano 1000000 - c.TimeOffset < 2 ^ 63 →
          l.r.query.lookup timestampKey
            = [formatInt (Int.tdiv env.unixNano 1000000 - c.TimeOffset)]) ∧
        (c.TimeOffset = 0 → -2 ^ 63 ≤ env.unixNano → env.unixNano < 2 ^ 63 →
          l.r.query.lookup timestampKey = [formatInt (Int.tdiv env.unixNano 1000000)]) ∧
        (∀ now : Int, 0 ≤ now → now * 1000000 ≤ env.unixNano →
          env.unixNano < (now + 1) * 1000000 →
          l.r.query.lookup timestampKey = [formatInt (wrapInt64 (now - c.TimeOffset))] ∧
          (-2 ^ 63 ≤ now - c.TimeOffset → now - c.TimeOffset < 2 ^ 63 →
            l.r.query.lookup timestampKey = [formatInt (now - c.TimeOffset)]) ∧
          (c.TimeOffset = 0 → env.unixNano < 2 ^ 63 →
            l.r.query.lookup timestampKey = [formatInt now]))) ∧
      ((applyOptions opts r).secType ≠ secType.secTypeSigned →
        l.r.query.lookup timestampKey = (applyOptions opts r).query.lookup timestampKey ∧
        l.r.query.has timestampKey = (applyOptions opts r).query.has timestampKey) := by
  obtain ⟨l, hl, hq, _, _, hQ, _⟩ := parseRequestLocals_ok c env r opts hv
  refine ⟨l, hl, hQ, ?_, ?_⟩
  · intro hs
    have h := addStandardParams_query_signed c env (applyOptions opts r) hs
    have hclock : currentTimestamp env = Int.tdiv env.unixNano 1000000 := rfl
    have hlook : l.r.query.lookup timestampKey
        = [formatInt (wrapInt64 (Int.tdiv env.unixNano 1000000 - c.TimeOffset))] := by
      rw [hq, h, lookup_Set_same, hclock]
    refine ⟨hlook, ?_, ?_, ?_⟩
    · intro h1 h2
      rw [hlook, wrapInt64_of_range _ h1 h2]
    · intro h0 h1 h2
      have hr := FormatTimestamp_range env.unixNano h1 h2
      unfold FormatTimestamp at hr
      rw [hlook, h0, Int.sub_zero, wrapInt64_of_range _ hr.1 hr.2]
    · intro now hn hlo hhi
      have hnow : Int.tdiv env.unixNano 1000000 = now := by
        rw [Int.tdiv_eq_ediv (by omega) (by norm_num)]
        omega
      rw [hnow] at hlook
      refine ⟨hlook, ?_, ?_⟩
      · intro h1 h2
        rw [hlook, wrapInt64_of_range _ h1 h2]
      · intro h0 h2
        rw [hlook, h0, Int.sub_zero, wrapInt64_of_range _ (by omega) (by omega)]
  · intro hs
    have h := addStandardParams_query_unsigned c env (applyOptions opts r) hs
    have hk : recvWindowKey ≠ timestampKey := by decide
    rw [hq, h]
    by_cases h1 : (applyOptions opts r).recvWindow > 0
    · rw [if_pos h1]
      exact ⟨lookup_Set_other _ _ _ _ hk, has_Set_other _ _ _ _ hk⟩
    · rw [if_neg h1]
      exact ⟨rfl, rfl⟩

/-- Witness of C8: the signed request of the liquidity information service, sent by a client
whose `TimeOffset` is 1000 when the clock reads 999999 ns after 1599621997000 ms, carries the
timestamp `1599621996000`; sent by a client without offset when the clock reads 1599621997000 ms,
it carries `1599621997000`; an earlier `timestamp` of the caller is replaced; a request that
needs no authentication carries none. -/
theorem parseRequest_timestamp_witness :
    lateEnv.validate (applyOptions [] poolRequest) = none ∧
    lateEnv.unixNano = 1599621997000999999 ∧ skewedClient.TimeOffset = 1000 ∧
    (∃ l, parseRequestLocals skewedClient lateEnv poolRequest [] = Except.ok l ∧
      l.queryString = l.r.query.Encode ∧
      ((applyOptions [] poolRequest).secType = secType.secTypeSigned →
        l.r.query.lookup timestampKey
          = [formatInt (wrapInt64 (Int.tdiv lateEnv.unixNano 1000000
              - skewedClient.TimeOffset))] ∧
        (-2 ^ 63 ≤ Int.tdiv lateEnv.unixNano 1000000 - skewedClient.TimeOffset →
          Int.tdiv lateEnv.unixNano 1000000 - skewedClient.TimeOffset < 2 ^ 63 →
          l.r.query.lookup timestampKey
            = [formatInt (Int.tdiv lateEnv.unixNano 1000000 - skewedClient.TimeOffset)]) ∧
        (skewedClient.TimeOffset = 0 → -2 ^ 63 ≤ lateEnv.unixNano → lateEnv.unixNano < 2 ^ 63 →
          l.r.query.lookup timestampKey = [formatInt (Int.tdiv lateEnv.unixNano 1000000)]) ∧
        (∀ now : Int, 0 ≤ now → now * 1000000 ≤ lateEnv.unixNano →
          lateEnv.unixNano < (now + 1) * 1000000 →
          l.r.query.lookup timestampKey
            = [formatInt (wrapInt64 (now - skewedClient.TimeOffset))] ∧
          (-2 ^ 63 ≤ now - skewedClient.TimeOffset → now - skewedClient.TimeOffset < 2 ^ 63 →
            l.r.query.lookup timestampKey = [formatInt (now - skewedClient.TimeOffset)]) ∧
          (skewedClient.TimeOffset = 0 → lateEnv.unixNano < 2 ^ 63 →
            l.r.query.lookup timestampKey = [formatInt now]))) ∧
      ((applyOptions [] poolRequest).secType ≠ secType.secTypeSigned →
        l.r.query.lookup timestampKey = (applyOptions [] poolRequest).query.lookup timestampKey ∧
        l.r.query.has timestampKey = (applyOptions [] poolRequest).query.has timestampKey)) ∧
    (∃ l, parseRequestLocals skewedClient lateEnv poolRequest [] = Except.ok l ∧
      l.r.query.lookup timestampKey = ["1599621996000"] ∧
      l.queryString = "poolId=3&timestamp=1599621996000") ∧
    (∃ l, parseRequestLocals sampleClient sampleEnv poolRequest [] = Except.ok l ∧
      sampleClient.TimeOffset = 0 ∧ sampleEnv.unixNano = 1599621997000 * 1000000 ∧
      l.r.query.lookup timestampKey = ["1599621997000"]) ∧
    (∃ l, parseRequestLocals sampleClient sampleEnv
        (poolRequest.setParam timestampKey "1") [] = Except.ok l ∧
      l.r.query.lookup timestampKey = ["1599621997000"]) ∧
    (∃ l, parseRequestLocals sampleClient sampleEnv publicRequest [] = Except.ok l ∧
      publicRequest.secType ≠ secType.secTypeSigned ∧
      l.r.query.has timestampKey = false) :=
  ⟨rfl, rfl, rfl, parseRequest_timestamp skewedClient lateEnv poolRequest [] rfl,
    ⟨_, rfl, by decide, by decide⟩, ⟨_, rfl, rfl, by decide, by decide⟩,
    ⟨_, rfl, by decide⟩, ⟨_, rfl, by decide, by decide⟩⟩

theorem encodePair_ne_empty (ke buf x : String) : Values.encodePair ke buf x ≠ "" := by
  unfold Values.encodePair
  exact append_ne_empty_left _ _ (append_ne_empty_right _ _ (by decide))

theorem foldl_encodePair_ne_empty (ke : String) :
    ∀ (vs : List String) (buf : String), (buf ≠ "" ∨ vs ≠ []) →
      vs.foldl (Values.encodePair ke) buf ≠ "" := by
  intro vs
  induction vs with
  | nil => intro buf h; rcases h with h | h; exact h; exact absurd rfl h
  | cons x vs ih => intro buf _; exact ih _ (Or.inl (encodePair_ne_empty _ _ _))

theorem foldl_keys_ne_empty (v : Values) :
    ∀ (ks : List String) (buf : String), (buf ≠ "" ∨ ∃ k ∈ ks, v.lookup k ≠ []) →
      ks.foldl (fun buf k => (v.lookup k).foldl (Values.encodePair (QueryEscape k)) buf) buf
        ≠ "" := by
  intro ks
  induction ks with
  | nil =>
    intro buf h
    rcases h with h | ⟨k, hk, _⟩
    · exact h
    · exact absurd hk (List.not_mem_nil _)
  | cons k ks ih =>
    intro buf h
    simp only [List.foldl_cons]
    apply ih
    rcases h with h | ⟨k2, hk2, hl⟩
    · exact Or.inl (foldl_encodePair_ne_empty _ _ _ (Or.inl h))
    · rcases List.mem_cons.1 hk2 with h1 | h1
      · subst h1
        exact Or.inl (foldl_encodePair_ne_empty _ _ _ (Or.inr hl))
      · exact Or.inr ⟨k2, h1, hl⟩

theorem foldl_keys_empty (v : Values) (hall : ∀ k, v.lookup k = []) :
    ∀ (ks : List String),
      ks.foldl (fun buf k => (v.lookup k).foldl (Values.encodePair (QueryEscape k)) buf) ""
        = "" := by
  intro ks
  induction ks with
  | nil => rfl
  | cons k ks ih => simp only [List.foldl_cons, hall k, List.foldl_nil, ih]

theorem mem_keys_of_lookupEntries (k : String) (es : List (String × List String))
    (h : Values.lookupEntries k es ≠ []) : k ∈ es.map Prod.fst := by
  induction es with
  | nil => exact absurd rfl h
  | cons e es ih =>
    obtain ⟨k1, v1⟩ := e
    by_cases hk : k1 = k
    · simp [hk]
    · simp only [Values.lookupEntries, hk, if_false] at h
      simp [ih h]

theorem mem_sortStrings (k : String) (ks : List String) : k ∈ sortStrings ks ↔ k ∈ ks :=
  (List.perm_insertionSort _ ks).mem_iff

/-- A set with at least one parameter has a non-empty encoding. -/
theorem Encode_ne_empty (v : Values) (h : ∃ k, v.lookup k ≠ []) : v.Encode ≠ "" := by
  obtain ⟨k, hk⟩ := h
  unfold Values.Encode
  apply foldl_keys_ne_empty
  exact Or.inr ⟨k, (mem_sortStrings _ _).2 (mem_keys_of_lookupEntries _ _ hk), hk⟩

/-- A set without any parameter has the empty encoding. -/
theorem Encode_eq_empty (v : Values) (h : ∀ k, v.lookup k = []) : v.Encode = "" := by
  unfold Values.Encode
  exact foldl_keys_empty v h _

/-! ## Headers and body -/

theorem header_has_Set_same (h : Header) (k x : String) : Header.has (Header.Set h k x) k = true :=
  has_Set_same _ _ _

theorem header_Values_Set_same (h : Header) (k x : String) :
    Header.Values (Header.Set h k x) k = [x] :=
  lookup_Set_same _ _ _

/-- C9: for a request that passes validation, the headers that `parseRequest` leaves have an
`X-MBX-APIKEY` header if and only if the security level is API-KEY-ONLY or SIGNED; the header
then has the API key of the client as its single value, and with the security level NONE there
is no such header. -/
theorem parseRequest_apiKey_header (c : Client) (env : Env) (r : request)
    (opts : List RequestOption) (hv : env.validate (applyOptions opts r) = none) :
    ∃ l, parseRequestLocals c env r opts = Except.ok l ∧
      (Header.has l.r.header "X-MBX-APIKEY" = true ↔
        ((applyOptions opts r).secType = secType.secTypeAPIKey ∨
          (applyOptions opts r).secType = secType.secTypeSigned)) ∧
      (((applyOptions opts r).secType = secType.secTypeAPIKey ∨
          (applyOptions opts r).secType = secType.secTypeSigned) →
        Header.Values l.r.header "X-MBX-APIKEY" = [c.apiKey]) ∧
      ((applyOptions opts r).secType = secType.secTypeNone →
        Header.has l.r.header "X-MBX-APIKEY" = false ∧
        Header.Values l.r.header "X-MBX-APIKEY" = []) := by
  obtain ⟨l, hl, _, _, hsec, _, _, _, hh⟩ := parseRequestLocals_ok c env r opts hv
  rw [hsec] at hh
  have hnone : ∀ h0 : Header, (h0 = Values.empty ∨
      h0 = Header.Set Values.empty "Content-Type" "application/x-www-form-urlencoded") →
      Header.has h0 "X-MBX-APIKEY" = false ∧ Header.Values h0 "X-MBX-APIKEY" = [] := by
    intro h0 h
    rcases h with h | h <;> subst h <;> exact ⟨by decide, by decide⟩
  have hcase : (if l.bodyString ≠ "" then
        Header.Set Values.empty "Content-Type" "application/x-www-form-urlencoded"
      else Values.empty) = Values.empty ∨
      (if l.bodyString ≠ "" then
        Header.Set Values.empty "Content-Type" "application/x-www-form-urlencoded"
      else Values.empty)
        = Header.Set Values.empty "Content-Type" "application/x-www-form-urlencoded" := by
    by_cases hb : l.bodyString ≠ ""
    · right; rw [if_pos hb]
    · left; rw [if_neg hb]
  refine ⟨l, hl, ?_, ?_, ?_⟩
  · by_cases hs : (applyOptions opts r).secType = secType.secTypeAPIKey ∨
        (applyOptions opts r).secType = secType.secTypeSigned
    · rw [hh, if_pos hs]
      simp only [header_has_Set_same, hs]
    · rw [hh, if_neg hs]
      simp only [(hnone _ hcase).1, hs]
      simp
  · intro hs
    rw [hh, if_pos hs, header_Values_Set_same]
  · intro hs
    have hs2 : ¬ ((applyOptions opts r).secType = secType.secTypeAPIKey ∨
        (applyOptions opts r).secType = secType.secTypeSigned) := by
      rw [hs]; decide
    rw [hh, if_neg hs2]
    exact hnone _ hcase

/-- Witness of C9: a request that needs no authentication. -/
theorem parseRequest_apiKey_header_witness :
    sampleEnv.validate (applyOptions [] publicRequest) = none ∧
    ∃ l, parseRequestLocals sampleClient sampleEnv publicRequest [] = Except.ok l ∧
      (Header.has l.r.header "X-MBX-APIKEY" = true ↔
        ((applyOptions [] publicRequest).secType = secType.secTypeAPIKey ∨
          (applyOptions [] publicRequest).secType = secType.secTypeSigned)) ∧
      (((applyOptions [] publicRequest).secType = secType.secTypeAPIKey ∨
          (applyOptions [] publicRequest).secType = secType.secTypeSigned) →
        Header.Values l.r.header "X-MBX-APIKEY" = [sampleClient.apiKey]) ∧
      ((applyOptions [] publicRequest).secType = secType.secTypeNone →
        Header.has l.r.header "X-MBX-APIKEY" = false ∧
        Header.Values l.r.header "X-MBX-APIKEY" = []) :=
  ⟨rfl, parseRequest_apiKey_header sampleClient sampleEnv publicRequest [] rfl⟩

/-- C10: for a request that passes validation, when the form set has a parameter `parseRequest`
sets the header `Content-Type` to `application/x-www-form-urlencoded` and the body to exactly the
encoded form string, which is not empty; when the form set has no parameter the body is empty
and there is no `Content-Type` header. -/
theorem parseRequest_form_body (c : Client) (env : Env) (r : request)
    (opts : List RequestOption) (hv : env.validate (applyOptions opts r) = none) :
    ∃ l, parseRequestLocals c env r opts = Except.ok l ∧
      ((∃ k, (applyOptions opts r).form.lookup k ≠ []) →
        Header.Values l.r.header "Content-Type" = ["application/x-www-form-urlencoded"] ∧
        l.r.body = (applyOptions opts r).form.Encode ∧ l.r.body ≠ "") ∧
      ((∀ k, (applyOptions opts r).form.lookup k = []) →
        l.r.body = "" ∧ Header.has l.r.header "Content-Type" = false ∧
        Header.Values l.r.header "Content-Type" = []) := by
  obtain ⟨l, hl, _, hf, hsec, _, hF, hbody, hh⟩ := parseRequestLocals_ok c env r opts hv
  have hk : CanonicalMIMEHeaderKey "X-MBX-APIKEY" ≠ CanonicalMIMEHeaderKey "Content-Type" := by
    decide
  refine ⟨l, hl, ?_, ?_⟩
  · intro hne
    have hb : l.bodyString ≠ "" := by
      rw [hF, hf]; exact Encode_ne_empty _ hne
    refine ⟨?_, by rw [hbody, hF, hf], by rw [hbody]; exact hb⟩
    rw [hh, if_pos hb]
    by_cases hs : l.r.secType = secType.secTypeAPIKey ∨ l.r.secType = secType.secTypeSigned
    · rw [if_pos hs]
      unfold Header.Values Header.Set
      rw [lookup_Set_other _ _ _ _ hk, lookup_Set_same]
    · rw [if_neg hs]
      exact header_Values_Set_same _ _ _
  · intro hall
    have hb : l.bodyString = "" := by
      rw [hF, hf]; exact Encode_eq_empty _ hall
    have hb2 : ¬ (l.bodyString ≠ "") := fun h => h hb
    refine ⟨by rw [hbody, hb], ?_, ?_⟩
    · rw [hh, if_neg hb2]
      by_cases hs : l.r.secType = secType.secTypeAPIKey ∨ l.r.secType = secType.secTypeSigned
      · rw [if_pos hs]
        unfold Header.has Header.Set
        rw [has_Set_other _ _ _ _ hk]
        rfl
      · rw [if_neg hs]
        rfl
    · rw [hh, if_neg hb2]
      by_cases hs : l.r.secType = secType.secTypeAPIKey ∨ l.r.secType = secType.secTypeSigned
      · rw [if_pos hs]
        unfold Header.Values Header.Set
        rw [lookup_Set_other _ _ _ _ hk]
        rfl
      · rw [if_neg hs]
        rfl

/-- Witness of C10: a signed request with a form body. -/
theorem parseRequest_form_body_witness :
    sampleEnv.validate (applyOptions [] formRequest) = none ∧
    ∃ l, parseRequestLocals sampleClient sampleEnv formRequest [] = Except.ok l ∧
      ((∃ k, (applyOptions [] formRequest).form.lookup k ≠ []) →
        Header.Values l.r.header "Content-Type" = ["application/x-www-form-urlencoded"] ∧
        l.r.body = (applyOptions [] formRequest).form.Encode ∧ l.r.body ≠ "") ∧
      ((∀ k, (applyOptions [] formRequest).form.lookup k = []) →
        l.r.body = "" ∧ Header.has l.r.header "Content-Type" = false ∧
        Header.Values l.r.header "Content-Type" = []) :=
  ⟨rfl, parseRequest_form_body sampleClient sampleEnv formRequest [] rfl⟩

/-! ## The classification of the response -/

/-- What `callAPI` returns once the transport has answered and the body was read. -/
theorem callAPI_of_responds (c : Client) (env : Env) (r : request) (opts : List RequestOption)
    (res : HttpResponse) (data : String) (hr : Responds c env r opts res)
    (hb : res.body = Except.ok data) :
    (callAPI c env r opts).res = (if res.StatusCode ≥ 400 then none else some data) ∧
    (callAPI c env r opts).err = (if res.StatusCode ≥ 400 then
        some (GoError.api (unmarshalAPIError data { Code := 0, Message := "" }).1)
      else res.close) ∧
    (callAPI c env r opts).sent.length = 1 := by
  obtain ⟨r1, h1, h2, h3⟩ := hr
  unfold callAPI
  simp only [h1, h2, h3, hb]
  by_cases hs : res.StatusCode ≥ 400
  · simp [hs]
  · simp [hs]

theorem lastField_append_single (name : String) (ms : List (String × Json))
    (m : String × Json) :
    Json.lastField name (ms ++ [m])
      = if equalFold name m.1 = true then some m.2 else Json.lastField name ms := by
  unfold Json.lastField
  by_cases h : equalFold name m.1 = true
  · simp [List.filter_append, h, List.getLast?_append]
  · simp [List.filter_append, h]

theorem equalFold_length (a b : String) (h : equalFold a b = true) :
    a.data.length = b.data.length := by
  unfold equalFold at h
  have h2 : a.data.map foldChar = b.data.map foldChar := by simpa using h
  have := congrArg List.length h2
  simpa using this

theorem not_code_of_msg (k : String) (h : equalFold "msg" k = true) :
    equalFold "code" k = false := by
  by_contra hc
  have h1 := equalFold_length _ _ h
  have h2 := equalFold_length _ _ (by simpa using hc : equalFold "code" k = true)
  have h3 : ("msg" : String).data.length = 3 := by decide
  have h4 : ("code" : String).data.length = 4 := by decide
  omega

/-- The `Code` after decoding the members of an object is the integer that the object has for
`code`. -/
theorem foldl_storeMember_code (lit : String) (n : Int) (hn : parseInt64 lit = some n) :
    ∀ (ms : List (String × Json)) (s : APIError × Bool),
      Json.lastField "code" ms = some (Json.num lit) →
      (ms.foldl APIError.storeMember s).1.Code = n := by
  intro ms
  induction ms using List.reverseRecOn with
  | nil => intro s h; simp [Json.lastField] at h
  | append_singleton ms m ih =>
    intro s h
    rw [lastField_append_single] at h
    rw [List.foldl_append]
    simp only [List.foldl_cons, List.foldl_nil]
    by_cases hc : equalFold "code" m.1 = true
    · rw [if_pos hc] at h
      have hm : m.2 = Json.num lit := Option.some.inj h
      simp [APIError.storeMember, hc, hm, storeInt64, hn]
    · rw [if_neg hc] at h
      have := ih s h
      by_cases hmsg : equalFold "msg" m.1 = true
      · simp [APIError.storeMember, hc, hmsg, this]
      · simp [APIError.storeMember, hc, hmsg, this]

/-- The `Message` after decoding the members of an object is the string that the object has for
`msg`. -/
theorem foldl_storeMember_msg (text : String) :
    ∀ (ms : List (String × Json)) (s : APIError × Bool),
      Json.lastField "msg" ms = some (Json.str text) →
      (ms.foldl APIError.storeMember s).1.Message = text := by
  intro ms
  induction ms using List.reverseRecOn with
  | nil => intro s h; simp [Json.lastField] at h
  | append_singleton ms m ih =>
    intro s h
    rw [lastField_append_single] at h
    rw [List.foldl_append]
    simp only [List.foldl_cons, List.foldl_nil]
    by_cases hmsg : equalFold "msg" m.1 = true
    · rw [if_pos hmsg] at h
      have hm : m.2 = Json.str text := Option.some.inj h
      have hc := not_code_of_msg _ hmsg
      simp [APIError.storeMember, hc, hmsg, hm, storeString]
    · rw [if_neg hmsg] at h
      have := ih s h
      by_cases hc : equalFold "code" m.1 = true
      · simp [APIError.storeMember, hc, this]
      · simp [APIError.storeMember, hc, hmsg, this]

/-- C4: for every transfer request whose `FromID` and `ToID` are both empty, whatever the other
fields, the client, the clock and the options, `Client.SubAccountTransfer` returns a `nil`
result and the mandatory-field error for `fromID or toID`, and no request is handed to the
transport function. -/
theorem SubAccountTransfer_missing_ids (c : Client) (env : Env)
    (req : SubAccountTransferRequest) (opts : List RequestOption)
    (hfrom : req.FromID = "") (hto : req.ToID = "") :
    (SubAccountTransfer c env req opts).res = none ∧
    (SubAccountTransfer c env req opts).err
      = some (CreateErrorMandatoryField "fromID or toID") ∧
    (SubAccountTransfer c env req opts).err
      = some (GoError.text "fromID or toID: field is MANDATORY") ∧
    (SubAccountTransfer c env req opts).sent = [] := by
  have h : SubAccountTransfer c env req opts
      = { res := none, err := some (CreateErrorMandatoryField "fromID or toID"), sent := [] } := by
    unfold SubAccountTransfer
    simp [hfrom, hto]
  rw [h]
  exact ⟨rfl, rfl, by decide, rfl⟩

/-- Witness of C4: a transfer of 1.5 BTC without sub-account ids, on a transport that would
answer. -/
theorem SubAccountTransfer_missing_ids_witness :
    ({ Asset := "BTC", Amount := 1.5 } : SubAccountTransferRequest).FromID = "" ∧
    ({ Asset := "BTC", Amount := 1.5 } : SubAccountTransferRequest).ToID = "" ∧
    (SubAccountTransfer (answeringClient 200 "\x7b\x7d") sampleEnv
      { Asset := "BTC", Amount := 1.5 } []).res = none ∧
    (SubAccountTransfer (answeringClient 200 "\x7b\x7d") sampleEnv
      { Asset := "BTC", Amount := 1.5 } []).err
      = some (CreateErrorMandatoryField "fromID or toID") ∧
    (SubAccountTransfer (answeringClient 200 "\x7b\x7d") sampleEnv
      { Asset := "BTC", Amount := 1.5 } []).err
      = some (GoError.text "fromID or toID: field is MANDATORY") ∧
    (SubAccountTransfer (answeringClient 200 "\x7b\x7d") sampleEnv
      { Asset := "BTC", Amount := 1.5 } []).sent = [] :=
  ⟨rfl, rfl, SubAccountTransfer_missing_ids (answeringClient 200 "\x7b\x7d") sampleEnv
    { Asset := "BTC", Amount := 1.5 } [] rfl rfl⟩

/-- C5, as stated, fails: the body `{"code":1e2,"msg":"x"}` is a JSON object with the numeric
`code` 100 and the string `msg` `x`, and on the status 400 `callAPI` returns an `APIError` whose
`Code` is 0, not 100 (the message is decoded). -/
theorem callAPI_numeric_code_counterexample :
    (∃ ms, Json.parse exponentBody = some (Json.obj ms) ∧
      Json.lastField "code" ms = some (Json.num "1e2") ∧
      Json.lastField "msg" ms = some (Json.str "x")) ∧
    (callAPI (answeringClient 400 exponentBody) sampleEnv subAccountRequest []).res = none ∧
    (callAPI (answeringClient 400 exponentBody) sampleEnv subAccountRequest []).err
      = some (GoError.api { Code := 0, Message := "x" }) ∧
    (callAPI (answeringClient 400 exponentBody) sampleEnv subAccountRequest []).err
      ≠ some (GoError.api { Code := 100, Message := "x" }) :=
  ⟨⟨_, rfl, rfl, rfl⟩, by decide, by decide, by decide⟩

/-- C5, amended: when the transport answers with a status code of 400 or more and a body that
is a JSON object whose `code` is the literal of an integer `code` that fits in 64 bits (an
optional minus sign and digits, no fraction, no exponent) and whose `msg` is a string `text`,
`callAPI` returns no payload and an `APIError` with that `Code` and that `Message`. The value of
the object for a field is the one of its last member whose key is the name of the field, the
case of the letters apart. -/
theorem callAPI_error_decoded (c : Client) (env : Env) (r : request)
    (opts : List RequestOption) (res : HttpResponse) (data : String)
    (ms : List (String × Json)) (lit : String) (code : Int) (text : String)
    (hr : Responds c env r opts res) (hs : res.StatusCode ≥ 400)
    (hb : res.body = Except.ok data) (hj : Json.parse data = some (Json.obj ms))
    (hcode : Json.lastField "code" ms = some (Json.num lit))
    (hint : parseInt64 lit = some code)
    (hmsg : Json.lastField "msg" ms = some (Json.str text)) :
    (callAPI c env r opts).res = none ∧
    (callAPI c env r opts).err = some (GoError.api { Code := code, Message := text }) ∧
    (∀ e, (callAPI c env r opts).err = some e → IsAPIError e = true) := by
  obtain ⟨h1, h2, _⟩ := callAPI_of_responds c env r opts res data hr hb
  rw [if_pos hs] at h1 h2
  have hdec : (unmarshalAPIError data { Code := 0, Message := "" }).1
      = { Code := code, Message := text } := by
    unfold unmarshalAPIError
    simp only [hj]
    have hc := foldl_storeMember_code lit code hint ms ({ Code := 0, Message := "" }, false) hcode
    have hm := foldl_storeMember_msg text ms ({ Code := 0, Message := "" }, false) hmsg
    cases hfold : (List.foldl APIError.storeMember ({ Code := 0, Message := "" }, false) ms).1
    rw [hfold] at hc hm
    simp only at hc hm
    rw [hc, hm]
  rw [hdec] at h2
  refine ⟨h1, h2, ?_⟩
  intro e he
  rw [h2] at he
  rw [← Option.some.inj he]
  rfl

/-- Witness of amended C5: the status 400 with the body
`{"code":-1102,"msg":"Mandatory parameter missing"}`. -/
theorem callAPI_error_decoded_witness :
    (callAPI (answeringClient 400 errorBody) sampleEnv subAccountRequest []).res = none ∧
    (callAPI (answeringClient 400 errorBody) sampleEnv subAccountRequest []).err
      = some (GoError.api { Code := -1102, Message := "Mandatory parameter missing" }) ∧
    (∀ e, (callAPI (answeringClient 400 errorBody) sampleEnv subAccountRequest []).err = some e →
      IsAPIError e = true) :=
  callAPI_error_decoded (answeringClient 400 errorBody) sampleEnv subAccountRequest []
    { StatusCode := 400, body := Except.ok errorBody } errorBody
    [("code", Json.num "-1102"), ("msg", Json.str "Mandatory parameter missing")]
    "-1102" (-1102) "Mandatory parameter missing"
    ⟨_, rfl, rfl, rfl⟩ (by decide) rfl rfl rfl (by decide) rfl

/-- C6: when the transport answers with a status code of 400 or more, whatever the body,
`callAPI` returns no payload and an error that is an `*APIError` (`IsAPIError` holds), never the
error of the JSON decoding; for a body that is not JSON, the empty body among them, the
`APIError` has the `Code` 0 and the empty `Message`. -/
theorem callAPI_error_is_APIError (c : Client) (env : Env) (r : request)
    (opts : List RequestOption) (res : HttpResponse) (data : String)
    (hr : Responds c env r opts res) (hs : res.StatusCode ≥ 400)
    (hb : res.body = Except.ok data) :
    (callAPI c env r opts).res = none ∧
    (∃ e, (callAPI c env r opts).err = some (GoError.api e) ∧
      IsAPIError (GoError.api e) = true ∧
      (Json.parse data = none → e = { Code := 0, Message := "" }) ∧
      (data = "" → e = { Code := 0, Message := "" })) ∧
    (∀ e, (callAPI c env r opts).err = some e → IsAPIError e = true) ∧
    (∀ msg, (callAPI c env r opts).err ≠ some (GoError.json msg)) ∧
    (callAPI c env r opts).err ≠ (unmarshalAPIError data { Code := 0, Message := "" }).2 := by
  obtain ⟨h1, h2, _⟩ := callAPI_of_responds c env r opts res data hr hb
  rw [if_pos hs] at h1 h2
  have hnone : Json.parse data = none →
      (unmarshalAPIError data { Code := 0, Message := "" }).1 = { Code := 0, Message := "" } := by
    intro hp
    unfold unmarshalAPIError
    simp only [hp]
  have herr : ∀ e, (unmarshalAPIError data { Code := 0, Message := "" }).2 = some e →
      ∃ msg, e = GoError.json msg := by
    intro e
    unfold unmarshalAPIError
    cases Json.parse data with
    | none => intro h; exact ⟨_, (Option.some.inj h).symm⟩
    | some j =>
      cases j with
      | obj ms =>
        simp only
        split
        · intro h; exact ⟨_, (Option.some.inj h).symm⟩
        · intro h; exact absurd h (by simp)
      | null => intro h; exact absurd h (by simp)
      | bool b => intro h; exact ⟨_, (Option.some.inj h).symm⟩
      | num l => intro h; exact ⟨_, (Option.some.inj h).symm⟩
      | str s => intro h; exact ⟨_, (Option.some.inj h).symm⟩
      | arr xs => intro h; exact ⟨_, (Option.some.inj h).symm⟩
  refine ⟨h1, ⟨_, h2, rfl, hnone, ?_⟩, ?_, ?_, ?_⟩
  · intro hd
    apply hnone
    rw [hd]
    rfl
  · intro e he
    rw [h2] at he
    rw [← Option.some.inj he]
    rfl
  · intro msg he
    rw [h2] at he
    exact GoError.noConfusion (Option.some.inj he)
  · intro he
    rw [h2] at he
    obtain ⟨msg, hm⟩ := herr _ he.symm
    exact GoError.noConfusion hm

/-- Witness of C6: the status 400 with an empty body. -/
theorem callAPI_error_is_APIError_witness :
    Responds (answeringClient 400 "") sampleEnv subAccountRequest []
      { StatusCode := 400, body := Except.ok "" } ∧
    (callAPI (answeringClient 400 "") sampleEnv subAccountRequest []).res = none ∧
    (∃ e, (callAPI (answeringClient 400 "") sampleEnv subAccountRequest []).err
        = some (GoError.api e) ∧
      IsAPIError (GoError.api e) = true ∧
      (Json.parse "" = none → e = { Code := 0, Message := "" }) ∧
      (("" : String) = "" → e = { Code := 0, Message := "" })) ∧
    (∀ e, (callAPI (answeringClient 400 "") sampleEnv subAccountRequest []).err = some e →
      IsAPIError e = true) ∧
    (∀ msg, (callAPI (answeringClient 400 "") sampleEnv subAccountRequest []).err
      ≠ some (GoError.json msg)) ∧
    (callAPI (answeringClient 400 "") sampleEnv subAccountRequest []).err
      ≠ (unmarshalAPIError "" { Code := 0, Message := "" }).2 :=
  ⟨⟨_, rfl, rfl, rfl⟩,
    callAPI_error_is_APIError (answeringClient 400 "") sampleEnv subAccountRequest []
      { StatusCode := 400, body := Except.ok "" } "" ⟨_, rfl, rfl, rfl⟩ (by decide) rfl⟩

/-- C7: when the transport answers with a status code below 400 and the body `b` is read and
closed without error, `callAPI` returns exactly `b` and a `nil` error, after one call of the
transport function. -/
theorem callAPI_success_body (c : Client) (env : Env) (r : request)
    (opts : List RequestOption) (res : HttpResponse) (b : String)
    (hr : Responds c env r opts res) (hs : res.StatusCode < 400)
    (hb : res.body = Except.ok b) (hc : res.close = none) :
    (callAPI c env r opts).res = some b ∧
    (callAPI c env r opts).err = none ∧
    (callAPI c env r opts).sent.length = 1 := by
  obtain ⟨h1, h2, h3⟩ := callAPI_of_responds c env r opts res b hr hb
  have hs2 : ¬ res.StatusCode ≥ 400 := by omega
  rw [if_neg hs2] at h1 h2
  exact ⟨h1, by rw [h2, hc], h3⟩

/-- Witness of C7: the status 200 with the body
`{"subaccountId":"123","email":"a@b.com","tag":"t"}`, which `CreateSubAccount` then decodes to a
`SubAccount` with the `SubAccountID` `123`. -/
theorem callAPI_success_body_witness :
    ((callAPI (answeringClient 200 subAccountBody) sampleEnv subAccountRequest []).res
        = some subAccountBody ∧
      (callAPI (answeringClient 200 subAccountBody) sampleEnv subAccountRequest []).err = none ∧
      (callAPI (answeringClient 200 subAccountBody) sampleEnv subAccountRequest []).sent.length
        = 1) ∧
    (CreateSubAccount (answeringClient 200 subAccountBody) sampleEnv []).res
      = some { SubAccountID := "123", Email := "a@b.com", Tag := "t" } ∧
    (CreateSubAccount (answeringClient 200 subAccountBody) sampleEnv []).err = none :=
  ⟨callAPI_success_body (answeringClient 200 subAccountBody) sampleEnv subAccountRequest []
      { StatusCode := 200, body := Except.ok subAccountBody } subAccountBody
      ⟨_, rfl, rfl, rfl⟩ (by decide) rfl rfl,
    by decide, by decide⟩

/-! ## The full URL -/

/-- The final query string and the full URL that `parseRequestLocals` leaves when the
validation passes, whatever the security level. -/
theorem parseRequestLocals_url (c : Client) (env : Env) (r : request)
    (opts : List RequestOption) (hv : env.validate (applyOptions opts r) = none) :
    ∃ l, parseRequestLocals c env r opts = Except.ok l ∧
      l.r.query = (addStandardParams c env (applyOptions opts r)).query ∧
      l.queryString = l.r.query.Encode ∧
      l.bodyString = (applyOptions opts r).form.Encode ∧
      l.finalQuery = (if (applyOptions opts r).secType = secType.secTypeSigned then
          (if l.queryString = "" then
            "signature=" ++ hexLower (hmacSHA256 (bytesOf c.secretKey)
              (bytesOf (l.queryString ++ l.bodyString)))
          else l.queryString ++ "&signature=" ++ hexLower (hmacSHA256 (bytesOf c.secretKey)
              (bytesOf (l.queryString ++ l.bodyString))))
        else l.queryString) ∧
      l.r.fullURL = (if l.finalQuery ≠ "" then
          c.BaseURL ++ (applyOptions opts r).endpoint ++ "?" ++ l.finalQuery
        else c.BaseURL ++ (applyOptions opts r).endpoint) := by
  have hs2 := addStandardParams_secType c env (applyOptions opts r)
  have hf := addStandardParams_form c env (applyOptions opts r)
  have he := addStandardParams_endpoint c env (applyOptions opts r)
  refine ⟨_, by simp only [parseRequestLocals, hv]; rfl, ?_⟩
  simp only [hs2, hf, he, Encode_signature]
  refine ⟨trivial, trivial, trivial, ?_, trivial⟩
  by_cases hs : (applyOptions opts r).secType = secType.secTypeSigned
  · simp only [hs, if_true]
    by_cases hq : (addStandardParams c env (applyOptions opts r)).query.Encode = ""
    · simp only [hq, if_true]
    · simp only [hq, if_false]
      rw [String.append_assoc, String.append_assoc]
      rfl
  · simp only [hs, if_false]

/-- C11: for a request that passes validation, the full URL that `parseRequest` leaves is the
base URL, the endpoint, `?` and the final query string when that string is not empty, and the
base URL and the endpoint alone when it is empty. The final query string is the encoded query
followed by the signature for a signed request, where it is never empty, and the encoded query
otherwise; so a request that is not signed, has no query parameter and no receive window gets
the base URL and the endpoint alone. -/
theorem parseRequest_fullURL (c : Client) (env : Env) (r : request)
    (opts : List RequestOption) (hv : env.validate (applyOptions opts r) = none) :
    ∃ l, parseRequestLocals c env r opts = Except.ok l ∧
      parseRequest c env r opts = Except.ok l.r ∧
      (l.finalQuery ≠ "" →
        l.r.fullURL = c.BaseURL ++ (applyOptions opts r).endpoint ++ "?" ++ l.finalQuery) ∧
      (l.finalQuery = "" → l.r.fullURL = c.BaseURL ++ (applyOptions opts r).endpoint) ∧
      ((applyOptions opts r).secType = secType.secTypeSigned →
        l.finalQuery ≠ "" ∧
        l.finalQuery = (if l.queryString = "" then
            "signature=" ++ hexLower (hmacSHA256 (bytesOf c.secretKey)
              (bytesOf (l.queryString ++ l.bodyString)))
          else l.queryString ++ "&signature=" ++ hexLower (hmacSHA256 (bytesOf c.secretKey)
              (bytesOf (l.queryString ++ l.bodyString))))) ∧
      ((applyOptions opts r).secType ≠ secType.secTypeSigned →
        l.finalQuery = (addStandardParams c env (applyOptions opts r)).query.Encode) ∧
      ((applyOptions opts r).secType ≠ secType.secTypeSigned →
        (∀ k, (applyOptions opts r).query.lookup k = []) →
        ¬ (applyOptions opts r).recvWindow > 0 →
        l.finalQuery = "" ∧ l.r.fullURL = c.BaseURL ++ (applyOptions opts r).endpoint) := by
  obtain ⟨l, hl, hq, hQ, _, hfin, hurl⟩ := parseRequestLocals_url c env r opts hv
  have hunsigned : (applyOptions opts r).secType ≠ secType.secTypeSigned →
      l.finalQuery = (addStandardParams c env (applyOptions opts r)).query.Encode := by
    intro hs
    rw [hfin, if_neg hs, hQ, hq]
  refine ⟨l, hl, ?_, ?_, ?_, ?_, hunsigned, ?_⟩
  · simp [parseRequest, hl, Except.map]
  · intro hne
    rw [hurl, if_pos hne]
  · intro he
    rw [hurl, if_neg (fun h => h he)]
  · intro hs
    rw [if_pos hs] at hfin
    refine ⟨?_, hfin⟩
    rw [hfin]
    by_cases h : l.queryString = ""
    · rw [if_pos h]
      exact append_ne_empty_left _ _ (by decide)
    · rw [if_neg h]
      exact append_ne_empty_left _ _ (append_ne_empty_left _ _ h)
  · intro hs hall hw
    have he : l.finalQuery = "" := by
      rw [hunsigned hs, addStandardParams_query_unsigned c env _ hs, if_neg hw]
      exact Encode_eq_empty _ hall
    refine ⟨he, ?_⟩
    rw [hurl, if_neg (fun h => h he)]

/-- Witness of C11: a request that needs no authentication and has no parameter. -/
theorem parseRequest_fullURL_witness :
    sampleEnv.validate (applyOptions [] publicRequest) = none ∧
    ∃ l, parseRequestLocals sampleClient sampleEnv publicRequest [] = Except.ok l ∧
      parseRequest sampleClient sampleEnv publicRequest [] = Except.ok l.r ∧
      (l.finalQuery ≠ "" →
        l.r.fullURL = sampleClient.BaseURL ++ (applyOptions [] publicRequest).endpoint ++ "?"
          ++ l.finalQuery) ∧
      (l.finalQuery = "" →
        l.r.fullURL = sampleClient.BaseURL ++ (applyOptions [] publicRequest).endpoint) ∧
      ((applyOptions [] publicRequest).secType = secType.secTypeSigned →
        l.finalQuery ≠ "" ∧
        l.finalQuery = (if l.queryString = "" then
            "signature=" ++ hexLower (hmacSHA256 (bytesOf sampleClient.secretKey)
              (bytesOf (l.queryString ++ l.bodyString)))
          else l.queryString ++ "&signature=" ++ hexLower (hmacSHA256
              (bytesOf sampleClient.secretKey) (bytesOf (l.queryString ++ l.bodyString))))) ∧
      ((applyOptions [] publicRequest).secType ≠ secType.secTypeSigned →
        l.finalQuery
          = (addStandardParams sampleClient sampleEnv (applyOptions [] publicRequest)).query.Encode) ∧
      ((applyOptions [] publicRequest).secType ≠ secType.secTypeSigned →
        (∀ k, (applyOptions [] publicRequest).query.lookup k = []) →
        ¬ (applyOptions [] publicRequest).recvWindow > 0 →
        l.finalQuery = "" ∧
        l.r.fullURL = sampleClient.BaseURL ++ (applyOptions [] publicRequest).endpoint) :=
  ⟨rfl, parseRequest_fullURL sampleClient sampleEnv publicRequest [] rfl⟩

/-! ## The deposit history request -/

/-- C16: for every combination of options, the request that `ListDepositsService.Do` builds is
a SIGNED GET request on the deposit history endpoint with an empty form set and no receive
window, and its query parameters are exactly one entry per option that was set, under the keys
`coin`, `status`, `startTime`, `endTime`, `limit` and `offset`, with the single value of the
option rendered as text; an option that was not set has no entry. -/
theorem ListDeposits_request (s : ListDepositsService) :
    s.buildRequest.method = "GET" ∧
    s.buildRequest.endpoint = "/sapi/v1/capital/deposit/hisrec" ∧
    s.buildRequest.secType = secType.secTypeSigned ∧
    s.buildRequest.form = Values.empty ∧
    s.buildRequest.recvWindow = 0 ∧
    s.buildRequest.query.entries =
      [("coin", s.coin), ("status", s.status.map formatInt),
        ("startTime", s.startTime.map formatInt), ("endTime", s.endTime.map formatInt),
        ("limit", s.limit.map formatInt), ("offset", s.offset.map formatInt)].filterMap
        (fun p => p.2.map (fun x => (p.1, [x]))) ∧
    s.buildRequest.query.lookup "coin" = s.coin.toList ∧
    s.buildRequest.query.lookup "status" = (s.status.map formatInt).toList ∧
    s.buildRequest.query.lookup "startTime" = (s.startTime.map formatInt).toList ∧
    s.buildRequest.query.lookup "endTime" = (s.endTime.map formatInt).toList ∧
    s.buildRequest.query.lookup "limit" = (s.limit.map formatInt).toList ∧
    s.buildRequest.query.lookup "offset" = (s.offset.map formatInt).toList ∧
    s.buildRequest.query.keys.Nodup ∧
    (∀ k, k ∈ s.buildRequest.query.keys →
      k ∈ ["coin", "status", "startTime", "endTime", "limit", "offset"]) := by
  obtain ⟨a, b, c, d, e, f⟩ := s
  cases a <;> cases b <;> cases c <;> cases d <;> cases e <;> cases f <;>
    refine ⟨rfl, rfl, rfl, rfl, rfl, rfl, rfl, rfl, rfl, rfl, rfl, rfl, ?_, ?_⟩ <;>
    simp [ListDepositsService.buildRequest, request.setOptional, request.setParam, Values.Set,
      Values.assignEntries, Values.keys, Values.empty]

/-- Witness of C16: the options of `TestListDeposits` give exactly `coin=BTC`, `status=1`,
`startTime=1508198532000` and `endTime=1508198532001`. -/
theorem ListDeposits_request_witness :
    testListDeposits.buildRequest.query.entries =
      [("coin", ["BTC"]), ("status", ["1"]), ("startTime", ["1508198532000"]),
        ("endTime", ["1508198532001"])] ∧
    testListDeposits.buildRequest.form = Values.empty ∧
    testListDeposits.buildRequest.secType = secType.secTypeSigned :=
  ⟨(ListDeposits_request testListDeposits).2.2.2.2.2.1.trans (by decide),
    (ListDeposits_request testListDeposits).2.2.2.1,
    (ListDeposits_request testListDeposits).2.2.1⟩

/-! ## The secret key -/

/-- The request that `parseRequestLocals` leaves is the one after `addStandardParams`, but for
the URL, the header and the body. -/
theorem parseRequestLocals_request (c : Client) (env : Env) (r : request)
    (opts : List RequestOption) (hv : env.validate (applyOptions opts r) = none) :
    ∃ l, parseRequestLocals c env r opts = Except.ok l ∧
      { l.r with fullURL := "", header := Values.empty, body := "" }
        = { addStandardParams c env (applyOptions opts r) with
            fullURL := "", header := Values.empty, body := "" } :=
  ⟨_, by simp only [parseRequestLocals, hv]; rfl, rfl⟩

theorem signature_suffix (pre q sig : String) :
    pre ++ "?" ++ (if q = "" then "signature=" ++ sig else q ++ "&signature=" ++ sig)
      = (pre ++ "?" ++ (if q = "" then "" else q ++ "&")) ++ "signature=" ++ sig := by
  by_cases h : q = ""
  · simp only [h, if_true, String.append_empty, String.append_assoc]
  · simp only [h, if_false, String.append_assoc]
    rfl

/-- C17: the secret key is not transmitted. For two clients that differ in the secret key
only, `parseRequest` returns the same result (URL, headers, body and all) when the security
level is NONE or API-KEY-ONLY, and the same error when the validation fails; for a SIGNED
request that passes validation the two requests have the same headers, body, query and form
sets, and the two URLs are one and the same text up to and including `signature=`, followed by
the hexadecimal signature under the one key and under the other. -/
theorem secretKey_not_transmitted (c : Client) (env : Env) (r : request)
    (opts : List RequestOption) (key2 : String) :
    (((applyOptions opts r).secType = secType.secTypeNone ∨
        (applyOptions opts r).secType = secType.secTypeAPIKey) →
      parseRequest { c with secretKey := key2 } env r opts = parseRequest c env r opts) ∧
    (∀ err, env.validate (applyOptions opts r) = some err →
      parseRequest c env r opts = Except.error err ∧
      parseRequest { c with secretKey := key2 } env r opts = Except.error err) ∧
    ((applyOptions opts r).secType = secType.secTypeSigned →
      env.validate (applyOptions opts r) = none →
      ∃ r1 r2 pre msg, parseRequest c env r opts = Except.ok r1 ∧
        parseRequest { c with secretKey := key2 } env r opts = Except.ok r2 ∧
        r1.header = r2.header ∧ r1.body = r2.body ∧
        { r1 with fullURL := "" } = { r2 with fullURL := "" } ∧
        r1.fullURL = pre ++ "signature="
          ++ hexLower (hmacSHA256 (bytesOf c.secretKey) (bytesOf msg)) ∧
        r2.fullURL = pre ++ "signature="
          ++ hexLower (hmacSHA256 (bytesOf key2) (bytesOf msg))) := by
  refine ⟨?_, ?_, ?_⟩
  · intro hs
    have hs2 : (applyOptions opts r).secType ≠ secType.secTypeSigned := by
      rcases hs with h | h <;> rw [h] <;> decide
    have hs3 : ∀ c0 : Client, (addStandardParams c0 env (applyOptions opts r)).secType
        ≠ secType.secTypeSigned := by
      intro c0
      rw [addStandardParams_secType]
      exact hs2
    have h3 : addStandardParams { c with secretKey := key2 } env (applyOptions opts r)
        = addStandardParams c env (applyOptions opts r) := rfl
    have h1 := hs3 c
    cases hv : env.validate (applyOptions opts r) with
    | some err => simp only [parseRequest, parseRequestLocals, hv]
    | none => simp only [parseRequest, parseRequestLocals, hv, h3, h1, if_false]
  · intro err hv
    unfold parseRequest parseRequestLocals
    simp only [hv]
    exact ⟨rfl, rfl⟩
  · intro hs hv
    obtain ⟨l1, hl1, hq1, hQ1, hF1, hfin1, hurl1⟩ := parseRequestLocals_url c env r opts hv
    obtain ⟨l2, hl2, hq2, hQ2, hF2, hfin2, hurl2⟩ :=
      parseRequestLocals_url { c with secretKey := key2 } env r opts hv
    obtain ⟨l1b, hl1b, _, hf1, hsec1, _, _, hbody1, hh1⟩ := parseRequestLocals_ok c env r opts hv
    obtain ⟨l2b, hl2b, _, hf2, hsec2, _, _, hbody2, hh2⟩ :=
      parseRequestLocals_ok { c with secretKey := key2 } env r opts hv
    have e1 : l1b = l1 := Except.ok.inj (hl1b.symm.trans hl1)
    have e2 : l2b = l2 := Except.ok.inj (hl2b.symm.trans hl2)
    subst e1 e2
    obtain ⟨l1c, hl1c, hr1⟩ := parseRequestLocals_request c env r opts hv
    obtain ⟨l2c, hl2c, hr2⟩ :=
      parseRequestLocals_request { c with secretKey := key2 } env r opts hv
    have e3 : l1c = l1b := Except.ok.inj (hl1c.symm.trans hl1)
    have e4 : l2c = l2b := Except.ok.inj (hl2c.symm.trans hl2)
    subst e3 e4
    have hQ : l2c.queryString = l1c.queryString := by
      rw [hQ1, hQ2, hq1, hq2]; rfl
    have hB : l2c.bodyString = l1c.bodyString := by
      rw [hF1, hF2]
    have hne1 : l1c.finalQuery ≠ "" := by
      rw [hfin1, if_pos hs]
      by_cases h : l1c.queryString = ""
      · rw [if_pos h]; exact append_ne_empty_left _ _ (by decide)
      · rw [if_neg h]; exact append_ne_empty_left _ _ (append_ne_empty_left _ _ h)
    have hne2 : l2c.finalQuery ≠ "" := by
      rw [hfin2, if_pos hs]
      by_cases h : l2c.queryString = ""
      · rw [if_pos h]; exact append_ne_empty_left _ _ (by decide)
      · rw [if_neg h]; exact append_ne_empty_left _ _ (append_ne_empty_left _ _ h)
    have hheader : l1c.r.header = l2c.r.header := by
      rw [hh1, hh2, hsec1, hsec2, hB]
    have hbody : l1c.r.body = l2c.r.body := by
      rw [hbody1, hbody2, hB]
    refine ⟨l1c.r, l2c.r,
      c.BaseURL ++ (applyOptions opts r).endpoint ++ "?"
        ++ (if l1c.queryString = "" then "" else l1c.queryString ++ "&"),
      l1c.queryString ++ l1c.bodyString, ?_, ?_, hheader, hbody, ?_, ?_, ?_⟩
    · simp [parseRequest, hl1, Except.map]
    · simp [parseRequest, hl2, Except.map]
    · have h12 : ({ l1c.r with fullURL := "", header := Values.empty, body := "" } : request)
          = { l2c.r with fullURL := "", header := Values.empty, body := "" } := by
        rw [hr1, hr2]; rfl
      cases hx : l1c.r
      cases hy : l2c.r
      rw [hx, hy] at h12 hheader hbody
      simp only [request.mk.injEq] at h12 ⊢
      simp only at hheader hbody
      exact ⟨h12.1, h12.2.1, h12.2.2.1, h12.2.2.2.1, h12.2.2.2.2.1, h12.2.2.2.2.2.1,
        hheader, hbody, trivial⟩
    · rw [hurl1, if_pos hne1, hfin1, if_pos hs, signature_suffix]
    · rw [hurl2, if_pos hne2, hfin2, if_pos hs, hQ, hB, signature_suffix]

/-- Witness of C17: the sample client and the same client under the secret key `other`, on a
request that needs no authentication and on the signed request of the liquidity information
service. -/
theorem secretKey_not_transmitted_witness :
    (applyOptions [] publicRequest).secType = secType.secTypeNone ∧
    parseRequest { sampleClient with secretKey := "other" } sampleEnv publicRequest []
      = parseRequest sampleClient sampleEnv publicRequest [] ∧
    (applyOptions [] poolRequest).secType = secType.secTypeSigned ∧
    sampleEnv.validate (applyOptions [] poolRequest) = none ∧
    ∃ r1 r2 pre msg, parseRequest sampleClient sampleEnv poolRequest [] = Except.ok r1 ∧
      parseRequest { sampleClient with secretKey := "other" } sampleEnv poolRequest []
        = Except.ok r2 ∧
      r1.header = r2.header ∧ r1.body = r2.body ∧
      { r1 with fullURL := "" } = { r2 with fullURL := "" } ∧
      r1.fullURL = pre ++ "signature="
        ++ hexLower (hmacSHA256 (bytesOf sampleClient.secretKey) (bytesOf msg)) ∧
      r2.fullURL = pre ++ "signature="
        ++ hexLower (hmacSHA256 (bytesOf "other") (bytesOf msg)) :=
  ⟨rfl,
    (secretKey_not_transmitted sampleClient sampleEnv publicRequest [] "other").1 (Or.inl rfl),
    rfl, rfl,
    (secretKey_not_transmitted sampleClient sampleEnv poolRequest [] "other").2.2 rfl rfl⟩

/-! ## The mandatory fields of a transfer -/

/-- `SubAccountTransfer` is the checks and the request of `buildTransferRequest`, followed by
`callAPI` and the decoding of `decodeTransfer`. -/
theorem SubAccountTransfer_eq (c : Client) (env : Env) (req : SubAccountTransferRequest)
    (opts : List RequestOption) :
    SubAccountTransfer c env req opts =
      (match buildTransferRequest env req with
      | Except.error e => { res := none, err := some e, sent := [] }
      | Except.ok r => decodeTransfer (callAPI c env r opts)) := by
  unfold SubAccountTransfer buildTransferRequest decodeTransfer
  by_cases h1 : req.FromID = "" ∧ req.ToID = ""
  · simp only [h1, and_self, if_true]
  · by_cases h2 : req.Asset = ""
    · simp only [h1, h2, if_true, if_false]
    · by_cases h3 : req.Amount > 0
      · simp only [h1, h2, h3, if_true, if_false]
      · simp only [h1, h2, h3, if_true, if_false]

/-- The request that `buildTransferRequest` returns when no mandatory field is missing. -/
theorem buildTransferRequest_ok (env : Env) (req : SubAccountTransferRequest)
    (hids : ¬ (req.FromID = "" ∧ req.ToID = "")) (hasset : req.Asset ≠ "")
    (hamount : req.Amount > 0) :
    ∃ r, buildTransferRequest env req = Except.ok r ∧
      r.method = "POST" ∧ r.endpoint = "/sapi/v1/broker/transfer" ∧
      r.secType = secType.secTypeSigned ∧ r.form = Values.empty ∧
      r.query.entries =
        [("fromId", optionalText req.FromID), ("toId", optionalText req.ToID),
          ("asset", some req.Asset), ("clientTranId", optionalText req.ClientTransferID),
          ("amount", some (env.formatFloat req.Amount))].filterMap
          (fun p => p.2.map (fun x => (p.1, [x]))) := by
  unfold buildTransferRequest
  simp only [hids, hasset, hamount, if_true, if_false]
  refine ⟨_, rfl, ?_⟩
  by_cases hf : req.FromID = "" <;> by_cases ht : req.ToID = "" <;>
    by_cases hc : req.ClientTransferID = "" <;>
    simp_all [optionalText, request.setParam, Values.Set, Values.assignEntries, Values.empty]

/-- C18: `Client.SubAccountTransfer` returns before `callAPI` exactly when `FromID` and `ToID`
are both empty, or `Asset` is empty, or `Amount` is not greater than 0. It then returns a `nil`
result and the mandatory-field error of the first failing condition, in the order
`fromID or toID`, `asset`, `amount`, and nothing is handed to the transport. Otherwise, also
when both identifiers are set, it goes on to `callAPI` with a signed POST request whose query
parameters are `fromId` and `toId` for exactly the identifiers that are not empty, `asset`,
`clientTranId` only when `ClientTransferID` is not empty, and `amount`, and returns what
`callAPI` and the decoding of its payload give. -/
theorem SubAccountTransfer_mandatory_fields (c : Client) (env : Env)
    (req : SubAccountTransferRequest) (opts : List RequestOption) :
    ((∃ e, buildTransferRequest env req = Except.error e) ↔
      ((req.FromID = "" ∧ req.ToID = "") ∨ req.Asset = "" ∨ ¬ req.Amount > 0)) ∧
    ((req.FromID = "" ∧ req.ToID = "") →
      buildTransferRequest env req
        = Except.error (CreateErrorMandatoryField "fromID or toID")) ∧
    (¬ (req.FromID = "" ∧ req.ToID = "") → req.Asset = "" →
      buildTransferRequest env req = Except.error (CreateErrorMandatoryField "asset")) ∧
    (¬ (req.FromID = "" ∧ req.ToID = "") → req.Asset ≠ "" → ¬ req.Amount > 0 →
      buildTransferRequest env req = Except.error (CreateErrorMandatoryField "amount")) ∧
    (∀ e, buildTransferRequest env req = Except.error e →
      (SubAccountTransfer c env req opts).res = none ∧
      (SubAccountTransfer c env req opts).err = some e ∧
      (SubAccountTransfer c env req opts).sent = []) ∧
    (¬ (req.FromID = "" ∧ req.ToID = "") → req.Asset ≠ "" → req.Amount > 0 →
      ∃ r, buildTransferRequest env req = Except.ok r ∧
        SubAccountTransfer c env req opts = decodeTransfer (callAPI c env r opts) ∧
        r.method = "POST" ∧ r.endpoint = "/sapi/v1/broker/transfer" ∧
        r.secType = secType.secTypeSigned ∧ r.form = Values.empty ∧
        r.query.entries =
          [("fromId", optionalText req.FromID), ("toId", optionalText req.ToID),
            ("asset", some req.Asset), ("clientTranId", optionalText req.ClientTransferID),
            ("amount", some (env.formatFloat req.Amount))].filterMap
            (fun p => p.2.map (fun x => (p.1, [x])))) := by
  have ha : (req.FromID = "" ∧ req.ToID = "") →
      buildTransferRequest env req
        = Except.error (CreateErrorMandatoryField "fromID or toID") := by
    intro h
    unfold buildTransferRequest
    simp only [h, and_self, if_true]
  have hb : ¬ (req.FromID = "" ∧ req.ToID = "") → req.Asset = "" →
      buildTransferRequest env req = Except.error (CreateErrorMandatoryField "asset") := by
    intro h1 h2
    unfold buildTransferRequest
    simp only [h1, h2, if_true, if_false]
  have hc : ¬ (req.FromID = "" ∧ req.ToID = "") → req.Asset ≠ "" → ¬ req.Amount > 0 →
      buildTransferRequest env req = Except.error (CreateErrorMandatoryField "amount") := by
    intro h1 h2 h3
    unfold buildTransferRequest
    simp only [h1, h2, h3, if_false]
  refine ⟨?_, ha, hb, hc, ?_, ?_⟩
  · constructor
    · rintro ⟨e, he⟩
      by_contra hcon
      push_neg at hcon
      obtain ⟨r, hr, _⟩ := buildTransferRequest_ok env req
        (fun h => hcon.1 h.1 h.2) hcon.2.1 hcon.2.2
      rw [hr] at he
      exact Except.noConfusion he
    · intro h
      by_cases h1 : req.FromID = "" ∧ req.ToID = ""
      · exact ⟨_, ha h1⟩
      · by_cases h2 : req.Asset = ""
        · exact ⟨_, hb h1 h2⟩
        · rcases h with h | h | h
          · exact absurd h h1
          · exact absurd h h2
          · exact ⟨_, hc h1 h2 h⟩
  · intro e he
    rw [SubAccountTransfer_eq, he]
    exact ⟨rfl, rfl, rfl⟩
  · intro h1 h2 h3
    obtain ⟨r, hr, hrest⟩ := buildTransferRequest_ok env req h1 h2 h3
    refine ⟨r, hr, ?_, hrest⟩
    rw [SubAccountTransfer_eq, hr]

/-- Witness of C18: a transfer between two sub-accounts that names no asset stops at the check
of `asset`, and one without identifiers at the check of `fromID or toID`. -/
theorem SubAccountTransfer_mandatory_fields_witness :
    buildTransferRequest sampleEnv { FromID := "1", ToID := "2", Amount := 1.5 }
      = Except.error (GoError.text "asset: field is MANDATORY") ∧
    (SubAccountTransfer (answeringClient 200 "\x7b\x7d") sampleEnv
      { FromID := "1", ToID := "2", Amount := 1.5 } []).sent = [] ∧
    buildTransferRequest sampleEnv { Asset := "BTC", Amount := 1.5 }
      = Except.error (GoError.text "fromID or toID: field is MANDATORY") :=
  ⟨(SubAccountTransfer_mandatory_fields (answeringClient 200 "\x7b\x7d") sampleEnv
      { FromID := "1", ToID := "2", Amount := 1.5 } []).2.2.1 (by decide) rfl,
    ((SubAccountTransfer_mandatory_fields (answeringClient 200 "\x7b\x7d") sampleEnv
      { FromID := "1", ToID := "2", Amount := 1.5 } []).2.2.2.2.1 _
        ((SubAccountTransfer_mandatory_fields (answeringClient 200 "\x7b\x7d") sampleEnv
          { FromID := "1", ToID := "2", Amount := 1.5 } []).2.2.1 (by decide) rfl)).2.2,
    (SubAccountTransfer_mandatory_fields (answeringClient 200 "\x7b\x7d") sampleEnv
      { Asset := "BTC", Amount := 1.5 } []).2.1 ⟨rfl, rfl⟩⟩

/-! ## The deposit history response -/

/-- When the transport answers the request of `ListDepositsService.Do` with a status code below
400 and a body that is a JSON array, whatever its elements, `Do` returns no deposits and the
type error of `json.Unmarshal`: the destination `DepositHistoryResponse` is a struct. -/
theorem ListDeposits_array_is_error (c : Client) (env : Env)
    (parseFloat : String → Option Float) (s : ListDepositsService) (res : HttpResponse)
    (data : String) (items : List Json) (hr : Responds c env s.buildRequest [] res)
    (hs : res.StatusCode < 400) (hb : res.body = Except.ok data) (hc : res.close = none)
    (hj : Json.parse data = some (Json.arr items)) :
    (ListDepositsService.Do c env parseFloat s).res = none ∧
    (ListDepositsService.Do c env parseFloat s).err = some jsonTypeError := by
  obtain ⟨h1, h2, _⟩ := callAPI_of_responds c env s.buildRequest [] res data hr hb
  have hs2 : ¬ res.StatusCode ≥ 400 := by omega
  rw [if_neg hs2] at h1 h2
  rw [hc] at h2
  unfold ListDepositsService.Do
  simp [h1, h2, unmarshalDepositHistoryResponse, hj]

set_option maxRecDepth 1000000 in
/-- C15 fails on the code: on the status 200 with the body of `TestListDeposits`, a JSON array
of two deposit objects, `ListDepositsService.Do` sends the request and returns no deposits and
the type error of `json.Unmarshal`, where the test expects two deposits and no error. -/
theorem ListDeposits_test_body_is_error :
    (∃ a b, Json.parse depositsBody = some (Json.arr [Json.obj a, Json.obj b])) ∧
    (ListDepositsService.Do (answeringClient 200 depositsBody) sampleEnv sampleParseFloat
      testListDeposits).res = none ∧
    (ListDepositsService.Do (answeringClient 200 depositsBody) sampleEnv sampleParseFloat
      testListDeposits).err = some jsonTypeError ∧
    (ListDepositsService.Do (answeringClient 200 depositsBody) sampleEnv sampleParseFloat
      testListDeposits).sent.length = 1 :=
  ⟨⟨_, _, rfl⟩, rfl, by decide, by decide⟩

/-! ## The canonical shape of an encoding -/

theorem encodedPair_ne_empty (p : String × String) : encodedPair p ≠ "" := by
  unfold encodedPair
  exact append_ne_empty_left _ _ (append_ne_empty_right _ _ (by decide))

theorem joinPairs_cons_ne_empty (p : String × String) (ps : List (String × String)) :
    joinPairs (p :: ps) ≠ "" := by
  cases ps with
  | nil => exact encodedPair_ne_empty p
  | cons q rest =>
    exact append_ne_empty_left _ _ (append_ne_empty_left _ _ (encodedPair_ne_empty p))

/-- The buffer of `Encode` after writing a list of parameters. -/
theorem foldl_encodePair_join :
    ∀ (ps : List (String × String)) (buf : String),
      ps.foldl (fun b p => Values.encodePair (QueryEscape p.1) b p.2) buf
        = if ps = [] then buf
          else (if buf = "" then "" else buf ++ "&") ++ joinPairs ps := by
  intro ps
  induction ps with
  | nil => intro buf; rfl
  | cons p rest ih =>
    intro buf
    rw [List.foldl_cons, ih]
    have hne : Values.encodePair (QueryEscape p.1) buf p.2 ≠ "" := encodePair_ne_empty _ _ _
    have hstep : Values.encodePair (QueryEscape p.1) buf p.2
        = (if buf = "" then "" else buf ++ "&") ++ encodedPair p := by
      unfold Values.encodePair encodedPair
      by_cases hb : buf = ""
      · simp only [hb, if_true, String.append_assoc]
      · simp only [hb, if_false, String.append_assoc]
    cases rest with
    | nil =>
      simp only [if_true, if_false, reduceCtorEq, joinPairs]
      exact hstep
    | cons q rest2 =>
      simp only [if_false, reduceCtorEq, hne, joinPairs]
      rw [hstep]
      simp only [String.append_assoc]

theorem foldl_values_eq_pairs (v : Values) :
    ∀ (ks : List String) (buf : String),
      ks.foldl (fun buf k => (v.lookup k).foldl (Values.encodePair (QueryEscape k)) buf) buf
        = (ks.flatMap (fun k => (v.lookup k).map (fun x => (k, x)))).foldl
            (fun b p => Values.encodePair (QueryEscape p.1) b p.2) buf := by
  intro ks
  induction ks with
  | nil => intro buf; rfl
  | cons k ks ih =>
    intro buf
    rw [List.foldl_cons, ih, List.flatMap_cons, List.foldl_append, List.foldl_map]

/-- The encoding of a map is its parameters, in the order of `Values.pairs`, each written as
`QueryEscape(key)=QueryEscape(value)`, separated by `&`. -/
theorem Encode_eq_joinPairs (v : Values) : v.Encode = joinPairs v.pairs := by
  unfold Values.Encode Values.pairs
  rw [foldl_values_eq_pairs, foldl_encodePair_join]
  split
  · rename_i h; rw [h]; rfl
  · simp

/-! ## The order of the keys -/

theorem lexLe_total : ∀ (a b : List Nat), lexLe a b = true ∨ lexLe b a = true := by
  intro a
  induction a with
  | nil => intro b; left; cases b <;> rfl
  | cons x xs ih =>
    intro b
    cases b with
    | nil => right; rfl
    | cons y ys =>
      simp only [lexLe, Bool.or_eq_true, decide_eq_true_eq, Bool.and_eq_true, beq_iff_eq]
      rcases Nat.lt_trichotomy x y with h | h | h
      · left; left; exact h
      · rcases ih ys with h2 | h2
        · left; right; exact ⟨h, h2⟩
        · right; right; exact ⟨h.symm, h2⟩
      · right; left; exact h

theorem lexLe_trans : ∀ (a b c : List Nat), lexLe a b = true → lexLe b c = true →
    lexLe a c = true := by
  intro a
  induction a with
  | nil => intro b c _ _; cases c <;> rfl
  | cons x xs ih =>
    intro b c hab hbc
    cases b with
    | nil => simp [lexLe] at hab
    | cons y ys =>
      cases c with
      | nil => simp [lexLe] at hbc
      | cons z zs =>
        simp only [lexLe, Bool.or_eq_true, decide_eq_true_eq, Bool.and_eq_true,
          beq_iff_eq] at hab hbc ⊢
        rcases hab with h1 | ⟨h1, h1b⟩
        · rcases hbc with h2 | ⟨h2, _⟩
          · left; omega
          · left; omega
        · rcases hbc with h2 | ⟨h2, h2b⟩
          · left; omega
          · right; exact ⟨h1.trans h2, ih ys zs h1b h2b⟩

theorem lexLe_antisymm : ∀ (a b : List Nat), lexLe a b = true → lexLe b a = true → a = b := by
  intro a
  induction a with
  | nil => intro b _ hba; cases b with
    | nil => rfl
    | cons y ys => simp [lexLe] at hba
  | cons x xs ih =>
    intro b hab hba
    cases b with
    | nil => simp [lexLe] at hab
    | cons y ys =>
      simp only [lexLe, Bool.or_eq_true, decide_eq_true_eq, Bool.and_eq_true,
        beq_iff_eq] at hab hba
      rcases hab with h1 | ⟨h1, h1b⟩
      · rcases hba with h2 | ⟨h2, _⟩ <;> omega
      · rcases hba with h2 | ⟨_, h2b⟩
        · omega
        · rw [h1, ih ys h1b h2b]

theorem codes_injective (a b : String)
    (h : a.data.map Char.toNat = b.data.map Char.toNat) : a = b := by
  apply String.ext
  have h2 := congrArg (List.map Char.ofNat) h
  simpa [List.map_map, Function.comp_def] using h2

theorem strLe_total (a b : String) : strLe a b = true ∨ strLe b a = true :=
  lexLe_total _ _

theorem strLe_trans (a b c : String) (h1 : strLe a b = true) (h2 : strLe b c = true) :
    strLe a c = true :=
  lexLe_trans _ _ _ h1 h2

theorem strLe_antisymm (a b : String) (h1 : strLe a b = true) (h2 : strLe b a = true) :
    a = b :=
  codes_injective a b (lexLe_antisymm _ _ h1 h2)

/-- The keys come out of `sortStrings` in ascending order. -/
theorem sortStrings_sorted (ks : List String) :
    List.Sorted (fun a b => strLe a b = true) (sortStrings ks) := by
  haveI : IsTotal String (fun a b => strLe a b = true) := ⟨strLe_total⟩
  haveI : IsTrans String (fun a b => strLe a b = true) := ⟨strLe_trans⟩
  exact List.sorted_insertionSort _ ks

theorem sortStrings_perm (ks : List String) : (sortStrings ks).Perm ks :=
  List.perm_insertionSort _ ks

/-- Two lists of keys with the same keys, none repeated, are sorted to the same list. -/
theorem sortStrings_eq_of_same_keys (ks1 ks2 : List String) (h1 : ks1.Nodup) (h2 : ks2.Nodup)
    (hmem : ∀ k, k ∈ ks1 ↔ k ∈ ks2) : sortStrings ks1 = sortStrings ks2 := by
  haveI : IsAntisymm String (fun a b => strLe a b = true) := ⟨strLe_antisymm⟩
  have hp : ks1.Perm ks2 := (List.perm_ext_iff_of_nodup h1 h2).2 hmem
  exact List.eq_of_perm_of_sorted
    ((sortStrings_perm ks1).trans (hp.trans (sortStrings_perm ks2).symm))
    (sortStrings_sorted ks1) (sortStrings_sorted ks2)

/-- Two maps with the same keys, none repeated in the entries, and the same values under every
key have the same encoding. -/
theorem Encode_eq_of_same_map (v1 v2 : Values) (h1 : v1.keys.Nodup) (h2 : v2.keys.Nodup)
    (hmem : ∀ k, k ∈ v1.keys ↔ k ∈ v2.keys) (hlook : ∀ k, v1.lookup k = v2.lookup k) :
    v1.pairs = v2.pairs ∧ v1.Encode = v2.Encode := by
  have hp : v1.pairs = v2.pairs := by
    unfold Values.pairs
    rw [sortStrings_eq_of_same_keys _ _ h1 h2 hmem]
    congr 1
    funext k
    rw [hlook k]
  exact ⟨hp, by rw [Encode_eq_joinPairs, Encode_eq_joinPairs, hp]⟩

/-! ## Maps built by `set` and `add` -/

theorem keys_assignEntries (k : String) (vs : List String) (es : List (String × List String)) :
    (Values.assignEntries k vs es).map Prod.fst
      = if k ∈ es.map Prod.fst then es.map Prod.fst else es.map Prod.fst ++ [k] := by
  induction es with
  | nil => simp [Values.assignEntries]
  | cons e es ih =>
    obtain ⟨k1, v1⟩ := e
    by_cases h : k1 = k
    · subst h
      simp [Values.assignEntries]
    · have h2 : ¬ k = k1 := fun h3 => h h3.symm
      simp only [Values.assignEntries, h, if_false, List.map_cons, ih, List.mem_cons, h2,
        false_or]
      split <;> simp

theorem mem_keys_assignEntries (k k2 : String) (vs : List String)
    (es : List (String × List String)) :
    k2 ∈ (Values.assignEntries k vs es).map Prod.fst ↔ (k2 = k ∨ k2 ∈ es.map Prod.fst) := by
  rw [keys_assignEntries]
  by_cases h : k ∈ es.map Prod.fst
  · rw [if_pos h]
    constructor
    · intro h2; exact Or.inr h2
    · rintro (h2 | h2)
      · rw [h2]; exact h
      · exact h2
  · rw [if_neg h]
    simp only [List.mem_append, List.mem_singleton]
    tauto

theorem nodup_keys_assignEntries (k : String) (vs : List String)
    (es : List (String × List String)) (h : (es.map Prod.fst).Nodup) :
    ((Values.assignEntries k vs es).map Prod.fst).Nodup := by
  rw [keys_assignEntries]
  by_cases hk : k ∈ es.map Prod.fst
  · rw [if_pos hk]; exact h
  · rw [if_neg hk]
    exact List.Nodup.append h (List.nodup_singleton k) (by
      intro a ha hb
      rw [List.mem_singleton] at hb
      exact hk (hb ▸ ha))

theorem mem_keys_Set (v : Values) (k x k2 : String) :
    k2 ∈ (v.Set k x).keys ↔ (k2 = k ∨ k2 ∈ v.keys) :=
  mem_keys_assignEntries _ _ _ _

theorem nodup_keys_Set (v : Values) (k x : String) (h : v.keys.Nodup) :
    (v.Set k x).keys.Nodup :=
  nodup_keys_assignEntries _ _ _ h

theorem mem_keys_Add (v : Values) (k x k2 : String) :
    k2 ∈ (v.Add k x).keys ↔ (k2 = k ∨ k2 ∈ v.keys) :=
  mem_keys_assignEntries _ _ _ _

theorem nodup_keys_Add (v : Values) (k x : String) (h : v.keys.Nodup) :
    (v.Add k x).keys.Nodup :=
  nodup_keys_assignEntries _ _ _ h

theorem lookup_Add_same (v : Values) (k x : String) :
    (v.Add k x).lookup k = v.lookup k ++ [x] := by
  simp [Values.Add, Values.lookup, lookupEntries_assign_same]

theorem lookup_Add_other (v : Values) (k k2 x : String) (hk : k ≠ k2) :
    (v.Add k x).lookup k2 = v.lookup k2 := by
  simp [Values.Add, Values.lookup, lookupEntries_assign_other _ _ _ _ hk]

theorem SameMap_refl (v : Values) (h : v.keys.Nodup) : Values.SameMap v v :=
  ⟨h, h, fun _ => Iff.rfl, fun _ => rfl⟩

theorem SameMap_Set (v1 v2 : Values) (k x : String) (h : Values.SameMap v1 v2) :
    Values.SameMap (v1.Set k x) (v2.Set k x) := by
  obtain ⟨h1, h2, hm, hl⟩ := h
  refine ⟨nodup_keys_Set _ _ _ h1, nodup_keys_Set _ _ _ h2, ?_, ?_⟩
  · intro k2
    rw [mem_keys_Set, mem_keys_Set, hm k2]
  · intro k2
    by_cases hk : k = k2
    · subst hk
      rw [lookup_Set_same, lookup_Set_same]
    · rw [lookup_Set_other _ _ _ _ hk, lookup_Set_other _ _ _ _ hk, hl k2]

theorem SameMap_Encode (v1 v2 : Values) (h : Values.SameMap v1 v2) : v1.Encode = v2.Encode :=
  (Encode_eq_of_same_map v1 v2 h.1 h.2.1 h.2.2.1 h.2.2.2).2

theorem mem_keys_setAll (ps : List (String × String)) :
    ∀ (v : Values) (k : String),
      k ∈ (v.setAll ps).keys ↔ (k ∈ v.keys ∨ k ∈ ps.map Prod.fst) := by
  induction ps with
  | nil => intro v k; simp [Values.setAll]
  | cons p rest ih =>
    intro v k
    have := ih (v.Set p.1 p.2) k
    simp only [Values.setAll, List.foldl_cons] at this ⊢
    rw [this, mem_keys_Set]
    simp only [List.map_cons, List.mem_cons]
    tauto

theorem nodup_keys_setAll (ps : List (String × String)) :
    ∀ (v : Values), v.keys.Nodup → (v.setAll ps).keys.Nodup := by
  induction ps with
  | nil => intro v h; exact h
  | cons p rest ih =>
    intro v h
    exact ih (v.Set p.1 p.2) (nodup_keys_Set _ _ _ h)

theorem lookup_setAll_not_mem (ps : List (String × String)) :
    ∀ (v : Values) (k : String), k ∉ ps.map Prod.fst → (v.setAll ps).lookup k = v.lookup k := by
  induction ps with
  | nil => intro v k _; rfl
  | cons p rest ih =>
    intro v k hk
    simp only [List.map_cons, List.mem_cons, not_or] at hk
    have := ih (v.Set p.1 p.2) k hk.2
    simp only [Values.setAll, List.foldl_cons] at this ⊢
    rw [this, lookup_Set_other _ _ _ _ (fun h => hk.1 h.symm)]

theorem lookup_setAll_mem (ps : List (String × String)) :
    ∀ (v : Values) (k x : String), (ps.map Prod.fst).Nodup → (k, x) ∈ ps →
      (v.setAll ps).lookup k = [x] := by
  induction ps with
  | nil => intro v k x _ h; exact absurd h (List.not_mem_nil _)
  | cons p rest ih =>
    intro v k x hnd hmem
    simp only [List.map_cons, List.nodup_cons] at hnd
    rcases List.mem_cons.1 hmem with h | h
    · subst h
      have := lookup_setAll_not_mem rest (v.Set k x) k hnd.1
      simp only [Values.setAll, List.foldl_cons] at this ⊢
      rw [this, lookup_Set_same]
    · have := ih (v.Set p.1 p.2) k x hnd.2 h
      simp only [Values.setAll, List.foldl_cons] at this ⊢
      exact this

/-- The same parameters with pairwise distinct keys, applied by `set` in two orders to the same
map, give the same map. -/
theorem SameMap_setAll_perm (v : Values) (hv : v.keys.Nodup) (ps qs : List (String × String))
    (hp : ps.Perm qs) (hnd : (ps.map Prod.fst).Nodup) :
    Values.SameMap (v.setAll ps) (v.setAll qs) := by
  have hnd2 : (qs.map Prod.fst).Nodup := (hp.map Prod.fst).nodup_iff.1 hnd
  refine ⟨nodup_keys_setAll ps v hv, nodup_keys_setAll qs v hv, ?_, ?_⟩
  · intro k
    rw [mem_keys_setAll, mem_keys_setAll, (hp.map Prod.fst).mem_iff]
  · intro k
    by_cases hk : k ∈ ps.map Prod.fst
    · obtain ⟨p, hp1, hp2⟩ := List.mem_map.1 hk
      obtain ⟨k1, x⟩ := p
      simp only at hp2
      subst hp2
      rw [lookup_setAll_mem ps v k1 x hnd hp1,
        lookup_setAll_mem qs v k1 x hnd2 (hp.mem_iff.1 hp1)]
    · have hk2 : k ∉ qs.map Prod.fst := fun h => hk ((hp.map Prod.fst).mem_iff.2 h)
      rw [lookup_setAll_not_mem ps v k hk, lookup_setAll_not_mem qs v k hk2]

theorem strLe_refl (a : String) : strLe a a = true := by
  rcases strLe_total a a with h | h <;> exact h

theorem mem_pairs (v : Values) (k x : String) :
    (k, x) ∈ v.pairs ↔ (k ∈ v.keys ∧ x ∈ v.lookup k) := by
  unfold Values.pairs
  simp only [List.mem_flatMap, List.mem_map, Prod.mk.injEq, mem_sortStrings]
  constructor
  · rintro ⟨k2, hk2, x2, hx2, h1, h2⟩
    subst h1 h2
    exact ⟨hk2, hx2⟩
  · rintro ⟨hk, hx⟩
    exact ⟨k, hk, x, hx, rfl, rfl⟩

/-- The parameters of an encoding are in ascending order of their keys. -/
theorem pairs_sorted (v : Values) :
    List.Pairwise (fun p q => strLe p.1 q.1 = true) v.pairs := by
  unfold Values.pairs
  rw [List.pairwise_flatMap]
  constructor
  · intro k _
    rw [List.pairwise_map]
    exact List.Pairwise.imp_of_mem (fun _ _ _ => strLe_refl k)
      (List.pairwise_of_forall (R := fun _ _ => True) (fun _ _ => trivial))
  · refine (sortStrings_sorted v.keys).imp ?_
    intro a b hab p hp q hq
    obtain ⟨_, _, h1⟩ := List.mem_map.1 hp
    obtain ⟨_, _, h2⟩ := List.mem_map.1 hq
    rw [← h1, ← h2]
    exact hab

/-- The keys of the parameters of an encoding, when no key is repeated in the entries of the
map and every key has one value, are the sorted keys: none is repeated. -/
theorem pairs_nodup_of_single (v : Values) (hnd : v.keys.Nodup)
    (hone : ∀ k ∈ v.keys, ∃ x, v.lookup k = [x]) : v.pairs.Nodup := by
  have hk : v.pairs.map Prod.fst = sortStrings v.keys := by
    unfold Values.pairs
    have : ∀ ks : List String, (∀ k ∈ ks, ∃ x, v.lookup k = [x]) →
        (ks.flatMap (fun k => (v.lookup k).map (fun x => (k, x)))).map Prod.fst = ks := by
      intro ks
      induction ks with
      | nil => intro _; rfl
      | cons k ks ih =>
        intro h
        obtain ⟨x, hx⟩ := h k (List.mem_cons_self _ _)
        rw [List.flatMap_cons, List.map_append, ih (fun k2 h2 => h k2 (List.mem_cons_of_mem _ h2)),
          hx]
        rfl
    exact this _ (fun k hk => hone k ((mem_sortStrings _ _).1 hk))
  have hnd2 : (sortStrings v.keys).Nodup := (sortStrings_perm v.keys).nodup_iff.2 hnd
  rw [← hk] at hnd2
  exact List.Nodup.of_map _ hnd2

theorem setParamsInOrder_eq (ps : List (String × String)) :
    ∀ r : request, r.setParamsInOrder ps = { r with query := r.query.setAll ps } := by
  induction ps with
  | nil => intro r; rfl
  | cons p rest ih =>
    intro r
    have := ih (r.setParam p.1 p.2)
    simp only [request.setParamsInOrder, List.foldl_cons] at this ⊢
    rw [this]
    rfl

theorem setFormParamsInOrder_eq (ps : List (String × String)) :
    ∀ r : request, r.setFormParamsInOrder ps = { r with form := r.form.setAll ps } := by
  induction ps with
  | nil => intro r; rfl
  | cons p rest ih =>
    intro r
    have := ih (r.setFormParam p.1 p.2)
    simp only [request.setFormParamsInOrder, List.foldl_cons] at this ⊢
    rw [this]
    rfl

/-- The parameters that `set` applied to the empty map are the parameters of its encoding. -/
theorem pairs_setAll_perm (ps : List (String × String)) (hnd : (ps.map Prod.fst).Nodup) :
    (Values.empty.setAll ps).pairs.Perm ps := by
  have hkeys : (Values.empty.setAll ps).keys.Nodup :=
    nodup_keys_setAll ps Values.empty List.nodup_nil
  have hmemk : ∀ k, k ∈ (Values.empty.setAll ps).keys ↔ k ∈ ps.map Prod.fst := by
    intro k
    rw [mem_keys_setAll]
    simp [Values.keys, Values.empty]
  have hone : ∀ k ∈ (Values.empty.setAll ps).keys,
      ∃ x, (Values.empty.setAll ps).lookup k = [x] := by
    intro k hk
    obtain ⟨p, hp1, hp2⟩ := List.mem_map.1 ((hmemk k).1 hk)
    obtain ⟨k1, x⟩ := p
    simp only at hp2
    subst hp2
    exact ⟨x, lookup_setAll_mem ps _ k1 x hnd hp1⟩
  refine (List.perm_ext_iff_of_nodup (pairs_nodup_of_single _ hkeys hone)
    (List.Nodup.of_map _ hnd)).2 ?_
  rintro ⟨k, x⟩
  rw [mem_pairs]
  constructor
  · rintro ⟨hk, hx⟩
    obtain ⟨p, hp1, hp2⟩ := List.mem_map.1 ((hmemk k).1 hk)
    obtain ⟨k1, x1⟩ := p
    simp only at hp2
    subst hp2
    rw [lookup_setAll_mem ps _ k1 x1 hnd hp1, List.mem_singleton] at hx
    rw [hx]
    exact hp1
  · intro hp1
    refine ⟨(hmemk k).2 (List.mem_map.2 ⟨(k, x), hp1, rfl⟩), ?_⟩
    rw [lookup_setAll_mem ps _ k x hnd hp1]
    exact List.mem_singleton.2 rfl

theorem SameMap_addStandardParams (c : Client) (env : Env) (r1 r2 : request)
    (hw : r1.recvWindow = r2.recvWindow) (hs : r1.secType = r2.secType)
    (h : Values.SameMap r1.query r2.query) :
    Values.SameMap (addStandardParams c env r1).query (addStandardParams c env r2).query := by
  by_cases hsig : r1.secType = secType.secTypeSigned
  · rw [addStandardParams_query_signed c env r1 hsig,
      addStandardParams_query_signed c env r2 (hs ▸ hsig), ← hw]
    apply SameMap_Set
    by_cases hpos : r1.recvWindow > 0
    · rw [if_pos hpos, if_pos hpos]; exact SameMap_Set _ _ _ _ h
    · rw [if_neg hpos, if_neg hpos]; exact h
  · rw [addStandardParams_query_unsigned c env r1 hsig,
      addStandardParams_query_unsigned c env r2 (hs ▸ hsig), ← hw]
    by_cases hpos : r1.recvWindow > 0
    · rw [if_pos hpos, if_pos hpos]; exact SameMap_Set _ _ _ _ h
    · rw [if_neg hpos, if_neg hpos]; exact h

/-! ## The order of the calls of `set` -/

/-- C13: for parameters with pairwise distinct keys, applied by `set` to fresh requests in any
two orders (the query parameters `ps` in the order `qs`, the form parameters `fs` in the order
`gs`), the encoded query strings and the encoded form strings are identical, also after
`parseRequest` has added the receive window and the timestamp, so that `parseRequest` leaves
the same encoded query, body and URL. Each encoding is the parameters that were set, written as
`key=value` and separated by `&`, in ascending order of their keys. -/
theorem encoding_independent_of_set_order (c : Client) (env : Env) (base : request)
    (ps qs fs gs : List (String × String))
    (hq : base.query = Values.empty) (hf : base.form = Values.empty)
    (hp : ps.Perm qs) (hnd : (ps.map Prod.fst).Nodup)
    (hp2 : fs.Perm gs) (hnd2 : (fs.map Prod.fst).Nodup) :
    ((base.setParamsInOrder ps).setFormParamsInOrder fs).query.Encode
      = ((base.setParamsInOrder qs).setFormParamsInOrder gs).query.Encode ∧
    ((base.setParamsInOrder ps).setFormParamsInOrder fs).form.Encode
      = ((base.setParamsInOrder qs).setFormParamsInOrder gs).form.Encode ∧
    (addStandardParams c env ((base.setParamsInOrder ps).setFormParamsInOrder fs)).query.Encode
      = (addStandardParams c env
          ((base.setParamsInOrder qs).setFormParamsInOrder gs)).query.Encode ∧
    (env.validate ((base.setParamsInOrder ps).setFormParamsInOrder fs) = none →
      env.validate ((base.setParamsInOrder qs).setFormParamsInOrder gs) = none →
      ∃ l1 l2,
        parseRequestLocals c env ((base.setParamsInOrder ps).setFormParamsInOrder fs) []
          = Except.ok l1 ∧
        parseRequestLocals c env ((base.setParamsInOrder qs).setFormParamsInOrder gs) []
          = Except.ok l2 ∧
        l1.queryString = l2.queryString ∧ l1.bodyString = l2.bodyString ∧
        l1.r.fullURL = l2.r.fullURL) ∧
    (((base.setParamsInOrder ps).setFormParamsInOrder fs).query.Encode
        = joinPairs ((base.setParamsInOrder ps).setFormParamsInOrder fs).query.pairs ∧
      ((base.setParamsInOrder ps).setFormParamsInOrder fs).query.pairs.Perm ps ∧
      List.Pairwise (fun a b => strLe a.1 b.1 = true)
        ((base.setParamsInOrder ps).setFormParamsInOrder fs).query.pairs) ∧
    (((base.setParamsInOrder ps).setFormParamsInOrder fs).form.Encode
        = joinPairs ((base.setParamsInOrder ps).setFormParamsInOrder fs).form.pairs ∧
      ((base.setParamsInOrder ps).setFormParamsInOrder fs).form.pairs.Perm fs ∧
      List.Pairwise (fun a b => strLe a.1 b.1 = true)
        ((base.setParamsInOrder ps).setFormParamsInOrder fs).form.pairs) := by
  have e1 : (base.setParamsInOrder ps).setFormParamsInOrder fs
      = { base with query := Values.empty.setAll ps, form := Values.empty.setAll fs } := by
    rw [setFormParamsInOrder_eq, setParamsInOrder_eq, hq]
    simp only [hf]
  have e2 : (base.setParamsInOrder qs).setFormParamsInOrder gs
      = { base with query := Values.empty.setAll qs, form := Values.empty.setAll gs } := by
    rw [setFormParamsInOrder_eq, setParamsInOrder_eq, hq]
    simp only [hf]
  have hsq : Values.SameMap (Values.empty.setAll ps) (Values.empty.setAll qs) :=
    SameMap_setAll_perm Values.empty List.nodup_nil ps qs hp hnd
  have hsf : Values.SameMap (Values.empty.setAll fs) (Values.empty.setAll gs) :=
    SameMap_setAll_perm Values.empty List.nodup_nil fs gs hp2 hnd2
  have hQ := SameMap_Encode _ _ hsq
  have hF := SameMap_Encode _ _ hsf
  have hA : (addStandardParams c env
        { base with query := Values.empty.setAll ps, form := Values.empty.setAll fs }).query.Encode
      = (addStandardParams c env
        { base with query := Values.empty.setAll qs,
                    form := Values.empty.setAll gs }).query.Encode :=
    SameMap_Encode _ _ (SameMap_addStandardParams c env _ _ rfl rfl hsq)
  rw [e1, e2]
  refine ⟨hQ, hF, hA, ?_, ⟨Encode_eq_joinPairs _, pairs_setAll_perm ps hnd, pairs_sorted _⟩,
    ⟨Encode_eq_joinPairs _, pairs_setAll_perm fs hnd2, pairs_sorted _⟩⟩
  intro hv1 hv2
  obtain ⟨l1, hl1, hq1, hQ1, hF1, hfin1, hurl1⟩ := parseRequestLocals_url c env _ [] hv1
  obtain ⟨l2, hl2, hq2, hQ2, hF2, hfin2, hurl2⟩ := parseRequestLocals_url c env _ [] hv2
  have hqs : l1.queryString = l2.queryString := by
    rw [hQ1, hQ2, hq1, hq2]
    exact hA
  have hbs : l1.bodyString = l2.bodyString := by
    rw [hF1, hF2]
    exact hF
  have hfin : l1.finalQuery = l2.finalQuery := by
    rw [hfin1, hfin2, hqs, hbs]
    rfl
  refine ⟨l1, l2, hl1, hl2, hqs, hbs, ?_⟩
  rw [hurl1, hurl2, hfin]
  rfl

/-- Witness of C13: `baseAsset` and `quoteAsset` set in the two orders on a fresh signed
request. -/
theorem encoding_independent_of_set_order_witness :
    (freshRequest.setParamsInOrder [("quoteAsset", "USDT"), ("baseAsset", "BTC")]).query.Encode
      = (freshRequest.setParamsInOrder
          [("baseAsset", "BTC"), ("quoteAsset", "USDT")]).query.Encode ∧
    (freshRequest.setParamsInOrder [("quoteAsset", "USDT"), ("baseAsset", "BTC")]).query.Encode
      = "baseAsset=BTC&quoteAsset=USDT" :=
  ⟨(encoding_independent_of_set_order sampleClient sampleEnv freshRequest
      [("quoteAsset", "USDT"), ("baseAsset", "BTC")]
      [("baseAsset", "BTC"), ("quoteAsset", "USDT")] [] [] rfl rfl
      (List.Perm.swap _ _ _) (by decide) (List.Perm.refl _) (by decide)).1,
    by decide⟩

/-! ## Unescaping undoes escaping -/

theorem upperHexDigit_code (d : Nat) (hd : d < 16) :
    utf8Char (upperHexDigit d) = [(upperHexDigit d).toNat] ∧
      unhex (upperHexDigit d).toNat = some d ∧
      (upperHexDigit d).toNat ≠ 38 ∧ (upperHexDigit d).toNat ≠ 61 := by
  interval_cases d <;> decide

theorem ascii_code (b : Nat) (hb : b < 128) :
    utf8Char (Char.ofNat b) = [b] ∧ (Char.ofNat b).toNat = b := by
  interval_cases b <;> exact ⟨rfl, rfl⟩

theorem unreserved_lt (b : Nat) (h : shouldEscape b = false) :
    b < 128 ∧ b ≠ 37 ∧ b ≠ 43 ∧ b ≠ 32 ∧ b ≠ 38 ∧ b ≠ 61 := by
  simp only [shouldEscape, Bool.not_eq_false', Bool.or_eq_true, Bool.and_eq_true,
    decide_eq_true_eq, beq_iff_eq] at h
  omega

theorem unescapeBytes_cons_plain (b : Nat) (rest : List Nat) (h : b ≠ 37) :
    unescapeBytes (b :: rest)
      = (unescapeBytes rest).map (List.cons (if b = 43 then 32 else b)) := by
  rcases rest with _ | ⟨h1, _ | ⟨h2, rest2⟩⟩ <;> simp [unescapeBytes, h]

theorem unescapeBytes_cons_percent (h l x y : Nat) (rest : List Nat)
    (hx : unhex h = some x) (hy : unhex l = some y) :
    unescapeBytes (37 :: h :: l :: rest)
      = (unescapeBytes rest).map (List.cons (x * 16 + y)) := by
  simp [unescapeBytes, hx, hy]

/-- The bytes of the escape of one byte are unescaped to that byte. -/
theorem unescapeBytes_escapeByte (b : Nat) (hb : b < 256) (rest : List Nat) :
    unescapeBytes ((escapeByte b).flatMap utf8Char ++ rest)
      = (unescapeBytes rest).map (List.cons b) := by
  unfold escapeByte
  by_cases h32 : b = 32
  · subst h32
    have hplus : utf8Char '+' = [43] := by decide
    simp only [if_true, List.flatMap_cons, List.flatMap_nil, hplus, List.append_nil,
      List.singleton_append]
    rw [unescapeBytes_cons_plain _ _ (by decide)]
    rfl
  · rw [if_neg h32]
    by_cases hesc : shouldEscape b = true
    · rw [if_pos hesc]
      obtain ⟨h1, h2, _⟩ := upperHexDigit_code (b / 16 % 16) (Nat.mod_lt _ (by norm_num))
      obtain ⟨h3, h4, _⟩ := upperHexDigit_code (b % 16) (Nat.mod_lt _ (by norm_num))
      have hpct : utf8Char '%' = [37] := by decide
      simp only [List.flatMap_cons, List.flatMap_nil, hpct, h1, h3, List.append_nil,
        List.cons_append, List.nil_append, List.singleton_append]
      rw [unescapeBytes_cons_percent _ _ _ _ _ h2 h4]
      have : b / 16 % 16 * 16 + b % 16 = b := by omega
      rw [this]
    · rw [if_neg hesc]
      have hu := unreserved_lt b (by simpa using hesc)
      obtain ⟨h1, _⟩ := ascii_code b hu.1
      simp only [List.flatMap_cons, List.flatMap_nil, h1, List.append_nil, List.singleton_append]
      rw [unescapeBytes_cons_plain _ _ hu.2.1, if_neg hu.2.2.1]

theorem unescapeBytes_escape (bs : List Nat) (hbs : ∀ b ∈ bs, b < 256) :
    unescapeBytes ((bs.flatMap escapeByte).flatMap utf8Char) = some bs := by
  induction bs with
  | nil => rfl
  | cons b rest ih =>
    rw [List.flatMap_cons, List.flatMap_append,
      unescapeBytes_escapeByte b (hbs b (List.mem_cons_self _ _)),
      ih (fun x hx => hbs x (List.mem_cons_of_mem _ hx))]
    rfl

theorem char_valid (c : Char) :
    c.toNat < 0xD800 ∨ (0xDFFF < c.toNat ∧ c.toNat < 0x110000) :=
  c.valid

theorem utf8Char_lt (c : Char) : ∀ b ∈ utf8Char c, b < 256 := by
  have hv := char_valid c
  intro b hb
  unfold utf8Char at hb
  simp only at hb
  split_ifs at hb <;> simp only [List.mem_cons, List.mem_singleton, List.not_mem_nil,
    or_false] at hb <;> omega

theorem bytesOf_lt (cs : List Char) : ∀ b ∈ cs.flatMap utf8Char, b < 256 := by
  intro b hb
  obtain ⟨c, _, hc⟩ := List.mem_flatMap.1 hb
  exact utf8Char_lt c b hc

/-- The UTF-8 bytes of a character: the first byte, the bytes after it, and how they are read
back. -/
theorem utf8Char_decode (c : Char) (rest : List Nat) :
    ∃ b0 tail, utf8Char c = b0 :: tail ∧ tail.length = utf8Width b0 - 1 ∧
      utf8Rune (b0 :: (tail ++ rest)) = c := by
  have hv := char_valid c
  unfold utf8Char
  simp only
  by_cases h1 : c.toNat < 0x80
  · rw [if_pos h1]
    refine ⟨_, _, rfl, ?_, ?_⟩
    · have : c.toNat < 0xC0 := by omega
      simp [utf8Width, this]
    · simp [utf8Rune, h1]
  · rw [if_neg h1]
    by_cases h2 : c.toNat < 0x800
    · rw [if_pos h2]
      have e : (0xC0 + c.toNat / 64 - 0xC0) * 64 + (0x80 + c.toNat % 64 - 0x80) = c.toNat := by
        omega
      have a1 : ¬ (0xC0 + c.toNat / 64 < 0x80) := by omega
      have a2 : ¬ (0xC0 + c.toNat / 64 < 0xC0) := by omega
      have a3 : 0xC0 + c.toNat / 64 < 0xE0 := by omega
      refine ⟨_, _, rfl, ?_, ?_⟩
      · simp only [utf8Width, a2, a3, if_true, if_false, List.length_singleton]
      · simp only [utf8Rune, List.getD_cons_zero, List.getD_cons_succ, List.cons_append,
          List.nil_append, a1, a2, a3, if_true, if_false, e, Char.ofNat_toNat]
    · rw [if_neg h2]
      by_cases h3 : c.toNat < 0x10000
      · rw [if_pos h3]
        have e : (0xE0 + c.toNat / 4096 - 0xE0) * 4096 + (0x80 + c.toNat / 64 % 64 - 0x80) * 64
            + (0x80 + c.toNat % 64 - 0x80) = c.toNat := by omega
        have a1 : ¬ (0xE0 + c.toNat / 4096 < 0x80) := by omega
        have a2 : ¬ (0xE0 + c.toNat / 4096 < 0xC0) := by omega
        have a3 : ¬ (0xE0 + c.toNat / 4096 < 0xE0) := by omega
        have a4 : 0xE0 + c.toNat / 4096 < 0xF0 := by omega
        refine ⟨_, _, rfl, ?_, ?_⟩
        · simp only [utf8Width, a2, a3, a4, if_true, if_false, List.length_cons,
            List.length_nil]
        · simp only [utf8Rune, List.getD_cons_zero, List.getD_cons_succ, List.cons_append,
            List.nil_append, a1, a2, a3, a4, if_true, if_false, e, Char.ofNat_toNat]
      · rw [if_neg h3]
        have e : (0xF0 + c.toNat / 262144 - 0xF0) * 262144
            + (0x80 + c.toNat / 4096 % 64 - 0x80) * 4096
            + (0x80 + c.toNat / 64 % 64 - 0x80) * 64 + (0x80 + c.toNat % 64 - 0x80)
            = c.toNat := by omega
        have a1 : ¬ (0xF0 + c.toNat / 262144 < 0x80) := by omega
        have a2 : ¬ (0xF0 + c.toNat / 262144 < 0xC0) := by omega
        have a3 : ¬ (0xF0 + c.toNat / 262144 < 0xE0) := by omega
        have a4 : ¬ (0xF0 + c.toNat / 262144 < 0xF0) := by omega
        refine ⟨_, _, rfl, ?_, ?_⟩
        · simp only [utf8Width, a2, a3, a4, if_false, List.length_cons, List.length_nil]
        · simp only [utf8Rune, List.getD_cons_zero, List.getD_cons_succ, List.cons_append,
            List.nil_append, a1, a2, a3, a4, if_false, e, Char.ofNat_toNat]

theorem utf8DecodeFuel_bytes (cs : List Char) :
    ∀ fuel, (cs.flatMap utf8Char).length ≤ fuel →
      utf8DecodeFuel fuel (cs.flatMap utf8Char) = cs := by
  induction cs with
  | nil => intro fuel _; cases fuel <;> rfl
  | cons c rest ih =>
    intro fuel hfuel
    obtain ⟨b0, tail, hc, hlen, hrune⟩ := utf8Char_decode c (rest.flatMap utf8Char)
    rw [List.flatMap_cons, hc] at hfuel ⊢
    simp only [List.cons_append, List.length_cons, List.length_append] at hfuel
    cases fuel with
    | zero => omega
    | succ f =>
      have hd : List.drop (utf8Width b0 - 1) (tail ++ rest.flatMap utf8Char)
          = rest.flatMap utf8Char := by
        rw [← hlen, List.drop_left]
      show utf8Rune (b0 :: (tail ++ rest.flatMap utf8Char))
          :: utf8DecodeFuel f (List.drop (utf8Width b0 - 1) (tail ++ rest.flatMap utf8Char))
        = c :: rest
      rw [hrune, hd, ih f (by omega)]

theorem utf8Decode_bytes (cs : List Char) : utf8Decode (cs.flatMap utf8Char) = cs :=
  utf8DecodeFuel_bytes cs _ (Nat.le_refl _)

/-- Go `QueryUnescape(QueryEscape(s)) = s`, without error. -/
theorem QueryUnescape_QueryEscape (s : String) : QueryUnescape (QueryEscape s) = some s := by
  unfold QueryUnescape queryUnescapeChars QueryEscape bytesOf
  simp only
  rw [unescapeBytes_escape _ (bytesOf_lt s.data)]
  simp only [Option.map_some', utf8Decode_bytes]

/-! ## The decoding of an encoded query -/

/-- The characters that escaping writes are none of `&`, `=` and `;`. -/
theorem escapeByte_no_separator (b : Nat) :
    ∀ ch ∈ escapeByte b, ch ≠ '&' ∧ ch ≠ '=' ∧ ch ≠ ';' := by
  intro ch hch
  unfold escapeByte at hch
  have hhex : ∀ d, d < 16 → upperHexDigit d ≠ '&' ∧ upperHexDigit d ≠ '=' ∧
      upperHexDigit d ≠ ';' := by
    intro d hd
    interval_cases d <;> decide
  by_cases h32 : b = 32
  · rw [if_pos h32, List.mem_singleton] at hch
    rw [hch]; decide
  · rw [if_neg h32] at hch
    by_cases hesc : shouldEscape b = true
    · rw [if_pos hesc] at hch
      simp only [List.mem_cons, List.mem_singleton, List.not_mem_nil, or_false] at hch
      rcases hch with h | h | h
      · rw [h]; decide
      · rw [h]; exact hhex _ (Nat.mod_lt _ (by norm_num))
      · rw [h]; exact hhex _ (Nat.mod_lt _ (by norm_num))
    · rw [if_neg hesc, List.mem_singleton] at hch
      have hu := unreserved_lt b (by simpa using hesc)
      have hcode := (ascii_code b hu.1).2
      have h59 : b ≠ 59 := by
        intro h
        rw [h] at hesc
        exact hesc (by decide)
      rw [hch]
      refine ⟨?_, ?_, ?_⟩ <;> intro h <;> rw [h] at hcode
      · exact hu.2.2.2.2.1 (by rw [← hcode]; decide)
      · exact hu.2.2.2.2.2 (by rw [← hcode]; decide)
      · exact h59 (by rw [← hcode]; decide)

theorem QueryEscape_no_separator (s : String) :
    ∀ ch ∈ (QueryEscape s).data, ch ≠ '&' ∧ ch ≠ '=' ∧ ch ≠ ';' := by
  intro ch hch
  unfold QueryEscape at hch
  obtain ⟨b, _, hb⟩ := List.mem_flatMap.1 hch
  exact escapeByte_no_separator b ch hb

theorem encodedPair_data (p : String × String) :
    (encodedPair p).data = (QueryEscape p.1).data ++ '=' :: (QueryEscape p.2).data := by
  unfold encodedPair
  rw [String.data_append, String.data_append]
  simp

theorem cutAt_append (sep : Char) (a b : List Char) (h : ∀ ch ∈ a, ch ≠ sep) :
    cutAt sep (a ++ sep :: b) = (a, b) := by
  induction a with
  | nil => simp [cutAt]
  | cons x xs ih =>
    have hx : x ≠ sep := h x (List.mem_cons_self _ _)
    have := ih (fun ch hch => h ch (List.mem_cons_of_mem _ hch))
    simp only [List.cons_append, cutAt, hx, if_false, List.append_eq, this]

theorem splitOn_no_sep (sep : Char) (a : List Char) (h : ∀ ch ∈ a, ch ≠ sep) :
    splitOn sep a = [a] := by
  induction a with
  | nil => rfl
  | cons x xs ih =>
    have hx : x ≠ sep := h x (List.mem_cons_self _ _)
    simp only [splitOn, hx, if_false, ih (fun ch hch => h ch (List.mem_cons_of_mem _ hch))]

theorem splitOn_append (sep : Char) (a b : List Char) (h : ∀ ch ∈ a, ch ≠ sep) :
    splitOn sep (a ++ sep :: b) = a :: splitOn sep b := by
  induction a with
  | nil => simp [splitOn]
  | cons x xs ih =>
    have hx : x ≠ sep := h x (List.mem_cons_self _ _)
    simp only [List.cons_append, splitOn, hx, if_false, List.append_eq,
      ih (fun ch hch => h ch (List.mem_cons_of_mem _ hch))]

theorem encodedPair_no_amp (p : String × String) :
    ∀ ch ∈ (encodedPair p).data, ch ≠ '&' ∧ ch ≠ ';' := by
  intro ch hch
  rw [encodedPair_data, List.mem_append, List.mem_cons] at hch
  rcases hch with h | h | h
  · exact ⟨(QueryEscape_no_separator _ ch h).1, (QueryEscape_no_separator _ ch h).2.2⟩
  · rw [h]; decide
  · exact ⟨(QueryEscape_no_separator _ ch h).1, (QueryEscape_no_separator _ ch h).2.2⟩

/-- The pieces of the encoding of a non-empty list of parameters are the encoded parameters. -/
theorem splitOn_joinPairs (p : String × String) (ps : List (String × String)) :
    splitOn '&' (joinPairs (p :: ps)).data = (p :: ps).map (fun q => (encodedPair q).data) := by
  induction ps generalizing p with
  | nil =>
    simp only [joinPairs, List.map_cons, List.map_nil]
    exact splitOn_no_sep _ _ (fun ch hch => (encodedPair_no_amp p ch hch).1)
  | cons q rest ih =>
    have hd : (joinPairs (p :: q :: rest)).data
        = (encodedPair p).data ++ '&' :: (joinPairs (q :: rest)).data := by
      simp only [joinPairs, String.data_append]
      simp
    rw [hd, splitOn_append _ _ _ (fun ch hch => (encodedPair_no_amp p ch hch).1), ih q]
    rfl

/-- One round of the loop of `parseQuery` on an encoded parameter appends the value to the
values of the key. -/
theorem parseQueryPiece_encodedPair (m : Values) (e : Option GoError) (p : String × String) :
    parseQueryPiece (m, e) (encodedPair p).data = (m.Add p.1 p.2, e) := by
  have hsemi : (encodedPair p).data.contains ';' = false := by
    rw [List.contains_eq_any_beq, List.any_eq_false]
    intro ch hch
    have := (encodedPair_no_amp p ch hch).2
    intro hb
    exact this (beq_iff_eq.1 hb).symm
  have hne : (encodedPair p).data ≠ [] := by
    rw [encodedPair_data]; simp
  have hcut : cutAt '=' (encodedPair p).data = ((QueryEscape p.1).data, (QueryEscape p.2).data) := by
    rw [encodedPair_data]
    exact cutAt_append _ _ _ (fun ch hch => (QueryEscape_no_separator _ ch hch).2.1)
  have h1 : queryUnescapeChars (QueryEscape p.1).data = some p.1 := QueryUnescape_QueryEscape p.1
  have h2 : queryUnescapeChars (QueryEscape p.2).data = some p.2 := QueryUnescape_QueryEscape p.2
  unfold parseQueryPiece
  simp only [hsemi, hne, hcut, h1, h2, if_false, Bool.false_eq_true]

theorem foldl_parseQueryPiece (ps : List (String × String)) :
    ∀ (m : Values) (e : Option GoError),
      (ps.map (fun q => (encodedPair q).data)).foldl parseQueryPiece (m, e)
        = (ps.foldl (fun acc q => acc.Add q.1 q.2) m, e) := by
  induction ps with
  | nil => intro m e; rfl
  | cons p rest ih =>
    intro m e
    simp only [List.map_cons, List.foldl_cons, parseQueryPiece_encodedPair, ih]

/-- Decoding the encoding of a list of parameters appends each value to the values of its key,
in the order of the list, without error. -/
theorem ParseQuery_joinPairs (ps : List (String × String)) :
    ParseQuery (joinPairs ps) = (ps.foldl (fun acc q => acc.Add q.1 q.2) Values.empty, none) := by
  unfold ParseQuery
  cases ps with
  | nil => rfl
  | cons p rest => rw [splitOn_joinPairs, foldl_parseQueryPiece]

theorem lookup_foldl_Add (ps : List (String × String)) :
    ∀ (m : Values) (k : String),
      (ps.foldl (fun acc q => acc.Add q.1 q.2) m).lookup k
        = m.lookup k ++ (ps.filter (fun q => q.1 = k)).map Prod.snd := by
  induction ps with
  | nil => intro m k; simp
  | cons p rest ih =>
    intro m k
    rw [List.foldl_cons, ih]
    by_cases hk : p.1 = k
    · subst hk
      rw [lookup_Add_same]
      simp
    · rw [lookup_Add_other _ _ _ _ hk]
      simp [hk]

theorem mem_keys_foldl_Add (ps : List (String × String)) :
    ∀ (m : Values) (k : String),
      k ∈ (ps.foldl (fun acc q => acc.Add q.1 q.2) m).keys
        ↔ (k ∈ m.keys ∨ k ∈ ps.map Prod.fst) := by
  induction ps with
  | nil => intro m k; simp
  | cons p rest ih =>
    intro m k
    rw [List.foldl_cons, ih, mem_keys_Add]
    simp only [List.map_cons, List.mem_cons]
    tauto

theorem nodup_keys_foldl_Add (ps : List (String × String)) :
    ∀ (m : Values), m.keys.Nodup → (ps.foldl (fun acc q => acc.Add q.1 q.2) m).keys.Nodup := by
  induction ps with
  | nil => intro m h; exact h
  | cons p rest ih =>
    intro m h
    exact ih _ (nodup_keys_Add _ _ _ h)

theorem lookup_of_not_mem_keys (v : Values) (k : String) (h : k ∉ v.keys) : v.lookup k = [] := by
  by_contra hne
  exact h (mem_keys_of_lookupEntries k v.entries hne)

/-- The values of a key among the parameters of an encoding are the values of the key in the
map, when no key is repeated in its entries. -/
theorem filter_pairs (v : Values) (hnd : v.keys.Nodup) (k : String) :
    (v.pairs.filter (fun q => q.1 = k)).map Prod.snd = v.lookup k := by
  have hgen : ∀ ks : List String, ks.Nodup →
      ((ks.flatMap (fun k2 => (v.lookup k2).map (fun x => (k2, x)))).filter
          (fun q => q.1 = k)).map Prod.snd
        = if k ∈ ks then v.lookup k else [] := by
    intro ks
    induction ks with
    | nil => intro _; rfl
    | cons k2 rest ih =>
      intro hks
      rw [List.nodup_cons] at hks
      rw [List.flatMap_cons, List.filter_append, List.map_append, ih hks.2]
      by_cases h : k2 = k
      · subst h
        have h1 : ((v.lookup k2).map (fun x => (k2, x))).filter (fun q => q.1 = k2)
            = (v.lookup k2).map (fun x => (k2, x)) := by
          rw [List.filter_eq_self]
          intro q hq
          obtain ⟨x, _, hx⟩ := List.mem_map.1 hq
          rw [← hx]
          simp
        rw [h1, if_neg hks.1]
        simp [List.map_map, Function.comp_def]
      · have h1 : ((v.lookup k2).map (fun x => (k2, x))).filter (fun q => q.1 = k) = [] := by
          rw [List.filter_eq_nil_iff]
          intro q hq
          obtain ⟨x, _, hx⟩ := List.mem_map.1 hq
          rw [← hx]
          simpa using h
        have h2 : (k ∈ k2 :: rest) ↔ k ∈ rest := by
          simp only [List.mem_cons]
          constructor
          · rintro (h3 | h3)
            · exact absurd h3.symm h
            · exact h3
          · exact Or.inr
        rw [h1]
        simp only [List.map_nil, List.nil_append, h2]
  unfold Values.pairs
  rw [hgen _ ((sortStrings_perm v.keys).nodup_iff.2 hnd)]
  by_cases hk : k ∈ v.keys
  · rw [if_pos ((mem_sortStrings _ _).2 hk)]
  · rw [if_neg (fun h => hk ((mem_sortStrings _ _).1 h)), lookup_of_not_mem_keys v k hk]

/-- A map built by `set` and `add` from a map without a repeated key in which every key has a
value is such a map. -/
theorem buildValues_invariant (calls : List ParamCall) :
    ∀ v : Values, (v.keys.Nodup ∧ ∀ k ∈ v.keys, v.lookup k ≠ []) →
      ((calls.foldl ParamCall.apply v).keys.Nodup ∧
        ∀ k ∈ (calls.foldl ParamCall.apply v).keys,
          (calls.foldl ParamCall.apply v).lookup k ≠ []) := by
  induction calls with
  | nil => intro v h; exact h
  | cons call rest ih =>
    intro v h
    rw [List.foldl_cons]
    apply ih
    cases call with
    | set key value =>
      refine ⟨nodup_keys_Set _ _ _ h.1, ?_⟩
      intro k hk
      by_cases hkk : key = k
      · subst hkk
        simp [ParamCall.apply, lookup_Set_same]
      · simp only [ParamCall.apply]
        rw [lookup_Set_other _ _ _ _ hkk]
        rcases (mem_keys_Set _ _ _ _).1 hk with h2 | h2
        · exact absurd h2.symm hkk
        · exact h.2 k h2
    | add key value =>
      refine ⟨nodup_keys_Add _ _ _ h.1, ?_⟩
      intro k hk
      by_cases hkk : key = k
      · subst hkk
        simp [ParamCall.apply, lookup_Add_same]
      · simp only [ParamCall.apply]
        rw [lookup_Add_other _ _ _ _ hkk]
        rcases (mem_keys_Add _ _ _ _).1 hk with h2 | h2
        · exact absurd h2.symm hkk
        · exact h.2 k h2

/-- Decoding the encoding of a map without a repeated key in its entries gives, for every key,
the values of the key in the map, without error. -/
theorem ParseQuery_Encode (v : Values) (hnd : v.keys.Nodup) :
    (ParseQuery v.Encode).2 = none ∧
    (ParseQuery v.Encode).1.keys.Nodup ∧
    (∀ k, (ParseQuery v.Encode).1.lookup k = v.lookup k) ∧
    (∀ k, k ∈ (ParseQuery v.Encode).1.keys ↔ (k ∈ v.keys ∧ v.lookup k ≠ [])) := by
  rw [Encode_eq_joinPairs, ParseQuery_joinPairs]
  refine ⟨rfl, nodup_keys_foldl_Add _ _ List.nodup_nil, ?_, ?_⟩
  · intro k
    rw [lookup_foldl_Add, filter_pairs v hnd k]
    rfl
  · intro k
    rw [mem_keys_foldl_Add]
    have hempty : k ∉ Values.empty.keys := List.not_mem_nil _
    simp only [hempty, false_or, List.mem_map]
    constructor
    · rintro ⟨⟨k2, x⟩, hp, hk⟩
      simp only at hk
      subst hk
      have := (mem_pairs v k2 x).1 hp
      exact ⟨this.1, fun h => by rw [h] at this; exact absurd this.2 (List.not_mem_nil _)⟩
    · rintro ⟨hk, hne⟩
      obtain ⟨x, hx⟩ := List.exists_mem_of_ne_nil _ hne
      exact ⟨(k, x), (mem_pairs v k x).2 ⟨hk, hx⟩, rfl⟩

/-- C14: for the parameter set built from the empty one by any sequence of `set` and `add`
calls, whatever the characters of the keys and values, decoding the encoding of the set returns
no error and a map with the same keys, none repeated, and under every key the same values in the
same order as in the set. -/
theorem ParseQuery_Encode_roundtrip (calls : List ParamCall) :
    (ParseQuery (buildValues calls).Encode).2 = none ∧
    (∀ k, (ParseQuery (buildValues calls).Encode).1.lookup k = (buildValues calls).lookup k) ∧
    (∀ k, (ParseQuery (buildValues calls).Encode).1.has k = (buildValues calls).has k) ∧
    Values.SameMap (ParseQuery (buildValues calls).Encode).1 (buildValues calls) := by
  have hinv := buildValues_invariant calls Values.empty
    ⟨List.nodup_nil, fun k hk => absurd hk (List.not_mem_nil _)⟩
  obtain ⟨h1, h2, h3, h4⟩ := ParseQuery_Encode (buildValues calls) hinv.1
  have hmem : ∀ k, k ∈ (ParseQuery (buildValues calls).Encode).1.keys
      ↔ k ∈ (buildValues calls).keys := by
    intro k
    rw [h4]
    exact ⟨fun h => h.1, fun h => ⟨h, hinv.2 k h⟩⟩
  have hhas : ∀ (v : Values) (k : String), v.has k = true ↔ k ∈ v.keys := by
    intro v k
    simp [Values.has, Values.keys]
  refine ⟨h1, h3, ?_, ⟨h2, hinv.1, hmem, h3⟩⟩
  intro k
  rw [Bool.eq_iff_iff, hhas, hhas]
  exact hmem k

/-- Witness of C14: a sequence of calls with a key set twice, a key with two values and reserved
characters, and what decoding its encoding gives for the key `asset`. -/
theorem ParseQuery_Encode_roundtrip_witness :
    (buildValues sampleCalls).Encode = "a+b=x&asset=B%26T%3DC&asset=E+TH%2B%25&type=COMBINATION" ∧
    (ParseQuery (buildValues sampleCalls).Encode).1.lookup "asset" = ["B&T=C", "E TH+%"] ∧
    (ParseQuery (buildValues sampleCalls).Encode).2 = none :=
  ⟨by decide,
    ((ParseQuery_Encode_roundtrip sampleCalls).2.1 "asset").trans (by decide),
    (ParseQuery_Encode_roundtrip sampleCalls).1⟩

/-! ## The receive window -/

theorem infix_joinPairs (ps : List (String × String)) (p : String × String) (hp : p ∈ ps) :
    (encodedPair p).data <:+: (joinPairs ps).data := by
  induction ps with
  | nil => exact absurd hp (List.not_mem_nil _)
  | cons q rest ih =>
    cases rest with
    | nil =>
      rw [List.mem_singleton] at hp
      rw [hp]
      exact List.infix_refl _
    | cons q2 rest2 =>
      have hd : (joinPairs (q :: q2 :: rest2)).data
          = (encodedPair q).data ++ '&' :: (joinPairs (q2 :: rest2)).data := by
        simp only [joinPairs, String.data_append]
        simp
      rw [hd]
      rcases List.mem_cons.1 hp with h | h
      · rw [h]
        exact ⟨[], '&' :: (joinPairs (q2 :: rest2)).data, by simp⟩
      · obtain ⟨a, b, hab⟩ := ih h
        exact ⟨(encodedPair q).data ++ '&' :: a, b, by simp [← hab]⟩

/-- A parameter of a map is written in its encoding. -/
theorem infix_Encode (v : Values) (k x : String) (hx : v.lookup k = [x]) :
    (encodedPair (k, x)).data <:+: v.Encode.data := by
  rw [Encode_eq_joinPairs]
  apply infix_joinPairs
  rw [mem_pairs]
  refine ⟨mem_keys_of_lookupEntries k v.entries ?_, ?_⟩
  · show v.lookup k ≠ []
    rw [hx]; simp
  · rw [hx]; exact List.mem_singleton.2 rfl

theorem encodedPair_recvWindow (w : Int) :
    encodedPair (recvWindowKey, formatInt w) = "recvWindow=" ++ formatInt w := by
  unfold encodedPair
  rw [QueryEscape_formatInt]
  have : QueryEscape recvWindowKey = "recvWindow" := by decide
  rw [this]
  rfl

theorem infix_append_right_data (s a b : String) (h : s.data <:+: a.data) :
    s.data <:+: (a ++ b).data := by
  rw [String.data_append]
  exact h.trans (List.infix_append' [] a.data b.data)

theorem infix_append_left_data (s a b : String) (h : s.data <:+: b.data) :
    s.data <:+: (a ++ b).data := by
  rw [String.data_append]
  exact h.trans ⟨a.data, [], by simp⟩

/-- C12: for a request that passes validation, when the receive window `w` is set (`w > 0`)
`parseRequest` leaves under the key `recvWindow` of the query set the single value `decimal(w)`,
set before the encoding: `recvWindow=decimal(w)` is written in the encoded query string, in the
full URL and, for a signed request, in the message that is signed. When no receive window is
set (`w` is not positive) the key `recvWindow` is left as the caller had it: none is added. -/
theorem parseRequest_recvWindow (c : Client) (env : Env) (r : request)
    (opts : List RequestOption) (hv : env.validate (applyOptions opts r) = none) :
    ∃ l, parseRequestLocals c env r opts = Except.ok l ∧
      l.queryString = l.r.query.Encode ∧
      ((applyOptions opts r).recvWindow > 0 →
        l.r.query.lookup recvWindowKey = [formatInt (applyOptions opts r).recvWindow] ∧
        ("recvWindow=" ++ formatInt (applyOptions opts r).recvWindow).data
          <:+: l.queryString.data ∧
        ("recvWindow=" ++ formatInt (applyOptions opts r).recvWindow).data
          <:+: l.r.fullURL.data ∧
        ((applyOptions opts r).secType = secType.secTypeSigned →
          ∃ raw, l.raw = some raw ∧
            ("recvWindow=" ++ formatInt (applyOptions opts r).recvWindow).data
              <:+: raw.data)) ∧
      (¬ (applyOptions opts r).recvWindow > 0 →
        l.r.query.lookup recvWindowKey = (applyOptions opts r).query.lookup recvWindowKey ∧
        l.r.query.has recvWindowKey = (applyOptions opts r).query.has recvWindowKey) := by
  obtain ⟨l, hl, hq, hQ, hF, hfin, hurl⟩ := parseRequestLocals_url c env r opts hv
  have hk : timestampKey ≠ recvWindowKey := by decide
  refine ⟨l, hl, hQ, ?_, ?_⟩
  · intro hw
    have hlook : l.r.query.lookup recvWindowKey
        = [formatInt (applyOptions opts r).recvWindow] := by
      rw [hq]
      by_cases hs : (applyOptions opts r).secType = secType.secTypeSigned
      · rw [addStandardParams_query_signed c env _ hs, if_pos hw,
          lookup_Set_other _ _ _ _ hk, lookup_Set_same]
      · rw [addStandardParams_query_unsigned c env _ hs, if_pos hw, lookup_Set_same]
    have hinQ : ("recvWindow=" ++ formatInt (applyOptions opts r).recvWindow).data
        <:+: l.queryString.data := by
      rw [hQ, ← encodedPair_recvWindow]
      exact infix_Encode _ _ _ hlook
    have hinFinal : ("recvWindow=" ++ formatInt (applyOptions opts r).recvWindow).data
        <:+: l.finalQuery.data := by
      rw [hfin]
      split
      · split
        · rename_i hempty
          rw [hempty] at hinQ
          obtain ⟨a, b, hab⟩ := hinQ
          have hd : ("" : String).data = [] := rfl
          rw [hd] at hab
          have : ("recvWindow=" ++ formatInt (applyOptions opts r).recvWindow).data = [] := by
            have h1 := congrArg List.length hab
            simp only [List.length_append, List.length_nil] at h1
            exact List.eq_nil_of_length_eq_zero (by omega)
          rw [this]
          exact List.nil_infix
        · exact infix_append_right_data _ _ _ (infix_append_right_data _ _ _ hinQ)
      · exact hinQ
    refine ⟨hlook, hinQ, ?_, ?_⟩
    · rw [hurl]
      split
      · exact infix_append_left_data _ _ _ hinFinal
      · rename_i hempty
        have hempty2 : l.finalQuery = "" := by
          by_contra h
          exact hempty h
        rw [hempty2] at hinFinal
        obtain ⟨a, b, hab⟩ := hinFinal
        have hd : ("" : String).data = [] := rfl
        rw [hd] at hab
        have : ("recvWindow=" ++ formatInt (applyOptions opts r).recvWindow).data = [] := by
          have h1 := congrArg List.length hab
          simp only [List.length_append, List.length_nil] at h1
          exact List.eq_nil_of_length_eq_zero (by omega)
        rw [this]
        exact List.nil_infix
    · intro hs
      obtain ⟨l2, hl2, _, _, _, _, _, hraw, _⟩ := parseRequestLocals_signed c env r opts hv hs
      have e : l2 = l := Except.ok.inj (hl2.symm.trans hl)
      subst e
      exact ⟨_, hraw, infix_append_right_data _ _ _ hinQ⟩
  · intro hw
    rw [hq]
    have hk2 : timestampKey ≠ recvWindowKey := hk
    by_cases hs : (applyOptions opts r).secType = secType.secTypeSigned
    · rw [addStandardParams_query_signed c env _ hs, if_neg hw]
      exact ⟨lookup_Set_other _ _ _ _ hk2, has_Set_other _ _ _ _ hk2⟩
    · rw [addStandardParams_query_unsigned c env _ hs, if_neg hw]
      exact ⟨rfl, rfl⟩

/-- Witness of C12: the signed request of the liquidity information service with a receive
window of 5000 ms. -/
theorem parseRequest_recvWindow_witness :
    sampleEnv.validate (applyOptions [withRecvWindow 5000] poolRequest) = none ∧
    (applyOptions [withRecvWindow 5000] poolRequest).recvWindow = 5000 ∧
    ∃ l, parseRequestLocals sampleClient sampleEnv poolRequest [withRecvWindow 5000]
        = Except.ok l ∧
      l.r.query.lookup recvWindowKey = ["5000"] ∧
      ("recvWindow=" ++ formatInt 5000).data <:+: l.r.fullURL.data :=
  ⟨rfl, rfl,
    (parseRequest_recvWindow sampleClient sampleEnv poolRequest [withRecvWindow 5000] rfl).elim
      (fun l h => ⟨l, h.1, (h.2.2.1 (by decide)).1.trans (by decide),
        (h.2.2.1 (by decide)).2.2.1⟩)⟩

/-- The rendering of three `float64` values from their encodings: 1.5, which is
`6755399441055744 * 2^-52`, has the shortest decimal `15 * 10^-1` and is written `1.5`; `2^20`
has the decimal `1048576` and is written `1.048576e+06`; the value nearest to 0.1 has the
shortest decimal `1 * 10^-1` and is written `0.1`. -/
theorem shortestDecimal_examples :
    shortestDecimal 6755399441055744 (-52) = (15, -1) ∧
    fmtF (Nat.toDigits 10 15) 1 = "1.5" ∧
    shortestDecimal 4503599627370496 (-32) = (1048576, 0) ∧
    fmtE (Nat.toDigits 10 1048576) 7 = "1.048576e+06" ∧
    shortestDecimal 7205759403792794 (-56) = (1, -1) ∧
    fmtF (Nat.toDigits 10 1) 0 = "0.1" := by
  decide

end Binance
